import Mathlib

/-!
shrub: a shallow embedding of the configuration builder

The development follows the Go sources `operations.go`, `task.go`, `variant.go`
and `config.go`.

Conventions of the embedding

* A Go `string` that the code only compares, copies or formats (names, formats,
  messages, map keys of entities) is a `String`. A string field of a command
  that is exported to a parameter mapping is a `GoString`, a sequence of bytes:
  `json.Marshal` rewrites the bytes that are not valid UTF-8, so the export
  goes through `GoString.jsonText`. A string literal in the place of a
  `GoString` stands for its UTF-8 encoding.
* A Go `int` is an `Int` (no arithmetic is ever performed on these fields; an
  `int` that is exported to a parameter mapping goes through `float64OfInt`),
  a Go `bool` is a `Bool`.
* A slice field of a command is an `Option (List α)`: `none` is the nil slice,
  `some xs` a non-nil slice (the two marshal differently: `null` against `[...]`).
  A map field of a command is an `Option (List (GoString × β))` in the same way.
* An `error` result is an `Option Error`: `none` is `nil`.
* A call that may end in a Go `panic` returns `Except PanicValue α`; the
  payload is the value handed to `panic`.
* Pointers to entities are addresses into an explicit `Heap`.
-/

namespace Shrub

/-! ## Errors and panics -/

/-- An error value, identified with its message (`errors.New`, `fmt.Errorf`). -/
abbrev Error := String

/-- The value handed to `panic`: an `error` interface value, possibly nil. -/
abbrev PanicValue := Option Error

/-! ## Go strings

A Go `string` is a sequence of bytes. The functions below follow the packages
`unicode/utf8` and `encoding/json` of the Go standard library, which
`exportCmd` calls. -/

/-- A byte of a Go string. -/
abbrev Byte := Fin 256

/-- The byte with the value `n`, taken modulo 256. -/
def Byte.ofNat (n : Nat) : Byte := ⟨n % 256, Nat.mod_lt n (by decide)⟩

/-- A Go `string`: any sequence of bytes, valid UTF-8 or not. -/
structure GoString where
  bytes : List Byte
  deriving DecidableEq

/-- The UTF-8 encoding of a code point (`utf8.AppendRune`). -/
def encodeRune (c : Char) : List Byte :=
  let n := c.toNat
  if n < 0x80 then [Byte.ofNat n]
  else if n < 0x800 then [Byte.ofNat (0xC0 + n / 64), Byte.ofNat (0x80 + n % 64)]
  else if n < 0x10000 then
    [Byte.ofNat (0xE0 + n / 4096), Byte.ofNat (0x80 + n / 64 % 64), Byte.ofNat (0x80 + n % 64)]
  else
    [Byte.ofNat (0xF0 + n / 262144), Byte.ofNat (0x80 + n / 4096 % 64),
     Byte.ofNat (0x80 + n / 64 % 64), Byte.ofNat (0x80 + n % 64)]

/-- The UTF-8 encoding of a sequence of code points. -/
def encodeRunes : List Char → List Byte
  | [] => []
  | c :: cs => encodeRune c ++ encodeRunes cs

/-- The Go string that holds the UTF-8 encoding of a text, as a string literal
of a Go source file does. -/
def GoString.ofString (s : String) : GoString := ⟨encodeRunes s.data⟩

instance : Coe String GoString := ⟨GoString.ofString⟩

/-- The code point U+FFFD (`utf8.RuneError`). -/
def runeError : Char := Char.ofNat 0xFFFD

/-- The function `utf8.DecodeRuneInString` on the non-empty string
`b0 :: rest`: the code point that the first bytes encode and the number of
bytes of the encoding. A first byte that starts no encoding, a continuation
byte out of range (the ranges after `E0`, `ED`, `F0` and `F4` are narrower, to
shut out overlong forms, surrogates and values above U+10FFFF) and an encoding
cut short give U+FFFD and the width 1. -/
def decodeRune (b0 : Byte) (rest : List Byte) : Char × Nat :=
  let x := b0.val
  if x < 0x80 then (Char.ofNat x, 1)
  else if x < 0xC2 then (runeError, 1)
  else if x < 0xE0 then
    match rest with
    | b1 :: _ =>
      if 0x80 ≤ b1.val ∧ b1.val ≤ 0xBF then (Char.ofNat (x % 32 * 64 + b1.val % 64), 2)
      else (runeError, 1)
    | _ => (runeError, 1)
  else if x < 0xF0 then
    match rest with
    | b1 :: b2 :: _ =>
      if (if x = 0xE0 then 0xA0 else 0x80) ≤ b1.val ∧
          b1.val ≤ (if x = 0xED then 0x9F else 0xBF) ∧ 0x80 ≤ b2.val ∧ b2.val ≤ 0xBF then
        (Char.ofNat (x % 16 * 4096 + b1.val % 64 * 64 + b2.val % 64), 3)
      else (runeError, 1)
    | _ => (runeError, 1)
  else if x < 0xF5 then
    match rest with
    | b1 :: b2 :: b3 :: _ =>
      if (if x = 0xF0 then 0x90 else 0x80) ≤ b1.val ∧
          b1.val ≤ (if x = 0xF4 then 0x8F else 0xBF) ∧ 0x80 ≤ b2.val ∧ b2.val ≤ 0xBF ∧
          0x80 ≤ b3.val ∧ b3.val ≤ 0xBF then
        (Char.ofNat (x % 8 * 262144 + b1.val % 64 * 4096 + b2.val % 64 * 64 + b3.val % 64), 4)
      else (runeError, 1)
    | _ => (runeError, 1)
  else (runeError, 1)

/-- The loop by which `json.Marshal` writes a string: the code points decoded
one after the other, each step moving on by the width that `decodeRune`
returns, so that every byte that is part of no valid encoding becomes one
U+FFFD. The first argument counts the bytes of the last encoding that are
still to be passed over. -/
def decodeRunes : Nat → List Byte → List Char
  | _, [] => []
  | skip + 1, _ :: rest => decodeRunes skip rest
  | 0, b :: rest => (decodeRune b rest).1 :: decodeRunes ((decodeRune b rest).2 - 1) rest

/-- The text that `json.Unmarshal` reads back for a string written by
`json.Marshal`: the string itself when it is valid UTF-8 (escapes are undone by
the decoder), otherwise the string with every invalid byte replaced by U+FFFD. -/
def GoString.jsonText (s : GoString) : String := ⟨decodeRunes 0 s.bytes⟩

/-- The order of `strings.Compare` on the bytes: `a ≤ b`. -/
def bytesLE : List Byte → List Byte → Bool
  | [], _ => true
  | _ :: _, [] => false
  | a :: as, b :: bs =>
    if a.val < b.val then true else if b.val < a.val then false else bytesLE as bs

/-- Insertion of an entry into a list sorted by key, before the first entry
whose key is not smaller. -/
def insertByKey {β : Type} (kv : GoString × β) : List (GoString × β) → List (GoString × β)
  | [] => [kv]
  | x :: xs => if bytesLE kv.1.bytes x.1.bytes then kv :: x :: xs else x :: insertByKey kv xs

/-- The entries of a Go map in the order in which `json.Marshal` writes them:
sorted by key. -/
def sortByKey {β : Type} : List (GoString × β) → List (GoString × β)
  | [] => []
  | kv :: kvs => insertByKey kv (sortByKey kvs)

/-! ## Go maps with string keys -/

/-- The assignment `m[k] = v` on a Go map kept as an association list: the entry
of `k` is overwritten in place when present and added otherwise. -/
def mapSet {β : Type} : List (String × β) → String → β → List (String × β)
  | [], k, v => [(k, v)]
  | (k0, v0) :: m, k, v => if k0 = k then (k, v) :: m else (k0, v0) :: mapSet m k v

/-- The index expression `m[k]` with the comma-ok form: `none` when absent. -/
def mapGet {β : Type} : List (String × β) → String → Option β
  | [], _ => none
  | (k0, v0) :: m, k => if k0 = k then some v0 else mapGet m k

/-! ## Values held by `map[string]interface{}` after `json.Unmarshal` -/

/-- A decoded JSON value, as `json.Unmarshal` stores it in an `interface{}`:
`nil`, `bool`, `float64` (only integer values occur here), `string`,
`[]interface{}` and `map[string]interface{}`. -/
inductive JSONValue where
  | null : JSONValue
  | bool (b : Bool) : JSONValue
  | number (n : Int) : JSONValue
  | string (s : String) : JSONValue
  | array (xs : List JSONValue) : JSONValue
  | object (kvs : List (String × JSONValue)) : JSONValue

/-- The parameter mapping `map[string]interface{}`, keys in the order in which
`json.Marshal` writes the struct fields. -/
abbrev Params := List (String × JSONValue)

/-- A `[]string` after the round trip through `json.Marshal` and
`json.Unmarshal`: `null` for nil, otherwise the array of the texts of its
elements. -/
def JSONValue.ofStrings : Option (List GoString) → JSONValue
  | none => JSONValue.null
  | some xs => JSONValue.array (xs.map (fun x => JSONValue.string x.jsonText))

/-- A `map[string]string` after the round trip through `json.Marshal` and
`json.Unmarshal`: `null` for nil. Otherwise `json.Marshal` writes the entries
sorted by key, each key and value as its text, and `json.Unmarshal` assigns
them to a fresh map in that order, so that of two keys with the same text the
entry written last stays. -/
def JSONValue.ofStringMap : Option (List (GoString × GoString)) → JSONValue
  | none => JSONValue.null
  | some kvs =>
    JSONValue.object
      ((sortByKey kvs).foldl
        (fun m kv => mapSet m kv.1.jsonText (JSONValue.string kv.2.jsonText)) [])

/-- The number of low bits that a `float64` drops from the natural number `a`:
0 below `2^53`, otherwise the count of halvings that bring `a` below `2^53`.
The second argument bounds the recursion; `a` itself is enough. -/
def float64Shift (a : Nat) : Nat → Nat
  | 0 => 0
  | fuel + 1 => if a < 2 ^ 53 then 0 else float64Shift (a / 2) fuel + 1

/-- The `float64` nearest to the natural number `a`, ties going to the even
significand, as `strconv.ParseFloat` rounds a decimal integer. -/
def float64OfNat (a : Nat) : Nat :=
  let e := float64Shift a a
  if e = 0 then a
  else
    let q := a / 2 ^ e
    let r := a % 2 ^ e
    let half := 2 ^ (e - 1)
    if r > half ∨ (r = half ∧ q % 2 = 1) then (q + 1) * 2 ^ e else q * 2 ^ e

/-- The value that `json.Unmarshal` stores in an `interface{}` for an `int`
field written by `json.Marshal`: the field goes out as a decimal integer and
comes back as the nearest `float64`. It is the integer itself below `2^53` in
absolute value. -/
def float64OfInt : Int → Int
  | Int.ofNat a => Int.ofNat (float64OfNat a)
  | Int.negSucc a => - Int.ofNat (float64OfNat (a + 1))

/-- Length of a slice (`len`), 0 for nil. -/
def len {α : Type} : Option (List α) → Nat
  | none => 0
  | some xs => xs.length

/-! ## Command structs (`operations.go`) -/

structure CmdExec where
  Background : Bool := false
  Silent : Bool := false
  ContinueOnError : Bool := false
  SystemLog : Bool := false
  CombineOutput : Bool := false
  IgnoreStdError : Bool := false
  IgnoreStdOut : Bool := false
  KeepEmptyArgs : Bool := false
  WorkingDirectory : GoString := ""
  Command : GoString := ""
  Binary : GoString := ""
  Args : Option (List GoString) := none
  Env : Option (List (GoString × GoString)) := none
  deriving DecidableEq

structure CmdExecShell where
  Background : Bool := false
  Silent : Bool := false
  ContinueOnError : Bool := false
  SystemLog : Bool := false
  CombineOutput : Bool := false
  IgnoreStdError : Bool := false
  IgnoreStdOut : Bool := false
  WorkingDirectory : GoString := ""
  Script : GoString := ""
  deriving DecidableEq

structure ScriptingTestOptions where
  Name : GoString := ""
  Args : Option (List GoString) := none
  Pattern : GoString := ""
  TimeoutSecs : Int := 0
  Count : Int := 0
  deriving DecidableEq

structure CmdSubprocessScripting where
  Harness : GoString := ""
  Command : GoString := ""
  Args : Option (List GoString) := none
  TestDir : GoString := ""
  TestOptions : Option ScriptingTestOptions := none
  Script : GoString := ""
  Path : Option (List GoString) := none
  Env : Option (List (GoString × GoString)) := none
  CacheDurationSeconds : Int := 0
  CleanupHarness : Bool := false
  LockFile : GoString := ""
  Packages : Option (List GoString) := none
  HarnessPath : GoString := ""
  HostPath : GoString := ""
  AddExpansionsToEnv : Bool := false
  IncludeExpansionsInEnv : Option (List GoString) := none
  Silent : Bool := false
  SystemLog : Bool := false
  WorkingDir : GoString := ""
  IgnoreStandardOutput : Bool := false
  IgnoreStandardError : Bool := false
  RedirectStandardErrorToOutput : Bool := false
  ContinueOnError : Bool := false
  deriving DecidableEq

structure CmdS3Put where
  Optional : Bool := false
  LocalFile : GoString := ""
  LocalFileIncludeFilter : Option (List GoString) := none
  Bucket : GoString := ""
  RemoteFile : GoString := ""
  DisplayName : GoString := ""
  ContentType : GoString := ""
  CredKey : GoString := ""
  CredSecret : GoString := ""
  Permissions : GoString := ""
  Visibility : GoString := ""
  BuildVariants : Option (List GoString) := none
  deriving DecidableEq

structure CmdS3Get where
  AWSKey : GoString := ""
  AWSSecret : GoString := ""
  RemoteFile : GoString := ""
  Bucket : GoString := ""
  LocalFile : GoString := ""
  ExtractTo : GoString := ""
  BuildVariants : Option (List GoString) := none
  deriving DecidableEq

/-- The anonymous struct of `Source` and `Destination` in `CmdS3Copy.Files`. -/
structure S3CopyLocation where
  Bucket : GoString := ""
  Path : GoString := ""
  deriving DecidableEq

/-- The anonymous element struct of `CmdS3Copy.Files`. -/
structure S3CopyFile where
  Optional : Bool := false
  DisplayName : GoString := ""
  BuildVariants : Option (List GoString) := none
  Source : S3CopyLocation := {}
  Destination : S3CopyLocation := {}
  deriving DecidableEq

structure CmdS3Copy where
  AWSKey : GoString := ""
  AWSSecret : GoString := ""
  Files : Option (List S3CopyFile) := none
  deriving DecidableEq

structure CmdS3Push where
  ExcludeFilter : GoString := ""
  MaxRetries : Int := 0
  deriving DecidableEq

structure CmdS3Pull where
  ExcludeFilter : GoString := ""
  MaxRetries : Int := 0
  deriving DecidableEq

structure CmdGetProject where
  Token : GoString := ""
  Directory : GoString := ""
  Revisions : Option (List (GoString × GoString)) := none
  deriving DecidableEq

structure CmdResultsJSON where
  File : GoString := ""
  deriving DecidableEq

structure CmdResultsXunit where
  File : GoString := ""
  Files : Option (List GoString) := none
  deriving DecidableEq

structure CmdResultsGoTest where
  JSONFormat : Bool := false
  LegacyFormat : Bool := false
  Files : Option (List GoString) := none
  deriving DecidableEq

/-- The Go type `ArchiveFormat` is a named string type: any string is a value of it. -/
abbrev ArchiveFormat := String

def ZIP : ArchiveFormat := "zip"
def TARBALL : ArchiveFormat := "tarball"

structure CmdArchiveCreate where
  Format : ArchiveFormat := ""
  Target : GoString := ""
  SourceDir : GoString := ""
  Include : Option (List GoString) := none
  Exclude : Option (List GoString) := none
  deriving DecidableEq

structure CmdArchiveExtract where
  Format : ArchiveFormat := ""
  Path : GoString := ""
  Target : GoString := ""
  Exclude : Option (List GoString) := none
  deriving DecidableEq

structure CmdAttachArtifacts where
  Optional : Bool := false
  Files : Option (List GoString) := none
  deriving DecidableEq

/-! ## The wire record -/

/-- Modelled from the spec: the declaration of `CommandDefinition` is not among the
sources; the spec gives it as the union of a command invocation (wire name and
parameter mapping) and a function reference (function name and optional
variable mapping). The sources set exactly the fields `CommandName`, `Params`,
`FunctionName` and `Vars`; a nil map is `none`. -/
structure CommandDefinition where
  FunctionName : String := ""
  CommandName : String := ""
  Params : Option Params := none
  Vars : Option (List (String × String)) := none

/-- Modelled from the spec: the declaration of `CommandSequence` is not among the
sources; the spec gives it as an ordered list of `CommandDefinition`. In the
sources every element is a pointer to a definition allocated by the call that
appends it; the embedding stores the record pointed to. -/
abbrev CommandSequence := List CommandDefinition

/-! ## Name and Validate of each command -/

def CmdExec.Name (_ : CmdExec) : String := "subprocess.exec"
def CmdExec.Validate (_ : CmdExec) : Option Error := none

def CmdExecShell.Name (_ : CmdExecShell) : String := "shell.exec"
def CmdExecShell.Validate (_ : CmdExecShell) : Option Error := none

def CmdSubprocessScripting.Name (_ : CmdSubprocessScripting) : String := "subprocess.scripting"
def CmdSubprocessScripting.Validate (_ : CmdSubprocessScripting) : Option Error := none

def CmdS3Put.Name (_ : CmdS3Put) : String := "s3.put"

/-- The `switch` of `CmdS3Put.Validate`: the first case lists two conditions,
either of which selects it. -/
def CmdS3Put.Validate (c : CmdS3Put) : Option Error :=
  if c.CredKey = "" ∨ c.CredSecret = "" then
    some "must specify aws credentials"
  else if c.LocalFile = "" ∧ len c.LocalFileIncludeFilter = 0 then
    some "must specify a local file to upload"
  else
    none

def CmdS3Get.Name (_ : CmdS3Get) : String := "s3.get"
def CmdS3Get.Validate (_ : CmdS3Get) : Option Error := none

def CmdS3Copy.Name (_ : CmdS3Copy) : String := "s3Copy.copy"
def CmdS3Copy.Validate (_ : CmdS3Copy) : Option Error := none

def CmdS3Push.Name (_ : CmdS3Push) : String := "s3.push"
def CmdS3Push.Validate (_ : CmdS3Push) : Option Error := none

def CmdS3Pull.Name (_ : CmdS3Pull) : String := "s3.pull"
def CmdS3Pull.Validate (_ : CmdS3Pull) : Option Error := none

def CmdGetProject.Name (_ : CmdGetProject) : String := "git.get_project"
def CmdGetProject.Validate (_ : CmdGetProject) : Option Error := none

def CmdResultsJSON.Name (_ : CmdResultsJSON) : String := "attach.results"
def CmdResultsJSON.Validate (_ : CmdResultsJSON) : Option Error := none

def CmdResultsXunit.Name (_ : CmdResultsXunit) : String := "attach.xunit_results"
def CmdResultsXunit.Validate (_ : CmdResultsXunit) : Option Error := none

def CmdResultsGoTest.Name (c : CmdResultsGoTest) : String :=
  if c.LegacyFormat then "gotest.parse_files" else "gotest.parse_json"

def CmdResultsGoTest.Validate (c : CmdResultsGoTest) : Option Error :=
  if c.JSONFormat = c.LegacyFormat then
    some "invalid format for gotest operation"
  else
    none

/-- The method `ArchiveFormat.Validate`; the message is that of
`fmt.Errorf("'%s' is not a valid archive format", f)`. -/
def ArchiveFormat.Validate (f : ArchiveFormat) : Option Error :=
  if f = ZIP ∨ f = TARBALL then none
  else some ("'" ++ f ++ "' is not a valid archive format")

/-- The method `ArchiveFormat.createCmdName`; the default case panics with the
value of `f.Validate()`. -/
def ArchiveFormat.createCmdName (f : ArchiveFormat) : Except PanicValue String :=
  if f = ZIP then Except.ok "archive.zip_pack"
  else if f = TARBALL then Except.ok "archive.targz_pack"
  else Except.error (ArchiveFormat.Validate f)

/-- The method `ArchiveFormat.extractCmdName`. -/
def ArchiveFormat.extractCmdName (f : ArchiveFormat) : Except PanicValue String :=
  if f = ZIP then Except.ok "archive.zip_extract"
  else if f = TARBALL then Except.ok "archive.targz_extract"
  else if f = "auto" then Except.ok "archive.auto_extract"
  else Except.error (ArchiveFormat.Validate f)

def CmdArchiveCreate.Name (c : CmdArchiveCreate) : Except PanicValue String :=
  ArchiveFormat.createCmdName c.Format

def CmdArchiveCreate.Validate (c : CmdArchiveCreate) : Option Error :=
  ArchiveFormat.Validate c.Format

def CmdArchiveExtract.Name (c : CmdArchiveExtract) : Except PanicValue String :=
  ArchiveFormat.extractCmdName c.Format

def CmdArchiveExtract.Validate (c : CmdArchiveExtract) : Option Error :=
  match ArchiveFormat.Validate c.Format with
  | some err => if c.Format ≠ "auto" then some err else none
  | none => none

def CmdAttachArtifacts.Name (_ : CmdAttachArtifacts) : String := "attach.artifacts"
def CmdAttachArtifacts.Validate (_ : CmdAttachArtifacts) : Option Error := none

/-! ## The `Command` interface and `exportCmd` -/

/-- The values of the interface `Command`: the command structs of `operations.go`. -/
inductive Command where
  | exec (c : CmdExec)
  | execShell (c : CmdExecShell)
  | subprocessScripting (c : CmdSubprocessScripting)
  | s3Put (c : CmdS3Put)
  | s3Get (c : CmdS3Get)
  | s3Copy (c : CmdS3Copy)
  | s3Push (c : CmdS3Push)
  | s3Pull (c : CmdS3Pull)
  | getProject (c : CmdGetProject)
  | resultsJSON (c : CmdResultsJSON)
  | resultsXunit (c : CmdResultsXunit)
  | resultsGoTest (c : CmdResultsGoTest)
  | archiveCreate (c : CmdArchiveCreate)
  | archiveExtract (c : CmdArchiveExtract)
  | attachArtifacts (c : CmdAttachArtifacts)
  deriving DecidableEq

/-- Dynamic dispatch of `Validate`. -/
def Command.Validate : Command → Option Error
  | .exec c => c.Validate
  | .execShell c => c.Validate
  | .subprocessScripting c => c.Validate
  | .s3Put c => c.Validate
  | .s3Get c => c.Validate
  | .s3Copy c => c.Validate
  | .s3Push c => c.Validate
  | .s3Pull c => c.Validate
  | .getProject c => c.Validate
  | .resultsJSON c => c.Validate
  | .resultsXunit c => c.Validate
  | .resultsGoTest c => c.Validate
  | .archiveCreate c => c.Validate
  | .archiveExtract c => c.Validate
  | .attachArtifacts c => c.Validate

/-- Dynamic dispatch of `Name`; only the archive commands can panic. -/
def Command.Name : Command → Except PanicValue String
  | .exec c => Except.ok c.Name
  | .execShell c => Except.ok c.Name
  | .subprocessScripting c => Except.ok c.Name
  | .s3Put c => Except.ok c.Name
  | .s3Get c => Except.ok c.Name
  | .s3Copy c => Except.ok c.Name
  | .s3Push c => Except.ok c.Name
  | .s3Pull c => Except.ok c.Name
  | .getProject c => Except.ok c.Name
  | .resultsJSON c => Except.ok c.Name
  | .resultsXunit c => Except.ok c.Name
  | .resultsGoTest c => Except.ok c.Name
  | .archiveCreate c => c.Name
  | .archiveExtract c => c.Name
  | .attachArtifacts c => Except.ok c.Name

/-- The JSON object of a `ScriptingTestOptions`, keys from the json tags. -/
def ScriptingTestOptions.toJSON (o : ScriptingTestOptions) : JSONValue :=
  JSONValue.object
    [("name", JSONValue.string o.Name.jsonText),
     ("args", JSONValue.ofStrings o.Args),
     ("pattern", JSONValue.string o.Pattern.jsonText),
     ("timeout_secs", JSONValue.number (float64OfInt o.TimeoutSecs)),
     ("count", JSONValue.number (float64OfInt o.Count))]

def S3CopyLocation.toJSON (l : S3CopyLocation) : JSONValue :=
  JSONValue.object
    [("bucket", JSONValue.string l.Bucket.jsonText),
     ("path", JSONValue.string l.Path.jsonText)]

def S3CopyFile.toJSON (f : S3CopyFile) : JSONValue :=
  JSONValue.object
    [("optional", JSONValue.bool f.Optional),
     ("display_name", JSONValue.string f.DisplayName.jsonText),
     ("build_variants", JSONValue.ofStrings f.BuildVariants),
     ("source", f.Source.toJSON),
     ("destination", f.Destination.toJSON)]

/-- The map that `json.Unmarshal` builds from the bytes that `json.Marshal`
writes for the command: one entry per struct field whose json tag is not `-`,
under the tag name; no tag in `operations.go` carries `omitempty`, so a field
is written whatever its value. A string comes back as its text
(`GoString.jsonText`), an `int` as a `float64` (`float64OfInt`). -/
def Command.toParams : Command → Params
  | .exec c =>
    [("background", JSONValue.bool c.Background),
     ("silent", JSONValue.bool c.Silent),
     ("continue_on_err", JSONValue.bool c.ContinueOnError),
     ("system_log", JSONValue.bool c.SystemLog),
     ("redirect_standard_error_to_output", JSONValue.bool c.CombineOutput),
     ("ignore_standard_error", JSONValue.bool c.IgnoreStdError),
     ("ignore_standard_out", JSONValue.bool c.IgnoreStdOut),
     ("keep_empty_args", JSONValue.bool c.KeepEmptyArgs),
     ("working_dir", JSONValue.string c.WorkingDirectory.jsonText),
     ("command", JSONValue.string c.Command.jsonText),
     ("binary", JSONValue.string c.Binary.jsonText),
     ("args", JSONValue.ofStrings c.Args),
     ("env", JSONValue.ofStringMap c.Env)]
  | .execShell c =>
    [("background", JSONValue.bool c.Background),
     ("silent", JSONValue.bool c.Silent),
     ("continue_on_err", JSONValue.bool c.ContinueOnError),
     ("system_log", JSONValue.bool c.SystemLog),
     ("redirect_standard_error_to_output", JSONValue.bool c.CombineOutput),
     ("ignore_standard_error", JSONValue.bool c.IgnoreStdError),
     ("ignore_standard_out", JSONValue.bool c.IgnoreStdOut),
     ("working_dir", JSONValue.string c.WorkingDirectory.jsonText),
     ("script", JSONValue.string c.Script.jsonText)]
  | .subprocessScripting c =>
    [("harness", JSONValue.string c.Harness.jsonText),
     ("command", JSONValue.string c.Command.jsonText),
     ("args", JSONValue.ofStrings c.Args),
     ("test_dir", JSONValue.string c.TestDir.jsonText),
     ("test_options",
        match c.TestOptions with
        | none => JSONValue.null
        | some o => o.toJSON),
     ("script", JSONValue.string c.Script.jsonText),
     ("add_to_path", JSONValue.ofStrings c.Path),
     ("env", JSONValue.ofStringMap c.Env),
     ("cache_duration_secs", JSONValue.number (float64OfInt c.CacheDurationSeconds)),
     ("cleanup_harness", JSONValue.bool c.CleanupHarness),
     ("lock_file", JSONValue.string c.LockFile.jsonText),
     ("packages", JSONValue.ofStrings c.Packages),
     ("harness_path", JSONValue.string c.HarnessPath.jsonText),
     ("host_path", JSONValue.string c.HostPath.jsonText),
     ("add_expansions_to_env", JSONValue.bool c.AddExpansionsToEnv),
     ("include_expansions_in_env", JSONValue.ofStrings c.IncludeExpansionsInEnv),
     ("silent", JSONValue.bool c.Silent),
     ("system_log", JSONValue.bool c.SystemLog),
     ("working_dir", JSONValue.string c.WorkingDir.jsonText),
     ("ignore_standard_out", JSONValue.bool c.IgnoreStandardOutput),
     ("ignore_standard_error", JSONValue.bool c.IgnoreStandardError),
     ("redirect_standard_error_to_output", JSONValue.bool c.RedirectStandardErrorToOutput),
     ("continue_on_err", JSONValue.bool c.ContinueOnError)]
  | .s3Put c =>
    [("optional", JSONValue.bool c.Optional),
     ("local_file", JSONValue.string c.LocalFile.jsonText),
     ("local_files_include_filter", JSONValue.ofStrings c.LocalFileIncludeFilter),
     ("bucket", JSONValue.string c.Bucket.jsonText),
     ("remote_file", JSONValue.string c.RemoteFile.jsonText),
     ("display_name", JSONValue.string c.DisplayName.jsonText),
     ("content_type", JSONValue.string c.ContentType.jsonText),
     ("aws_key", JSONValue.string c.CredKey.jsonText),
     ("aws_secret", JSONValue.string c.CredSecret.jsonText),
     ("permissions", JSONValue.string c.Permissions.jsonText),
     ("visibility", JSONValue.string c.Visibility.jsonText),
     ("build_variants", JSONValue.ofStrings c.BuildVariants)]
  | .s3Get c =>
    [("aws_key", JSONValue.string c.AWSKey.jsonText),
     ("aws_secret", JSONValue.string c.AWSSecret.jsonText),
     ("remote_file", JSONValue.string c.RemoteFile.jsonText),
     ("bucket", JSONValue.string c.Bucket.jsonText),
     ("local_file", JSONValue.string c.LocalFile.jsonText),
     ("extract_to", JSONValue.string c.ExtractTo.jsonText),
     ("build_variants", JSONValue.ofStrings c.BuildVariants)]
  | .s3Copy c =>
    [("aws_key", JSONValue.string c.AWSKey.jsonText),
     ("aws_secret", JSONValue.string c.AWSSecret.jsonText),
     ("s3_copy_files",
        match c.Files with
        | none => JSONValue.null
        | some fs => JSONValue.array (fs.map S3CopyFile.toJSON))]
  | .s3Push c =>
    [("exclude", JSONValue.string c.ExcludeFilter.jsonText),
     ("max_retries", JSONValue.number (float64OfInt c.MaxRetries))]
  | .s3Pull c =>
    [("exclude", JSONValue.string c.ExcludeFilter.jsonText),
     ("max_retries", JSONValue.number (float64OfInt c.MaxRetries))]
  | .getProject c =>
    [("token", JSONValue.string c.Token.jsonText),
     ("directory", JSONValue.string c.Directory.jsonText),
     ("revisions", JSONValue.ofStringMap c.Revisions)]
  | .resultsJSON c =>
    [("file_location", JSONValue.string c.File.jsonText)]
  | .resultsXunit c =>
    [("file", JSONValue.string c.File.jsonText),
     ("files", JSONValue.ofStrings c.Files)]
  | .resultsGoTest c =>
    [("files", JSONValue.ofStrings c.Files)]
  | .archiveCreate c =>
    [("target", JSONValue.string c.Target.jsonText),
     ("source_dir", JSONValue.string c.SourceDir.jsonText),
     ("include", JSONValue.ofStrings c.Include),
     ("exclude_files", JSONValue.ofStrings c.Exclude)]
  | .archiveExtract c =>
    [("path", JSONValue.string c.Path.jsonText),
     ("destination", JSONValue.string c.Target.jsonText),
     ("exclude_files", JSONValue.ofStrings c.Exclude)]
  | .attachArtifacts c =>
    [("optional", JSONValue.bool c.Optional),
     ("files", JSONValue.ofStrings c.Files)]

/-- The function `exportCmd`: panic with the validation error, otherwise the
decoded map. Neither `json.Marshal` nor `json.Unmarshal` fails on these
structs, so the final `panic(err)` is not reached. -/
def exportCmd (cmd : Command) : Except PanicValue Params :=
  match cmd.Validate with
  | some err => Except.error (some err)
  | none => Except.ok cmd.toParams

/-! ## Resolve of each command

In the composite literal `&CommandDefinition{CommandName: c.Name(), Params: exportCmd(c)}`
the operands are evaluated in source order: `c.Name()` first. -/

def CmdExec.Resolve (c : CmdExec) : Except PanicValue CommandDefinition := do
  let params ← exportCmd (.exec c)
  pure { CommandName := c.Name, Params := some params }

def CmdExecShell.Resolve (c : CmdExecShell) : Except PanicValue CommandDefinition := do
  let params ← exportCmd (.execShell c)
  pure { CommandName := c.Name, Params := some params }

def CmdSubprocessScripting.Resolve (c : CmdSubprocessScripting) :
    Except PanicValue CommandDefinition := do
  let params ← exportCmd (.subprocessScripting c)
  pure { CommandName := c.Name, Params := some params }

def CmdS3Put.Resolve (c : CmdS3Put) : Except PanicValue CommandDefinition := do
  let params ← exportCmd (.s3Put c)
  pure { CommandName := c.Name, Params := some params }

def CmdS3Get.Resolve (c : CmdS3Get) : Except PanicValue CommandDefinition := do
  let params ← exportCmd (.s3Get c)
  pure { CommandName := c.Name, Params := some params }

def CmdS3Copy.Resolve (c : CmdS3Copy) : Except PanicValue CommandDefinition := do
  let params ← exportCmd (.s3Copy c)
  pure { CommandName := c.Name, Params := some params }

def CmdS3Push.Resolve (c : CmdS3Push) : Except PanicValue CommandDefinition := do
  let params ← exportCmd (.s3Push c)
  pure { CommandName := c.Name, Params := some params }

def CmdS3Pull.Resolve (c : CmdS3Pull) : Except PanicValue CommandDefinition := do
  let params ← exportCmd (.s3Pull c)
  pure { CommandName := c.Name, Params := some params }

def CmdGetProject.Resolve (c : CmdGetProject) : Except PanicValue CommandDefinition := do
  let params ← exportCmd (.getProject c)
  pure { CommandName := c.Name, Params := some params }

def CmdResultsJSON.Resolve (c : CmdResultsJSON) : Except PanicValue CommandDefinition := do
  let params ← exportCmd (.resultsJSON c)
  pure { CommandName := c.Name, Params := some params }

def CmdResultsXunit.Resolve (c : CmdResultsXunit) : Except PanicValue CommandDefinition := do
  let params ← exportCmd (.resultsXunit c)
  pure { CommandName := c.Name, Params := some params }

def CmdResultsGoTest.Resolve (c : CmdResultsGoTest) : Except PanicValue CommandDefinition :=
  if c.JSONFormat then do
    let params ← exportCmd (.resultsGoTest c)
    pure { CommandName := c.Name, Params := some params }
  else do
    let params ← exportCmd (.resultsGoTest c)
    pure { CommandName := "gotest.parse_files", Params := some params }

def CmdArchiveCreate.Resolve (c : CmdArchiveCreate) : Except PanicValue CommandDefinition := do
  let name ← c.Name
  let params ← exportCmd (.archiveCreate c)
  pure { CommandName := name, Params := some params }

def CmdArchiveExtract.Resolve (c : CmdArchiveExtract) : Except PanicValue CommandDefinition := do
  let name ← c.Name
  let params ← exportCmd (.archiveExtract c)
  pure { CommandName := name, Params := some params }

def CmdAttachArtifacts.Resolve (c : CmdAttachArtifacts) : Except PanicValue CommandDefinition := do
  let params ← exportCmd (.attachArtifacts c)
  pure { CommandName := c.Name, Params := some params }

/-- Dynamic dispatch of `Resolve`. -/
def Command.Resolve : Command → Except PanicValue CommandDefinition
  | .exec c => c.Resolve
  | .execShell c => c.Resolve
  | .subprocessScripting c => c.Resolve
  | .s3Put c => c.Resolve
  | .s3Get c => c.Resolve
  | .s3Copy c => c.Resolve
  | .s3Push c => c.Resolve
  | .s3Pull c => c.Resolve
  | .getProject c => c.Resolve
  | .resultsJSON c => c.Resolve
  | .resultsXunit c => c.Resolve
  | .resultsGoTest c => c.Resolve
  | .archiveCreate c => c.Resolve
  | .archiveExtract c => c.Resolve
  | .attachArtifacts c => c.Resolve

/-! ## Entities (`task.go`, `variant.go`)

A slice field of an entity is a `List`: the builders only ever `append` to it
or replace it, and a nil slice behaves as the empty one under both. -/

structure TaskDependency where
  Name : String := ""
  Variant : String := ""
  deriving DecidableEq

structure Task where
  Name : String := ""
  PriorityOverride : Int := 0
  Dependencies : List TaskDependency := []
  Commands : CommandSequence := []

structure TaskGroup where
  GroupName : String := ""
  MaxHosts : Int := 0
  ShareProcesses : Bool := false
  SetupGroupCmds : CommandSequence := []
  SetupGroupCanFailTask : Bool := false
  SetupGroupTimeoutSecs : Int := 0
  SetupTaskCmds : CommandSequence := []
  Tasks : List String := []
  TeardownTaskCmds : CommandSequence := []
  TeardownGroupCmds : CommandSequence := []
  TimeoutCmds : CommandSequence := []
  Tags : List String := []

structure DisplayTaskDefinition where
  Name : String := ""
  Components : List String := []
  deriving DecidableEq

/-- A `*bool` field is an `Option Bool`: `none` is the nil pointer. -/
structure TaskSpec where
  Name : String := ""
  Stepback : Bool := false
  Distro : List String := []
  Activate : Option Bool := none
  deriving DecidableEq

/-- The map `Expansions` holds `interface{}` values; they are represented by
`JSONValue`. A nil map is `none`. -/
structure Variant where
  BuildName : String := ""
  BuildDisplayName : String := ""
  BatchTimeSecs : Int := 0
  CronBatchTime : String := ""
  Stepback : Option Bool := none
  TaskSpecs : List TaskSpec := []
  DistroRunOn : List String := []
  Expansions : Option (List (String × JSONValue)) := none
  DisplayTaskSpecs : List DisplayTaskDefinition := []
  Activate : Option Bool := none

/-! ### Builders of `Task`

A builder that can panic returns the receiver as the panic leaves it, together
with the panic value (`none` when the call returns normally). -/

/-- The method `Task.Command`: the loop validates, resolves and appends one
command at a time. -/
def Task.Command (t : Task) : List Shrub.Command → Task × Option PanicValue
  | [] => (t, none)
  | c :: cmds =>
    match c.Validate with
    | some err => (t, some (some err))
    | none =>
      match c.Resolve with
      | Except.error e => (t, some e)
      | Except.ok d => Task.Command { t with Commands := t.Commands ++ [d] } cmds

/-- The method `Task.AddCommand`: the new definition and the receiver. -/
def Task.AddCommand (t : Task) : CommandDefinition × Task :=
  let c : CommandDefinition := {}
  (c, { t with Commands := t.Commands ++ [c] })

def Task.Dependency (t : Task) (dep : List TaskDependency) : Task :=
  { t with Dependencies := t.Dependencies ++ dep }

def Task.Function (t : Task) : List String → Task
  | [] => t
  | fn :: fns => Task.Function { t with Commands := t.Commands ++ [{ FunctionName := fn }] } fns

def Task.FunctionWithVars (t : Task) (id : String) (vars : Option (List (String × String))) :
    Task :=
  { t with Commands := t.Commands ++ [{ FunctionName := id, Vars := vars }] }

def Task.Priority (t : Task) (pri : Int) : Task :=
  { t with PriorityOverride := pri }

/-! ### Builders of `TaskGroup` -/

def TaskGroup.Name (g : TaskGroup) (id : String) : TaskGroup :=
  { g with GroupName := id }

def TaskGroup.SetMaxHosts (g : TaskGroup) (num : Int) : TaskGroup :=
  { g with MaxHosts := num }

def TaskGroup.SetShareProcesses (g : TaskGroup) (val : Bool) : TaskGroup :=
  { g with ShareProcesses := val }

def TaskGroup.SetupGroup (g : TaskGroup) : List Shrub.Command → TaskGroup × Option PanicValue
  | [] => (g, none)
  | c :: cmds =>
    match c.Validate with
    | some err => (g, some (some err))
    | none =>
      match c.Resolve with
      | Except.error e => (g, some e)
      | Except.ok d =>
        TaskGroup.SetupGroup { g with SetupGroupCmds := g.SetupGroupCmds ++ [d] } cmds

def TaskGroup.SetSetupGroupCanFailTask (g : TaskGroup) (val : Bool) : TaskGroup :=
  { g with SetupGroupCanFailTask := val }

def TaskGroup.SetSetupGroupTimeoutSecs (g : TaskGroup) (timeoutSecs : Int) : TaskGroup :=
  { g with SetupGroupTimeoutSecs := timeoutSecs }

def TaskGroup.SetupTask (g : TaskGroup) : List Shrub.Command → TaskGroup × Option PanicValue
  | [] => (g, none)
  | c :: cmds =>
    match c.Validate with
    | some err => (g, some (some err))
    | none =>
      match c.Resolve with
      | Except.error e => (g, some e)
      | Except.ok d =>
        TaskGroup.SetupTask { g with SetupTaskCmds := g.SetupTaskCmds ++ [d] } cmds

def TaskGroup.Task (g : TaskGroup) (id : List String) : TaskGroup :=
  { g with Tasks := g.Tasks ++ id }

def TaskGroup.TeardownTask (g : TaskGroup) : List Shrub.Command → TaskGroup × Option PanicValue
  | [] => (g, none)
  | c :: cmds =>
    match c.Validate with
    | some err => (g, some (some err))
    | none =>
      match c.Resolve with
      | Except.error e => (g, some e)
      | Except.ok d =>
        TaskGroup.TeardownTask { g with TeardownTaskCmds := g.TeardownTaskCmds ++ [d] } cmds

def TaskGroup.TeardownGroup (g : TaskGroup) : List Shrub.Command → TaskGroup × Option PanicValue
  | [] => (g, none)
  | c :: cmds =>
    match c.Validate with
    | some err => (g, some (some err))
    | none =>
      match c.Resolve with
      | Except.error e => (g, some e)
      | Except.ok d =>
        TaskGroup.TeardownGroup { g with TeardownGroupCmds := g.TeardownGroupCmds ++ [d] } cmds

def TaskGroup.Timeout (g : TaskGroup) : List Shrub.Command → TaskGroup × Option PanicValue
  | [] => (g, none)
  | c :: cmds =>
    match c.Validate with
    | some err => (g, some (some err))
    | none =>
      match c.Resolve with
      | Except.error e => (g, some e)
      | Except.ok d =>
        TaskGroup.Timeout { g with TimeoutCmds := g.TimeoutCmds ++ [d] } cmds

def TaskGroup.Tag (g : TaskGroup) (tags : List String) : TaskGroup :=
  { g with Tags := g.Tags ++ tags }

/-! ### Builders of `TaskSpec` and `Variant` -/

def TaskSpec.SetName (ts : TaskSpec) (name : String) : TaskSpec :=
  { ts with Name := name }

def TaskSpec.SetStepback (ts : TaskSpec) (shouldStepback : Bool) : TaskSpec :=
  { ts with Stepback := shouldStepback }

def TaskSpec.SetDistros (ts : TaskSpec) (distros : List String) : TaskSpec :=
  { ts with Distro := distros }

def TaskSpec.SetActivate (ts : TaskSpec) (shouldActivate : Bool) : TaskSpec :=
  { ts with Activate := some shouldActivate }

def Variant.Name (v : Variant) (id : String) : Variant :=
  { v with BuildName := id }

def Variant.BatchTime (v : Variant) (batchTimeSecs : Int) : Variant :=
  { v with BatchTimeSecs := batchTimeSecs }

def Variant.SetCronBatchTime (v : Variant) (batchTime : String) : Variant :=
  { v with CronBatchTime := batchTime }

def Variant.SetStepback (v : Variant) (stepback : Option Bool) : Variant :=
  { v with Stepback := stepback }

def Variant.SetActivate (v : Variant) (activate : Option Bool) : Variant :=
  { v with Activate := activate }

def Variant.DisplayName (v : Variant) (id : String) : Variant :=
  { v with BuildDisplayName := id }

def Variant.RunOn (v : Variant) (distro : String) : Variant :=
  { v with DistroRunOn := [distro] }

def Variant.TaskSpec (v : Variant) (spec : Shrub.TaskSpec) : Variant :=
  { v with TaskSpecs := v.TaskSpecs ++ [spec] }

def Variant.SetExpansions (v : Variant) (m : Option (List (String × JSONValue))) : Variant :=
  { v with Expansions := m }

/-- The method `Variant.Expansion`: a nil map is first replaced by an empty one. -/
def Variant.Expansion (v : Variant) (k : String) (val : JSONValue) : Variant :=
  let m := match v.Expansions with
    | none => []
    | some m => m
  { v with Expansions := some (mapSet m k val) }

def Variant.AddTasks (v : Variant) : List String → Variant
  | [] => v
  | n :: name =>
    if n = "" then Variant.AddTasks v name
    else Variant.AddTasks { v with TaskSpecs := v.TaskSpecs ++ [{ Name := n }] } name

def Variant.DisplayTasks (v : Variant) (defs : List DisplayTaskDefinition) : Variant :=
  { v with DisplayTaskSpecs := v.DisplayTaskSpecs ++ defs }

/-! ## The heap and the `Configuration` (`config.go`)

The slices of a `Configuration` hold pointers, and the get-or-create accessors
return pointers. A pointer is an address into the store of its type; `new`
takes the next free address. An address outside the store stands for the nil
pointer: reading or writing through it panics. -/

abbrev Ptr := Nat

structure Heap where
  tasks : List Task := []
  groups : List TaskGroup := []
  variants : List Variant := []
  seqs : List CommandSequence := []

structure Configuration where
  Functions : Option (List (String × Ptr)) := none
  Tasks : List Ptr := []
  Groups : List Ptr := []
  Variants : List Ptr := []

/-- The memory together with the one `Configuration` under construction. -/
structure State where
  heap : Heap := {}
  conf : Configuration := {}

/-- The panic value of the Go runtime for a nil pointer dereference. -/
def nilDeref : PanicValue :=
  some "runtime error: invalid memory address or nil pointer dereference"

/-- The loop `for _, x := range xs { if x.key == name { return x } }` over a
slice of pointers: `some p` when it returns `p` from inside the loop, `none`
when it falls through. -/
def scan {α : Type} (mem : List α) (key : α → String) (name : String) :
    List Ptr → Except PanicValue (Option Ptr)
  | [] => Except.ok none
  | p :: ps =>
    match mem[p]? with
    | none => Except.error nilDeref
    | some x => if key x = name then Except.ok (some p) else scan mem key name ps

/-- The allocation `new(T)`: the address of a fresh zero value. -/
def alloc {α : Type} (mem : List α) (zero : α) : Ptr × List α :=
  (mem.length, mem ++ [zero])

/-- A write through the pointer `p`. -/
def update {α : Type} (mem : List α) (p : Ptr) (f : α → α) : Except PanicValue (List α) :=
  match mem[p]? with
  | none => Except.error nilDeref
  | some x => Except.ok (mem.set p (f x))

/-- The method `Configuration.Task`. -/
def Configuration.Task (s : State) (name : String) : Except PanicValue (Ptr × State) :=
  match scan s.heap.tasks (fun x => x.Name) name s.conf.Tasks with
  | Except.error e => Except.error e
  | Except.ok (some t) => Except.ok (t, s)
  | Except.ok none =>
    let (t, tasks) := alloc s.heap.tasks ({} : Shrub.Task)
    match update tasks t (fun x => { x with Name := name }) with
    | Except.error e => Except.error e
    | Except.ok tasks =>
      Except.ok (t, { heap := { s.heap with tasks := tasks },
                      conf := { s.conf with Tasks := s.conf.Tasks ++ [t] } })

/-- The method `Configuration.TaskGroup`: the new group is appended first and
named through the pointer afterwards. -/
def Configuration.TaskGroup (s : State) (name : String) : Except PanicValue (Ptr × State) :=
  match scan s.heap.groups (fun x => x.GroupName) name s.conf.Groups with
  | Except.error e => Except.error e
  | Except.ok (some g) => Except.ok (g, s)
  | Except.ok none =>
    let (g, groups) := alloc s.heap.groups ({} : Shrub.TaskGroup)
    let conf := { s.conf with Groups := s.conf.Groups ++ [g] }
    match update groups g (fun x => x.Name name) with
    | Except.error e => Except.error e
    | Except.ok groups => Except.ok (g, { heap := { s.heap with groups := groups }, conf := conf })

/-- The method `Configuration.Function`. It reads no pointer, so it cannot panic. -/
def Configuration.Function (s : State) (name : String) : Ptr × State :=
  let fns := match s.conf.Functions with
    | none => []
    | some m => m
  match mapGet fns name with
  | some seq => (seq, { s with conf := { s.conf with Functions := some fns } })
  | none =>
    let (seq, seqs) := alloc s.heap.seqs ([] : CommandSequence)
    (seq, { heap := { s.heap with seqs := seqs },
            conf := { s.conf with Functions := some (mapSet fns name seq) } })

/-- The method `Configuration.Variant`. -/
def Configuration.Variant (s : State) (id : String) : Except PanicValue (Ptr × State) :=
  match scan s.heap.variants (fun x => x.BuildName) id s.conf.Variants with
  | Except.error e => Except.error e
  | Except.ok (some v) => Except.ok (v, s)
  | Except.ok none =>
    let (v, variants) := alloc s.heap.variants ({} : Shrub.Variant)
    let conf := { s.conf with Variants := s.conf.Variants ++ [v] }
    match update variants v (fun x => x.Name id) with
    | Except.error e => Except.error e
    | Except.ok variants =>
      Except.ok (v, { heap := { s.heap with variants := variants }, conf := conf })

/-! ### Observations of a state -/

/-- The names, in slice order, of the entities that the pointers `ps` refer to. -/
def names {α : Type} (mem : List α) (key : α → String) (ps : List Ptr) : List String :=
  ps.filterMap (fun p => (mem[p]?).map key)

def State.taskNames (s : State) : List String :=
  names s.heap.tasks (fun x => x.Name) s.conf.Tasks

def State.groupNames (s : State) : List String :=
  names s.heap.groups (fun x => x.GroupName) s.conf.Groups

def State.variantNames (s : State) : List String :=
  names s.heap.variants (fun x => x.BuildName) s.conf.Variants

/-- Every pointer held by the slices of the `Configuration` refers to an
allocated entity: no element is nil. -/
def State.Valid (s : State) : Prop :=
  (∀ p ∈ s.conf.Tasks, p < s.heap.tasks.length) ∧
  (∀ p ∈ s.conf.Groups, p < s.heap.groups.length) ∧
  (∀ p ∈ s.conf.Variants, p < s.heap.variants.length)

instance (s : State) : Decidable s.Valid := by
  unfold State.Valid; exact inferInstance

/-- The pointer stored in `c.Functions` under a name: the index expression on
the map, which finds nothing in a nil map. -/
def State.functionPtr (s : State) (name : String) : Option Ptr :=
  match s.conf.Functions with
  | none => none
  | some m => mapGet m name

/-! ### Calls of the public API

A program that builds a `Configuration` is a sequence of calls: the accessors
of the `Configuration`, and the builder methods of `task.go` and `variant.go`
invoked on pointers to tasks, task groups and variants. `Call.run` gives the
state a call leaves behind, whether it returns or panics: a panic keeps the
mutations made before it, and a caller that recovers (as `BuildConfiguration`
does) goes on from that state. A method invoked on a nil pointer mutates
nothing.

The methods of `CommandSequence` and `CommandDefinition` are declared outside
these sources and are not calls of this model; the setters of `TaskSpec` act on
a `TaskSpec` value, which no accessor returns. -/

/-- The builder methods of `*Task` with their arguments. -/
inductive TaskCall where
  | Command (cmds : List Shrub.Command)
  | AddCommand
  | Dependency (dep : List TaskDependency)
  | Function (fns : List String)
  | FunctionWithVars (id : String) (vars : Option (List (String × String)))
  | Priority (pri : Int)

/-- The builder methods of `*TaskGroup` with their arguments. -/
inductive TaskGroupCall where
  | Name (id : String)
  | SetMaxHosts (num : Int)
  | SetShareProcesses (val : Bool)
  | SetupGroup (cmds : List Shrub.Command)
  | SetSetupGroupCanFailTask (val : Bool)
  | SetSetupGroupTimeoutSecs (timeoutSecs : Int)
  | SetupTask (cmds : List Shrub.Command)
  | Task (id : List String)
  | TeardownTask (cmds : List Shrub.Command)
  | TeardownGroup (cmds : List Shrub.Command)
  | Timeout (cmds : List Shrub.Command)
  | Tag (tags : List String)

/-- The builder methods of `*Variant` with their arguments. -/
inductive VariantCall where
  | Name (id : String)
  | BatchTime (batchTimeSecs : Int)
  | SetCronBatchTime (batchTime : String)
  | SetStepback (stepback : Option Bool)
  | SetActivate (activate : Option Bool)
  | DisplayName (id : String)
  | RunOn (distro : String)
  | TaskSpec (spec : Shrub.TaskSpec)
  | SetExpansions (m : Option (List (String × JSONValue)))
  | Expansion (k : String) (val : JSONValue)
  | AddTasks (name : List String)
  | DisplayTasks (defs : List DisplayTaskDefinition)

/-- The receiver after the call. -/
def TaskCall.apply : TaskCall → Task → Task
  | .Command cmds, t => (t.Command cmds).1
  | .AddCommand, t => t.AddCommand.2
  | .Dependency dep, t => t.Dependency dep
  | .Function fns, t => t.Function fns
  | .FunctionWithVars id vars, t => t.FunctionWithVars id vars
  | .Priority pri, t => t.Priority pri

/-- The receiver after the call. -/
def TaskGroupCall.apply : TaskGroupCall → TaskGroup → TaskGroup
  | .Name id, g => g.Name id
  | .SetMaxHosts num, g => g.SetMaxHosts num
  | .SetShareProcesses val, g => g.SetShareProcesses val
  | .SetupGroup cmds, g => (g.SetupGroup cmds).1
  | .SetSetupGroupCanFailTask val, g => g.SetSetupGroupCanFailTask val
  | .SetSetupGroupTimeoutSecs timeoutSecs, g => g.SetSetupGroupTimeoutSecs timeoutSecs
  | .SetupTask cmds, g => (g.SetupTask cmds).1
  | .Task id, g => g.Task id
  | .TeardownTask cmds, g => (g.TeardownTask cmds).1
  | .TeardownGroup cmds, g => (g.TeardownGroup cmds).1
  | .Timeout cmds, g => (g.Timeout cmds).1
  | .Tag tags, g => g.Tag tags

/-- The receiver after the call. -/
def VariantCall.apply : VariantCall → Variant → Variant
  | .Name id, v => v.Name id
  | .BatchTime batchTimeSecs, v => v.BatchTime batchTimeSecs
  | .SetCronBatchTime batchTime, v => v.SetCronBatchTime batchTime
  | .SetStepback stepback, v => v.SetStepback stepback
  | .SetActivate activate, v => v.SetActivate activate
  | .DisplayName id, v => v.DisplayName id
  | .RunOn distro, v => v.RunOn distro
  | .TaskSpec spec, v => v.TaskSpec spec
  | .SetExpansions m, v => v.SetExpansions m
  | .Expansion k val, v => v.Expansion k val
  | .AddTasks name, v => v.AddTasks name
  | .DisplayTasks defs, v => v.DisplayTasks defs

/-- One call of the public API. -/
inductive Call where
  | Task (name : String)
  | TaskGroup (name : String)
  | Function (name : String)
  | Variant (id : String)
  | onTask (t : Ptr) (m : TaskCall)
  | onTaskGroup (g : Ptr) (m : TaskGroupCall)
  | onVariant (v : Ptr) (m : VariantCall)

/-- The store after a method has run on the entity at `p`; unchanged for nil. -/
def through {α : Type} (mem : List α) (p : Ptr) (f : α → α) : List α :=
  match mem[p]? with
  | none => mem
  | some x => mem.set p (f x)

/-- The state after the call. -/
def Call.run (s : State) : Call → State
  | .Task name =>
    match Configuration.Task s name with
    | Except.ok r => r.2
    | Except.error _ => s
  | .TaskGroup name =>
    match Configuration.TaskGroup s name with
    | Except.ok r => r.2
    | Except.error _ => s
  | .Function name => (Configuration.Function s name).2
  | .Variant id =>
    match Configuration.Variant s id with
    | Except.ok r => r.2
    | Except.error _ => s
  | .onTask t m => { s with heap := { s.heap with tasks := through s.heap.tasks t m.apply } }
  | .onTaskGroup g m =>
    { s with heap := { s.heap with groups := through s.heap.groups g m.apply } }
  | .onVariant v m =>
    { s with heap := { s.heap with variants := through s.heap.variants v m.apply } }

/-- The state after a sequence of calls, in order. -/
def runAll (s : State) : List Call → State
  | [] => s
  | c :: cs => runAll (Call.run s c) cs

/-- The call is one of the four get-or-create accessors. -/
def Call.isGetOrCreate : Call → Bool
  | .Task _ => true
  | .TaskGroup _ => true
  | .Function _ => true
  | .Variant _ => true
  | _ => false

/-- The call gives no entity a name that another entity of its collection
holds at that moment. Only the setters `TaskGroup.Name` and `Variant.Name` can
do so; every other call satisfies the condition. -/
def Call.keepsNamesApart (s : State) : Call → Prop
  | .onTaskGroup g (.Name id) =>
    id ∉ names s.heap.groups (fun x => x.GroupName) (s.conf.Groups.filter (fun q => q ≠ g))
  | .onVariant v (.Name id) =>
    id ∉ names s.heap.variants (fun x => x.BuildName) (s.conf.Variants.filter (fun q => q ≠ v))
  | _ => True

instance Call.decidableKeepsNamesApart (s : State) (c : Call) :
    Decidable (c.keepsNamesApart s) := by
  cases c with
  | Task _ => exact isTrue trivial
  | TaskGroup _ => exact isTrue trivial
  | Function _ => exact isTrue trivial
  | Variant _ => exact isTrue trivial
  | onTask _ _ => exact isTrue trivial
  | onTaskGroup g m =>
    cases m with
    | Name id =>
      exact inferInstanceAs (Decidable (id ∉ names s.heap.groups (fun x => x.GroupName)
        (s.conf.Groups.filter (fun q => q ≠ g))))
    | _ => exact isTrue trivial
  | onVariant v m =>
    cases m with
    | Name id =>
      exact inferInstanceAs (Decidable (id ∉ names s.heap.variants (fun x => x.BuildName)
        (s.conf.Variants.filter (fun q => q ≠ v))))
    | _ => exact isTrue trivial

/-- Every call of the sequence, run in order from `s`, keeps names apart. -/
def keepNamesApart (s : State) : List Call → Prop
  | [] => True
  | c :: cs => c.keepsNamesApart s ∧ keepNamesApart (Call.run s c) cs

instance decidableKeepNamesApart : (calls : List Call) → (s : State) →
    Decidable (keepNamesApart s calls)
  | [], _ => isTrue trivial
  | c :: cs, s =>
    have := decidableKeepNamesApart cs (Call.run s c)
    inferInstanceAs (Decidable (c.keepsNamesApart s ∧ keepNamesApart (Call.run s c) cs))

/-- The names under which `c.Functions` stores sequences, in insertion order. -/
def State.functionNames (s : State) : List String :=
  match s.conf.Functions with
  | none => []
  | some m => m.map Prod.fst

/-- A state with two tasks, one task group, one variant and one function, used
to instantiate the theorems below. -/
def exampleState : State :=
  { heap :=
      { tasks := [{ Name := "compile" }, { Name := "test", PriorityOverride := 3 }],
        groups := [{ GroupName := "unit", MaxHosts := 2 }],
        variants := [{ BuildName := "linux", DistroRunOn := ["ubuntu"] }],
        seqs := [[{ FunctionName := "setup" }]] },
    conf :=
      { Functions := some [("prepare", 0)],
        Tasks := [0, 1],
        Groups := [0],
        Variants := [0] } }

/-! ### Observations of a definition and of a command -/

/-- The keys of the parameter mapping of a definition; a nil map has none. -/
def CommandDefinition.paramKeys (d : CommandDefinition) : List String :=
  match d.Params with
  | none => []
  | some m => m.map Prod.fst

/-- The wire names of a command struct: the json tags of its fields in
declaration order, leaving out the fields tagged `-`. -/
def Command.wireNames : Command → List String
  | .exec _ =>
    ["background", "silent", "continue_on_err", "system_log",
     "redirect_standard_error_to_output", "ignore_standard_error", "ignore_standard_out",
     "keep_empty_args", "working_dir", "command", "binary", "args", "env"]
  | .execShell _ =>
    ["background", "silent", "continue_on_err", "system_log",
     "redirect_standard_error_to_output", "ignore_standard_error", "ignore_standard_out",
     "working_dir", "script"]
  | .subprocessScripting _ =>
    ["harness", "command", "args", "test_dir", "test_options", "script", "add_to_path", "env",
     "cache_duration_secs", "cleanup_harness", "lock_file", "packages", "harness_path",
     "host_path", "add_expansions_to_env", "include_expansions_in_env", "silent", "system_log",
     "working_dir", "ignore_standard_out", "ignore_standard_error",
     "redirect_standard_error_to_output", "continue_on_err"]
  | .s3Put _ =>
    ["optional", "local_file", "local_files_include_filter", "bucket", "remote_file",
     "display_name", "content_type", "aws_key", "aws_secret", "permissions", "visibility",
     "build_variants"]
  | .s3Get _ =>
    ["aws_key", "aws_secret", "remote_file", "bucket", "local_file", "extract_to",
     "build_variants"]
  | .s3Copy _ => ["aws_key", "aws_secret", "s3_copy_files"]
  | .s3Push _ => ["exclude", "max_retries"]
  | .s3Pull _ => ["exclude", "max_retries"]
  | .getProject _ => ["token", "directory", "revisions"]
  | .resultsJSON _ => ["file_location"]
  | .resultsXunit _ => ["file", "files"]
  | .resultsGoTest _ => ["files"]
  | .archiveCreate _ => ["target", "source_dir", "include", "exclude_files"]
  | .archiveExtract _ => ["path", "destination", "exclude_files"]
  | .attachArtifacts _ => ["optional", "files"]

/-- The name of the Go struct type that the interface value holds. -/
def Command.typeName : Command → String
  | .exec _ => "CmdExec"
  | .execShell _ => "CmdExecShell"
  | .subprocessScripting _ => "CmdSubprocessScripting"
  | .s3Put _ => "CmdS3Put"
  | .s3Get _ => "CmdS3Get"
  | .s3Copy _ => "CmdS3Copy"
  | .s3Push _ => "CmdS3Push"
  | .s3Pull _ => "CmdS3Pull"
  | .getProject _ => "CmdGetProject"
  | .resultsJSON _ => "CmdResultsJSON"
  | .resultsXunit _ => "CmdResultsXunit"
  | .resultsGoTest _ => "CmdResultsGoTest"
  | .archiveCreate _ => "CmdArchiveCreate"
  | .archiveExtract _ => "CmdArchiveExtract"
  | .attachArtifacts _ => "CmdAttachArtifacts"

/-- Both sides of the union are populated: the definition names a command and
a function. -/
def CommandDefinition.bothSides (d : CommandDefinition) : Prop :=
  d.CommandName ≠ "" ∧ d.FunctionName ≠ ""

/-- Neither side of the union is populated: the definition names no command
and no function. -/
def CommandDefinition.neitherSide (d : CommandDefinition) : Prop :=
  d.CommandName = "" ∧ d.FunctionName = ""

/-- The index expression `v.Expansions[k]` with the comma-ok form; a nil map
holds nothing. -/
def Variant.lookupExpansion (v : Variant) (k : String) : Option JSONValue :=
  match v.Expansions with
  | none => none
  | some m => mapGet m k

/-- The number of entries `len(v.Expansions)`; 0 for a nil map. -/
def Variant.numExpansions (v : Variant) : Nat :=
  match v.Expansions with
  | none => 0
  | some m => m.length

/-- The five command sequences of a task group. -/
def TaskGroup.sequences (g : TaskGroup) : List CommandSequence :=
  [g.SetupGroupCmds, g.SetupTaskCmds, g.TeardownTaskCmds, g.TeardownGroupCmds, g.TimeoutCmds]

/-! ### Factories (`operations.go`)

Each factory returns a struct literal as a `Command` interface value. -/

def subprocessExecFactory : Command := .exec {}
def shellExecFactory : Command := .execShell {}
def subprocessScriptingFactory : Command := .subprocessScripting {}
def s3PutFactory : Command := .s3Put {}
def s3GetFactory : Command := .s3Get {}
def s3CopyFactory : Command := .s3Copy {}
def s3PushFactory : Command := .s3Push {}
def s3PullFactory : Command := .s3Pull {}
def getProjectFactory : Command := .getProject {}
def jsonResultsFactory : Command := .resultsJSON {}
def xunitResultsFactory : Command := .resultsXunit {}
def goTestResultsFactory : Command := .resultsGoTest {}
def archiveCreateZipFactory : Command := .archiveCreate { Format := ZIP }
def archiveCreateTarballFactory : Command := .archiveCreate { Format := TARBALL }
def archiveExtractZipFactory : Command := .archiveExtract { Format := ZIP }
def archiveExtractTarballFactory : Command := .archiveExtract { Format := TARBALL }
def archiveExtractAutoFactory : Command := .archiveExtract { Format := "auto" }
def attachArtifactsFactory : Command := .attachArtifacts {}

/-! ### Names of fields and of commands -/

/-- The Go identifiers of the fields of `CmdS3Put`, in declaration order. -/
def CmdS3Put.fieldNames : List String :=
  ["Optional", "LocalFile", "LocalFileIncludeFilter", "Bucket", "RemoteFile", "DisplayName",
   "ContentType", "CredKey", "CredSecret", "Permissions", "Visibility", "BuildVariants"]

/-- The yaml tags of the fields of `CmdS3Put`, in declaration order. -/
def CmdS3Put.yamlNames : List String :=
  ["optional", "local_file", "local_file_include_filter", "bucket", "remote_file",
   "display_name", "content_type", "cred_key", "cred_secret", "permissions", "visibility",
   "build_variants"]

/-- The string literals that the `Name` methods, `createCmdName` and
`extractCmdName` return, in source order. -/
def commandNames : List String :=
  ["subprocess.exec", "shell.exec", "subprocess.scripting", "s3.put", "s3.get", "s3Copy.copy",
   "s3.push", "s3.pull", "git.get_project", "attach.results", "attach.xunit_results",
   "gotest.parse_files", "gotest.parse_json", "archive.zip_pack", "archive.targz_pack",
   "archive.zip_extract", "archive.targz_extract", "archive.auto_extract", "attach.artifacts"]

/-- The kind of a command: the struct type that the interface value holds
together with the fields tagged `json:"-"`, which are the `Format` of an
archive command and the two encoding flags of `CmdResultsGoTest`. -/
def Command.kind (c : Command) : String × ArchiveFormat × Bool × Bool :=
  match c with
  | .resultsGoTest g => (c.typeName, "", g.JSONFormat, g.LegacyFormat)
  | .archiveCreate a => (c.typeName, a.Format, false, false)
  | .archiveExtract e => (c.typeName, e.Format, false, false)
  | _ => (c.typeName, "", false, false)

/-- The kinds of the valid commands, each next to the name that `Name` returns
for it, in source order. A table for comparing names with kinds. -/
def kindNameTable : List ((String × ArchiveFormat × Bool × Bool) × String) :=
  [(("CmdExec", "", false, false), "subprocess.exec"),
   (("CmdExecShell", "", false, false), "shell.exec"),
   (("CmdSubprocessScripting", "", false, false), "subprocess.scripting"),
   (("CmdS3Put", "", false, false), "s3.put"),
   (("CmdS3Get", "", false, false), "s3.get"),
   (("CmdS3Copy", "", false, false), "s3Copy.copy"),
   (("CmdS3Push", "", false, false), "s3.push"),
   (("CmdS3Pull", "", false, false), "s3.pull"),
   (("CmdGetProject", "", false, false), "git.get_project"),
   (("CmdResultsJSON", "", false, false), "attach.results"),
   (("CmdResultsXunit", "", false, false), "attach.xunit_results"),
   (("CmdResultsGoTest", "", false, true), "gotest.parse_files"),
   (("CmdResultsGoTest", "", true, false), "gotest.parse_json"),
   (("CmdArchiveCreate", "zip", false, false), "archive.zip_pack"),
   (("CmdArchiveCreate", "tarball", false, false), "archive.targz_pack"),
   (("CmdArchiveExtract", "zip", false, false), "archive.zip_extract"),
   (("CmdArchiveExtract", "tarball", false, false), "archive.targz_extract"),
   (("CmdArchiveExtract", "auto", false, false), "archive.auto_extract"),
   (("CmdAttachArtifacts", "", false, false), "attach.artifacts")]

/-! # Theorems -/

/-! ## Validation and wire names of the commands -/

/-- C6: `CmdS3Put.Validate` returns an error exactly when the credential key is
empty, or the credential secret is empty, or both the local file is empty and
the include filter has length 0; the all-empty `CmdS3Put{}` fails validation. -/
theorem s3Put_validate_error_iff (c : CmdS3Put) :
    (c.Validate ≠ none ↔
      (c.CredKey = "" ∨ c.CredSecret = "" ∨
        (c.LocalFile = "" ∧ len c.LocalFileIncludeFilter = 0))) ∧
    ({} : CmdS3Put).Validate ≠ none := by
  constructor
  · unfold CmdS3Put.Validate
    by_cases h1 : c.CredKey = "" ∨ c.CredSecret = ""
    · rw [if_pos h1]
      rcases h1 with h | h <;> simp [h]
    · rw [if_neg h1]
      have hk : c.CredKey ≠ "" := fun h => h1 (Or.inl h)
      have hs : c.CredSecret ≠ "" := fun h => h1 (Or.inr h)
      by_cases h2 : c.LocalFile = "" ∧ len c.LocalFileIncludeFilter = 0
      · rw [if_pos h2]
        simp [h2]
      · rw [if_neg h2]
        constructor
        · intro h; exact absurd rfl h
        · rintro (h | h | h)
          · exact absurd h hk
          · exact absurd h hs
          · exact absurd h h2
  · decide

/-- The format check accepts exactly the two constants. -/
theorem archiveFormat_validate_eq_none (f : ArchiveFormat) :
    ArchiveFormat.Validate f = none ↔ (f = "zip" ∨ f = "tarball") := by
  unfold ArchiveFormat.Validate ZIP TARBALL
  by_cases h : f = "zip" ∨ f = "tarball"
  · rw [if_pos h]; simp [h]
  · rw [if_neg h]; simp [h]

theorem archiveCreate_validate_eq_none (c : CmdArchiveCreate) :
    c.Validate = none ↔ (c.Format = "zip" ∨ c.Format = "tarball") := by
  unfold CmdArchiveCreate.Validate
  exact archiveFormat_validate_eq_none c.Format

theorem archiveExtract_validate_eq_none (c : CmdArchiveExtract) :
    c.Validate = none ↔ (c.Format = "zip" ∨ c.Format = "tarball" ∨ c.Format = "auto") := by
  unfold CmdArchiveExtract.Validate
  cases hv : ArchiveFormat.Validate c.Format with
  | none =>
    have := (archiveFormat_validate_eq_none c.Format).1 hv
    simp only [true_iff]
    rcases this with h | h
    · exact Or.inl h
    · exact Or.inr (Or.inl h)
  | some err =>
    have hne : ¬ (c.Format = "zip" ∨ c.Format = "tarball") := by
      intro h
      rw [(archiveFormat_validate_eq_none c.Format).2 h] at hv
      exact Option.noConfusion hv
    by_cases ha : c.Format = "auto"
    · simp [ha]
    · have hne2 : c.Format ≠ "auto" := ha
      show (if c.Format ≠ "auto" then some err else none) = none ↔ _
      rw [if_pos hne2]
      constructor
      · intro h; exact Option.noConfusion h
      · rintro (h | h | h)
        · exact absurd (Or.inl h) hne
        · exact absurd (Or.inr h) hne
        · exact absurd h ha

/-- C7: `CmdArchiveCreate.Validate` succeeds exactly for the formats "zip" and
"tarball", `CmdArchiveExtract.Validate` exactly for "zip", "tarball" and
"auto", and the result of either depends on no field but `Format`. -/
theorem archive_validate_iff (c c2 : CmdArchiveCreate) (e e2 : CmdArchiveExtract) :
    (c.Validate = none ↔ (c.Format = "zip" ∨ c.Format = "tarball")) ∧
    (e.Validate = none ↔ (e.Format = "zip" ∨ e.Format = "tarball" ∨ e.Format = "auto")) ∧
    (c.Format = c2.Format → c.Validate = c2.Validate) ∧
    (e.Format = e2.Format → e.Validate = e2.Validate) := by
  refine ⟨archiveCreate_validate_eq_none c, archiveExtract_validate_eq_none e, ?_, ?_⟩
  · intro h
    unfold CmdArchiveCreate.Validate
    rw [h]
  · intro h
    unfold CmdArchiveExtract.Validate
    rw [h]

/-- Witness of C7 on a zip archive with a target against one without, and a
tarball extraction with a path against one without. -/
theorem archive_validate_iff_witness :
    (({ Format := "zip", Target := "out.zip" } : CmdArchiveCreate).Validate = none ↔
      (("zip" : String) = "zip" ∨ ("zip" : String) = "tarball")) ∧
    (({ Format := "tarball", Path := "in.tgz" } : CmdArchiveExtract).Validate = none ↔
      (("tarball" : String) = "zip" ∨ ("tarball" : String) = "tarball" ∨
        ("tarball" : String) = "auto")) ∧
    ({ Format := "zip", Target := "out.zip" } : CmdArchiveCreate).Validate =
      ({ Format := "zip" } : CmdArchiveCreate).Validate ∧
    ({ Format := "tarball", Path := "in.tgz" } : CmdArchiveExtract).Validate =
      ({ Format := "tarball" } : CmdArchiveExtract).Validate :=
  have h := archive_validate_iff { Format := "zip", Target := "out.zip" } { Format := "zip" }
    { Format := "tarball", Path := "in.tgz" } { Format := "tarball" }
  ⟨h.1, h.2.1, h.2.2.1 rfl, h.2.2.2 rfl⟩

/-- A valid archive-create command resolves to a definition carrying its name. -/
theorem archiveCreate_resolve_of_valid (c : CmdArchiveCreate) (h : c.Validate = none) :
    ∃ d, c.Resolve = Except.ok d ∧ c.Name = Except.ok d.CommandName := by
  have hf := (archiveCreate_validate_eq_none c).1 h
  have hx : exportCmd (.archiveCreate c) = Except.ok (Command.toParams (.archiveCreate c)) := by
    simp [exportCmd, Command.Validate, h]
  rcases hf with hf | hf
  · have hn : c.Name = Except.ok "archive.zip_pack" := by
      simp [CmdArchiveCreate.Name, ArchiveFormat.createCmdName, ZIP, hf]
    exact ⟨_, by simp only [CmdArchiveCreate.Resolve, hn, hx]; rfl, hn⟩
  · have hn : c.Name = Except.ok "archive.targz_pack" := by
      simp [CmdArchiveCreate.Name, ArchiveFormat.createCmdName, ZIP, TARBALL, hf]
    exact ⟨_, by simp only [CmdArchiveCreate.Resolve, hn, hx]; rfl, hn⟩

/-- A valid archive-extract command resolves to a definition carrying its name. -/
theorem archiveExtract_resolve_of_valid (e : CmdArchiveExtract) (h : e.Validate = none) :
    ∃ d, e.Resolve = Except.ok d ∧ e.Name = Except.ok d.CommandName := by
  have hf := (archiveExtract_validate_eq_none e).1 h
  have hx : exportCmd (.archiveExtract e) = Except.ok (Command.toParams (.archiveExtract e)) := by
    simp [exportCmd, Command.Validate, h]
  rcases hf with hf | hf | hf
  · have hn : e.Name = Except.ok "archive.zip_extract" := by
      simp [CmdArchiveExtract.Name, ArchiveFormat.extractCmdName, ZIP, hf]
    exact ⟨_, by simp only [CmdArchiveExtract.Resolve, hn, hx]; rfl, hn⟩
  · have hn : e.Name = Except.ok "archive.targz_extract" := by
      simp [CmdArchiveExtract.Name, ArchiveFormat.extractCmdName, ZIP, TARBALL, hf]
    exact ⟨_, by simp only [CmdArchiveExtract.Resolve, hn, hx]; rfl, hn⟩
  · have hn : e.Name = Except.ok "archive.auto_extract" := by
      simp [CmdArchiveExtract.Name, ArchiveFormat.extractCmdName, ZIP, TARBALL, hf]
    exact ⟨_, by simp only [CmdArchiveExtract.Resolve, hn, hx]; rfl, hn⟩

/-- C8: the wire name of an archive command is a function of the format alone:
create gives "archive.zip_pack" for zip and "archive.targz_pack" for tarball,
extract gives "archive.zip_extract", "archive.targz_extract" and
"archive.auto_extract" for zip, tarball and auto; commands of one kind with
equal `Format` have equal names whatever their other fields; and `Resolve` of a
valid command returns a definition whose `CommandName` is that name. -/
theorem archive_name_of_format (c c2 : CmdArchiveCreate) (e e2 : CmdArchiveExtract) :
    (c.Format = "zip" → c.Name = Except.ok "archive.zip_pack") ∧
    (c.Format = "tarball" → c.Name = Except.ok "archive.targz_pack") ∧
    (e.Format = "zip" → e.Name = Except.ok "archive.zip_extract") ∧
    (e.Format = "tarball" → e.Name = Except.ok "archive.targz_extract") ∧
    (e.Format = "auto" → e.Name = Except.ok "archive.auto_extract") ∧
    (c.Format = c2.Format → c.Name = c2.Name) ∧
    (e.Format = e2.Format → e.Name = e2.Name) ∧
    (c.Validate = none → ∃ d, c.Resolve = Except.ok d ∧ c.Name = Except.ok d.CommandName) ∧
    (e.Validate = none → ∃ d, e.Resolve = Except.ok d ∧ e.Name = Except.ok d.CommandName) := by
  refine ⟨?_, ?_, ?_, ?_, ?_, ?_, ?_, archiveCreate_resolve_of_valid c,
    archiveExtract_resolve_of_valid e⟩
  · intro h; simp [CmdArchiveCreate.Name, ArchiveFormat.createCmdName, ZIP, h]
  · intro h; simp [CmdArchiveCreate.Name, ArchiveFormat.createCmdName, ZIP, TARBALL, h]
  · intro h; simp [CmdArchiveExtract.Name, ArchiveFormat.extractCmdName, ZIP, h]
  · intro h; simp [CmdArchiveExtract.Name, ArchiveFormat.extractCmdName, ZIP, TARBALL, h]
  · intro h; simp [CmdArchiveExtract.Name, ArchiveFormat.extractCmdName, ZIP, TARBALL, h]
  · intro h; unfold CmdArchiveCreate.Name; rw [h]
  · intro h; unfold CmdArchiveExtract.Name; rw [h]

/-- Witness of C8: a zip and a tarball archive creation, and a zip, a tarball
and an auto extraction, each with other fields set. -/
theorem archive_name_of_format_witness :
    (({ Format := "zip", Target := "a" } : CmdArchiveCreate).Name =
        Except.ok "archive.zip_pack" ∧
      ({ Format := "tarball", SourceDir := "b" } : CmdArchiveCreate).Name =
        Except.ok "archive.targz_pack" ∧
      ({ Format := "zip", Path := "c" } : CmdArchiveExtract).Name =
        Except.ok "archive.zip_extract" ∧
      ({ Format := "tarball", Target := "d" } : CmdArchiveExtract).Name =
        Except.ok "archive.targz_extract" ∧
      ({ Format := "auto", Path := "e" } : CmdArchiveExtract).Name =
        Except.ok "archive.auto_extract") ∧
    (({ Format := "zip", Target := "a" } : CmdArchiveCreate).Name =
        ({ Format := "zip" } : CmdArchiveCreate).Name ∧
      ({ Format := "auto", Path := "e" } : CmdArchiveExtract).Name =
        ({ Format := "auto" } : CmdArchiveExtract).Name) ∧
    ((∃ d, ({ Format := "zip", Target := "a" } : CmdArchiveCreate).Resolve = Except.ok d ∧
        ({ Format := "zip", Target := "a" } : CmdArchiveCreate).Name =
          Except.ok d.CommandName) ∧
      (∃ d, ({ Format := "auto", Path := "e" } : CmdArchiveExtract).Resolve = Except.ok d ∧
        ({ Format := "auto", Path := "e" } : CmdArchiveExtract).Name =
          Except.ok d.CommandName)) :=
  have h1 := archive_name_of_format { Format := "zip", Target := "a" } { Format := "zip" }
    { Format := "auto", Path := "e" } { Format := "auto" }
  have h2 := archive_name_of_format { Format := "tarball", SourceDir := "b" } {}
    { Format := "zip", Path := "c" } {}
  have h3 := archive_name_of_format {} {} { Format := "tarball", Target := "d" } {}
  ⟨⟨h1.1 rfl, h2.2.1 rfl, h2.2.2.1 rfl, h3.2.2.2.1 rfl, h1.2.2.2.2.1 rfl⟩,
    ⟨h1.2.2.2.2.2.1 rfl, h1.2.2.2.2.2.2.1 rfl⟩,
    ⟨h1.2.2.2.2.2.2.2.1 (by decide), h1.2.2.2.2.2.2.2.2 (by decide)⟩⟩

/-- The gotest check passes exactly when one flag is set and the other is not. -/
theorem goTest_validate_eq_none (c : CmdResultsGoTest) :
    c.Validate = none ↔
      ((c.JSONFormat = true ∧ c.LegacyFormat = false) ∨
        (c.JSONFormat = false ∧ c.LegacyFormat = true)) := by
  unfold CmdResultsGoTest.Validate
  cases c.JSONFormat <;> cases c.LegacyFormat <;> simp

/-- C9: `CmdResultsGoTest.Validate` returns an error exactly when the two format
flags are equal, succeeds exactly when one is true and the other false, and
does not depend on `Files`. -/
theorem goTest_validate_iff (c c2 : CmdResultsGoTest) :
    (c.Validate ≠ none ↔ c.JSONFormat = c.LegacyFormat) ∧
    (c.Validate = none ↔
      ((c.JSONFormat = true ∧ c.LegacyFormat = false) ∨
        (c.JSONFormat = false ∧ c.LegacyFormat = true))) ∧
    (c.JSONFormat = c2.JSONFormat → c.LegacyFormat = c2.LegacyFormat →
      c.Validate = c2.Validate) := by
  refine ⟨?_, ?_, ?_⟩
  · unfold CmdResultsGoTest.Validate
    cases c.JSONFormat <;> cases c.LegacyFormat <;> simp
  · exact goTest_validate_eq_none c
  · intro h1 h2
    unfold CmdResultsGoTest.Validate
    rw [h1, h2]

/-- Witness of C9: the JSON encoding with and without files. -/
theorem goTest_validate_iff_witness :
    ({ JSONFormat := true, Files := some ["a.json"] } : CmdResultsGoTest).Validate =
      ({ JSONFormat := true } : CmdResultsGoTest).Validate :=
  (goTest_validate_iff { JSONFormat := true, Files := some ["a.json"] }
    { JSONFormat := true }).2.2 rfl rfl

/-- C10: a valid `CmdResultsGoTest` resolves, and the `CommandName` of the
definition is "gotest.parse_json" when `JSONFormat` is set,
"gotest.parse_files" when `LegacyFormat` is set, and equals `Name()` in both
cases. -/
theorem goTest_resolve_name (c : CmdResultsGoTest) (h : c.Validate = none) :
    ∃ d, c.Resolve = Except.ok d ∧ d.CommandName = c.Name ∧
      (c.JSONFormat = true → d.CommandName = "gotest.parse_json") ∧
      (c.LegacyFormat = true → d.CommandName = "gotest.parse_files") := by
  have hx : exportCmd (.resultsGoTest c) = Except.ok (Command.toParams (.resultsGoTest c)) := by
    simp [exportCmd, Command.Validate, h]
  have hv := (goTest_validate_eq_none c).1 h
  rcases hv with ⟨hj, hl⟩ | ⟨hj, hl⟩
  · refine ⟨{ CommandName := c.Name, Params := some (Command.toParams (.resultsGoTest c)) },
      ?_, rfl, ?_, ?_⟩
    · simp only [CmdResultsGoTest.Resolve, hj, hx]; rfl
    · intro _; simp [CmdResultsGoTest.Name, hl]
    · intro h2; rw [hl] at h2; exact Bool.noConfusion h2
  · refine ⟨{ CommandName := "gotest.parse_files",
              Params := some (Command.toParams (.resultsGoTest c)) }, ?_, ?_, ?_, ?_⟩
    · simp only [CmdResultsGoTest.Resolve, hj, hx]; rfl
    · simp [CmdResultsGoTest.Name, hl]
    · intro h2; rw [hj] at h2; exact Bool.noConfusion h2
    · intro _; rfl

/-- Witness of C10 on the JSON encoding and on the legacy encoding. -/
theorem goTest_resolve_name_witness :
    (∃ d, ({ JSONFormat := true } : CmdResultsGoTest).Resolve = Except.ok d ∧
      d.CommandName = ({ JSONFormat := true } : CmdResultsGoTest).Name ∧
      d.CommandName = "gotest.parse_json") ∧
    (∃ d, ({ LegacyFormat := true, Files := some ["x"] } : CmdResultsGoTest).Resolve =
        Except.ok d ∧
      d.CommandName = ({ LegacyFormat := true, Files := some ["x"] } : CmdResultsGoTest).Name ∧
      d.CommandName = "gotest.parse_files") :=
  ⟨(goTest_resolve_name { JSONFormat := true } (by decide)).imp
      (fun _ hd => ⟨hd.1, hd.2.1, hd.2.2.1 rfl⟩),
    (goTest_resolve_name { LegacyFormat := true, Files := some ["x"] } (by decide)).imp
      (fun _ hd => ⟨hd.1, hd.2.1, hd.2.2.2 rfl⟩)⟩

/-! ## The scan loop, allocation and writes -/

theorem update_alloc {α : Type} (mem : List α) (z : α) (f : α → α) :
    update (alloc mem z).2 (alloc mem z).1 f = Except.ok (mem ++ [f z]) := by
  simp [update, alloc]

theorem scan_ok_none_iff {α : Type} (mem : List α) (key : α → String) (name : String)
    (ps : List Ptr) :
    scan mem key name ps = Except.ok none ↔
      ∀ p ∈ ps, ∃ x, mem[p]? = some x ∧ key x ≠ name := by
  induction ps with
  | nil => simp [scan]
  | cons p ps ih =>
    unfold scan
    cases hp : mem[p]? with
    | none => simp [hp]
    | some x =>
      by_cases hk : key x = name
      · simp [hp, hk]
      · simp [hp, hk, ih]

theorem scan_ok_some {α : Type} (mem : List α) (key : α → String) (name : String)
    (ps : List Ptr) (q : Ptr) (h : scan mem key name ps = Except.ok (some q)) :
    q ∈ ps ∧ ∃ x, mem[q]? = some x ∧ key x = name := by
  induction ps with
  | nil => simp [scan] at h
  | cons p ps ih =>
    unfold scan at h
    cases hp : mem[p]? with
    | none => simp [hp] at h
    | some x =>
      by_cases hk : key x = name
      · simp [hp, hk] at h
        subst h
        exact ⟨List.mem_cons_self _ _, x, hp, hk⟩
      · simp [hp, hk] at h
        have := ih h
        exact ⟨List.mem_cons_of_mem _ this.1, this.2⟩

/-- On a store where every pointer of the slice is allocated the loop finishes
without a panic. -/
theorem scan_total {α : Type} (mem : List α) (key : α → String) (name : String)
    (ps : List Ptr) (h : ∀ p ∈ ps, p < mem.length) :
    ∃ r, scan mem key name ps = Except.ok r := by
  induction ps with
  | nil => exact ⟨none, rfl⟩
  | cons p ps ih =>
    have hp : p < mem.length := h p (List.mem_cons_self _ _)
    obtain ⟨r, hr⟩ := ih (fun q hq => h q (List.mem_cons_of_mem _ hq))
    unfold scan
    rw [List.getElem?_eq_getElem hp]
    by_cases hk : key mem[p] = name
    · exact ⟨some p, by simp [hk]⟩
    · exact ⟨r, by simp [hk, hr]⟩

/-- After a miss, the scan of the extended slice over the extended store stops
at the new pointer. -/
theorem scan_after_miss {α : Type} (mem : List α) (key : α → String) (name : String)
    (ps : List Ptr) (y : α) (hy : key y = name)
    (h : scan mem key name ps = Except.ok none) :
    scan (mem ++ [y]) key name (ps ++ [mem.length]) = Except.ok (some mem.length) := by
  induction ps with
  | nil => simp [scan, hy]
  | cons p ps ih =>
    have hall := (scan_ok_none_iff mem key name (p :: ps)).1 h
    obtain ⟨x, hx, hk⟩ := hall p (List.mem_cons_self _ _)
    have hlt : p < mem.length := (List.getElem?_eq_some.1 hx).1
    have htl : scan mem key name ps = Except.ok none :=
      (scan_ok_none_iff mem key name ps).2 (fun q hq => hall q (List.mem_cons_of_mem _ hq))
    show scan (mem ++ [y]) key name (p :: (ps ++ [mem.length])) = _
    unfold scan
    rw [List.getElem?_append_left hlt, hx]
    simp [hk, ih htl]

/-- The names seen through pointers that were allocated before the store grew. -/
theorem names_append_store {α : Type} (mem : List α) (key : α → String) (ps : List Ptr)
    (ys : List α) (h : ∀ p ∈ ps, p < mem.length) :
    names (mem ++ ys) key ps = names mem key ps := by
  unfold names
  apply List.filterMap_congr
  intro p hp
  rw [List.getElem?_append_left (h p hp)]

theorem names_after_miss {α : Type} (mem : List α) (key : α → String) (ps : List Ptr)
    (y : α) (h : ∀ p ∈ ps, p < mem.length) :
    names (mem ++ [y]) key (ps ++ [mem.length]) = names mem key ps ++ [key y] := by
  have h1 := names_append_store mem key ps [y] h
  unfold names at h1 ⊢
  rw [List.filterMap_append, h1]
  simp

theorem mem_names_iff {α : Type} (mem : List α) (key : α → String) (ps : List Ptr)
    (n : String) :
    n ∈ names mem key ps ↔ ∃ p ∈ ps, ∃ x, mem[p]? = some x ∧ key x = n := by
  unfold names
  simp [List.mem_filterMap]

/-- On a slice without nil pointers, the scan misses exactly when the name is
not among the names of the slice. -/
theorem scan_miss_of_not_mem {α : Type} (mem : List α) (key : α → String) (name : String)
    (ps : List Ptr) (hv : ∀ p ∈ ps, p < mem.length) (hn : name ∉ names mem key ps) :
    scan mem key name ps = Except.ok none := by
  rw [scan_ok_none_iff]
  intro p hp
  have hx := List.getElem?_eq_getElem (hv p hp)
  refine ⟨_, hx, ?_⟩
  intro hk
  exact hn ((mem_names_iff mem key ps name).2 ⟨p, hp, _, hx, hk⟩)

theorem valid_of_scan_miss {α : Type} (mem : List α) (key : α → String) (name : String)
    (ps : List Ptr) (h : scan mem key name ps = Except.ok none) :
    (∀ p ∈ ps, p < mem.length) ∧ name ∉ names mem key ps := by
  have hall := (scan_ok_none_iff mem key name ps).1 h
  constructor
  · intro p hp
    obtain ⟨x, hx, _⟩ := hall p hp
    exact (List.getElem?_eq_some.1 hx).1
  · intro hmem
    obtain ⟨p, hp, x, hx, hk⟩ := (mem_names_iff mem key ps name).1 hmem
    obtain ⟨x2, hx2, hk2⟩ := hall p hp
    rw [hx] at hx2
    cases hx2
    exact hk2 hk

/-! ## The get-or-create accessors -/

theorem Configuration.Task_hit (s : State) (n : String) (t : Ptr)
    (h : scan s.heap.tasks (fun x => x.Name) n s.conf.Tasks = Except.ok (some t)) :
    Configuration.Task s n = Except.ok (t, s) := by
  simp [Configuration.Task, h]

theorem Configuration.Task_miss (s : State) (n : String)
    (h : scan s.heap.tasks (fun x => x.Name) n s.conf.Tasks = Except.ok none) :
    Configuration.Task s n = Except.ok (s.heap.tasks.length,
      { heap := { s.heap with tasks := s.heap.tasks ++ [{ Name := n }] },
        conf := { s.conf with Tasks := s.conf.Tasks ++ [s.heap.tasks.length] } }) := by
  simp [Configuration.Task, h, update, alloc]

theorem Configuration.TaskGroup_hit (s : State) (n : String) (g : Ptr)
    (h : scan s.heap.groups (fun x => x.GroupName) n s.conf.Groups = Except.ok (some g)) :
    Configuration.TaskGroup s n = Except.ok (g, s) := by
  simp [Configuration.TaskGroup, h]

theorem Configuration.TaskGroup_miss (s : State) (n : String)
    (h : scan s.heap.groups (fun x => x.GroupName) n s.conf.Groups = Except.ok none) :
    Configuration.TaskGroup s n = Except.ok (s.heap.groups.length,
      { heap := { s.heap with groups := s.heap.groups ++ [{ GroupName := n }] },
        conf := { s.conf with Groups := s.conf.Groups ++ [s.heap.groups.length] } }) := by
  simp [Configuration.TaskGroup, h, update, alloc, TaskGroup.Name]

theorem Configuration.Variant_hit (s : State) (n : String) (v : Ptr)
    (h : scan s.heap.variants (fun x => x.BuildName) n s.conf.Variants = Except.ok (some v)) :
    Configuration.Variant s n = Except.ok (v, s) := by
  simp [Configuration.Variant, h]

theorem Configuration.Variant_miss (s : State) (n : String)
    (h : scan s.heap.variants (fun x => x.BuildName) n s.conf.Variants = Except.ok none) :
    Configuration.Variant s n = Except.ok (s.heap.variants.length,
      { heap := { s.heap with variants := s.heap.variants ++ [{ BuildName := n }] },
        conf := { s.conf with Variants := s.conf.Variants ++ [s.heap.variants.length] } }) := by
  simp [Configuration.Variant, h, update, alloc, Variant.Name]

/-- A second call of `Configuration.Task` with the same name returns the
pointer of the first call and leaves the state as the first call left it. -/
theorem Configuration.Task_again (s : State) (n : String) (p : Ptr) (s1 : State)
    (h : Configuration.Task s n = Except.ok (p, s1)) :
    Configuration.Task s1 n = Except.ok (p, s1) := by
  cases hs : scan s.heap.tasks (fun x => x.Name) n s.conf.Tasks with
  | error e => simp [Configuration.Task, hs] at h
  | ok r =>
    cases r with
    | some t =>
      have h2 := Configuration.Task_hit s n t hs
      rw [h2] at h
      cases h
      exact h2
    | none =>
      rw [Configuration.Task_miss s n hs] at h
      cases h
      exact Configuration.Task_hit _ n _
        (scan_after_miss s.heap.tasks (fun x => x.Name) n s.conf.Tasks { Name := n } rfl hs)

theorem Configuration.TaskGroup_again (s : State) (n : String) (p : Ptr) (s1 : State)
    (h : Configuration.TaskGroup s n = Except.ok (p, s1)) :
    Configuration.TaskGroup s1 n = Except.ok (p, s1) := by
  cases hs : scan s.heap.groups (fun x => x.GroupName) n s.conf.Groups with
  | error e => simp [Configuration.TaskGroup, hs] at h
  | ok r =>
    cases r with
    | some t =>
      have h2 := Configuration.TaskGroup_hit s n t hs
      rw [h2] at h
      cases h
      exact h2
    | none =>
      rw [Configuration.TaskGroup_miss s n hs] at h
      cases h
      exact Configuration.TaskGroup_hit _ n _
        (scan_after_miss s.heap.groups (fun x => x.GroupName) n s.conf.Groups
          { GroupName := n } rfl hs)

theorem Configuration.Variant_again (s : State) (n : String) (p : Ptr) (s1 : State)
    (h : Configuration.Variant s n = Except.ok (p, s1)) :
    Configuration.Variant s1 n = Except.ok (p, s1) := by
  cases hs : scan s.heap.variants (fun x => x.BuildName) n s.conf.Variants with
  | error e => simp [Configuration.Variant, hs] at h
  | ok r =>
    cases r with
    | some t =>
      have h2 := Configuration.Variant_hit s n t hs
      rw [h2] at h
      cases h
      exact h2
    | none =>
      rw [Configuration.Variant_miss s n hs] at h
      cases h
      exact Configuration.Variant_hit _ n _
        (scan_after_miss s.heap.variants (fun x => x.BuildName) n s.conf.Variants
          { BuildName := n } rfl hs)

/-- On a state without nil pointers the three accessors return. -/
theorem Configuration.accessors_return (s : State) (n : String) (hv : s.Valid) :
    (∃ r, Configuration.Task s n = Except.ok r) ∧
    (∃ r, Configuration.TaskGroup s n = Except.ok r) ∧
    (∃ r, Configuration.Variant s n = Except.ok r) := by
  refine ⟨?_, ?_, ?_⟩
  · obtain ⟨r, hr⟩ := scan_total s.heap.tasks (fun x => x.Name) n s.conf.Tasks hv.1
    cases r with
    | some t => exact ⟨_, Configuration.Task_hit s n t hr⟩
    | none => exact ⟨_, Configuration.Task_miss s n hr⟩
  · obtain ⟨r, hr⟩ := scan_total s.heap.groups (fun x => x.GroupName) n s.conf.Groups hv.2.1
    cases r with
    | some t => exact ⟨_, Configuration.TaskGroup_hit s n t hr⟩
    | none => exact ⟨_, Configuration.TaskGroup_miss s n hr⟩
  · obtain ⟨r, hr⟩ := scan_total s.heap.variants (fun x => x.BuildName) n s.conf.Variants hv.2.2
    cases r with
    | some t => exact ⟨_, Configuration.Variant_hit s n t hr⟩
    | none => exact ⟨_, Configuration.Variant_miss s n hr⟩

/-- C1: calling `Task`, `TaskGroup` or `Variant` of a `Configuration` twice with
the same name returns the same pointer both times, and the second call leaves
the whole state (the slices, their lengths and the entities) exactly as the
first call left it; on a `Configuration` whose slices hold no nil pointer the
calls return. -/
theorem getOrCreate_twice (s : State) (n : String) :
    (∀ p s1, Configuration.Task s n = Except.ok (p, s1) →
      Configuration.Task s1 n = Except.ok (p, s1)) ∧
    (∀ p s1, Configuration.TaskGroup s n = Except.ok (p, s1) →
      Configuration.TaskGroup s1 n = Except.ok (p, s1)) ∧
    (∀ p s1, Configuration.Variant s n = Except.ok (p, s1) →
      Configuration.Variant s1 n = Except.ok (p, s1)) ∧
    (s.Valid →
      (∃ r, Configuration.Task s n = Except.ok r) ∧
      (∃ r, Configuration.TaskGroup s n = Except.ok r) ∧
      (∃ r, Configuration.Variant s n = Except.ok r)) :=
  ⟨Configuration.Task_again s n, Configuration.TaskGroup_again s n,
    Configuration.Variant_again s n, Configuration.accessors_return s n⟩

/-- Witness of C1: the name "lint" is new to the example state in all three
collections; the first call creates the entity, the second returns it. -/
theorem getOrCreate_twice_witness :
    (∃ s1, Configuration.Task exampleState "lint" = Except.ok (2, s1) ∧
      s1.conf.Tasks = [0, 1, 2] ∧ Configuration.Task s1 "lint" = Except.ok (2, s1)) ∧
    (∃ s1, Configuration.TaskGroup exampleState "lint" = Except.ok (1, s1) ∧
      s1.conf.Groups = [0, 1] ∧ Configuration.TaskGroup s1 "lint" = Except.ok (1, s1)) ∧
    (∃ s1, Configuration.Variant exampleState "linux" = Except.ok (0, s1) ∧
      s1.conf.Variants = [0] ∧ Configuration.Variant s1 "linux" = Except.ok (0, s1)) ∧
    exampleState.Valid ∧
    (∃ r, Configuration.Task exampleState "lint" = Except.ok r) :=
  ⟨⟨_, rfl, rfl, (getOrCreate_twice exampleState "lint").1 2 _ rfl⟩,
    ⟨_, rfl, rfl, (getOrCreate_twice exampleState "lint").2.1 1 _ rfl⟩,
    ⟨_, rfl, rfl, (getOrCreate_twice exampleState "linux").2.2.1 0 _ rfl⟩,
    by decide,
    ((getOrCreate_twice exampleState "lint").2.2.2 (by decide)).1⟩

/-! ## The function map -/

theorem mapGet_mapSet_self {β : Type} (m : List (String × β)) (k : String) (v : β) :
    mapGet (mapSet m k v) k = some v := by
  induction m with
  | nil => simp [mapSet, mapGet]
  | cons kv m ih =>
    obtain ⟨k0, v0⟩ := kv
    unfold mapSet
    by_cases h : k0 = k
    · simp [h, mapGet]
    · simp [h, mapGet, ih]

theorem mapGet_mapSet_other {β : Type} (m : List (String × β)) (k k2 : String) (v : β)
    (h : k2 ≠ k) : mapGet (mapSet m k v) k2 = mapGet m k2 := by
  induction m with
  | nil =>
    have h2 : ¬ k = k2 := fun e => h e.symm
    simp [mapSet, mapGet, h2]
  | cons kv m ih =>
    obtain ⟨k0, v0⟩ := kv
    unfold mapSet
    by_cases h0 : k0 = k
    · have h2 : ¬ k = k2 := fun e => h e.symm
      have h3 : ¬ k0 = k2 := fun e => h (e.symm.trans h0)
      simp [h0, mapGet, h2]
    · simp [h0, mapGet, ih]

theorem Configuration.Function_hit (s : State) (n : String) (m : List (String × Ptr))
    (q : Ptr) (hm : s.conf.Functions = some m) (hq : mapGet m n = some q) :
    Configuration.Function s n = (q, s) := by
  obtain ⟨heap, conf⟩ := s
  obtain ⟨fns, ts, gs, vs⟩ := conf
  simp only at hm
  subst hm
  simp [Configuration.Function, hq]

/-- The state after a first call of `Configuration.Function` holds the returned
pointer under the name. -/
theorem Configuration.Function_stored (s : State) (n : String) :
    ∃ m, (Configuration.Function s n).2.conf.Functions = some m ∧
      mapGet m n = some (Configuration.Function s n).1 := by
  unfold Configuration.Function
  cases hf : s.conf.Functions with
  | none =>
    simp only [mapGet, alloc]
    exact ⟨_, rfl, mapGet_mapSet_self _ _ _⟩
  | some m =>
    simp only
    cases hq : mapGet m n with
    | some q => exact ⟨m, rfl, hq⟩
    | none =>
      simp only [alloc]
      exact ⟨_, rfl, mapGet_mapSet_self _ _ _⟩

/-- C2: `Configuration.Function` called twice with the same name returns the same
pointer and the second call changes nothing (neither the `Functions` map nor
anything else), also when the map starts out nil; every other name maps to the
same pointer as before the calls, and every sequence already in the store is
still the same, so the sequences stored under the other names are untouched. -/
theorem function_twice (s : State) (n : String) :
    Configuration.Function (Configuration.Function s n).2 n = Configuration.Function s n ∧
    (∀ m, m ≠ n →
      (Configuration.Function (Configuration.Function s n).2 n).2.functionPtr m =
        s.functionPtr m) ∧
    (∀ (q : Ptr) (cs : CommandSequence), s.heap.seqs[q]? = some cs →
      (Configuration.Function (Configuration.Function s n).2 n).2.heap.seqs[q]? = some cs) := by
  have h1 : Configuration.Function (Configuration.Function s n).2 n =
      Configuration.Function s n := by
    obtain ⟨m, hm, hq⟩ := Configuration.Function_stored s n
    rw [Configuration.Function_hit _ n m _ hm hq]
  rw [h1]
  refine ⟨rfl, ?_, ?_⟩
  · intro m hmn
    unfold Configuration.Function State.functionPtr
    cases hf : s.conf.Functions with
    | none =>
      have h2 : ¬ n = m := fun e => hmn e.symm
      simp [mapGet, mapSet, alloc, h2]
    | some fns =>
      simp only
      cases hq : mapGet fns n with
      | some q => rfl
      | none =>
        simp only [alloc]
        exact mapGet_mapSet_other _ _ _ _ hmn
  · intro q cs hqs
    have hlt : q < s.heap.seqs.length := (List.getElem?_eq_some.1 hqs).1
    unfold Configuration.Function
    cases hf : s.conf.Functions with
    | none =>
      simp only [mapGet, alloc]
      rw [List.getElem?_append_left hlt]
      exact hqs
    | some fns =>
      simp only
      cases hq : mapGet fns n with
      | some q2 => exact hqs
      | none =>
        simp only [alloc]
        rw [List.getElem?_append_left hlt]
        exact hqs

/-- Witness of C2: a new function "deploy" on the example state gets the fresh
pointer 1, "prepare" still maps to pointer 0 and the sequence at 0 is as before;
and on the empty state, whose map is nil, the two calls agree. -/
theorem function_twice_witness :
    Configuration.Function (Configuration.Function exampleState "deploy").2 "deploy" =
      Configuration.Function exampleState "deploy" ∧
    (Configuration.Function exampleState "deploy").1 = 1 ∧
    (Configuration.Function (Configuration.Function exampleState "deploy").2 "deploy").2.functionPtr
      "prepare" = some 0 ∧
    (Configuration.Function (Configuration.Function exampleState "deploy").2
      "deploy").2.heap.seqs[0]? = some [{ FunctionName := "setup" }] ∧
    Configuration.Function (Configuration.Function {} "deploy").2 "deploy" =
      Configuration.Function {} "deploy" :=
  ⟨(function_twice exampleState "deploy").1, rfl,
    (function_twice exampleState "deploy").2.1 "prepare" (by decide),
    (function_twice exampleState "deploy").2.2 0 _ rfl,
    (function_twice {} "deploy").1⟩

/-- C3: on a `Configuration` without nil pointers in which no task is named `n`,
`Task(n)` returns a pointer to a new entity, appended as the last element of
`c.Tasks`, whose name is `n` and whose other fields are zero; every task that
was there keeps its index and its value; `Groups`, `Variants`, `Functions` and
the entities behind them are unchanged. The same holds for `TaskGroup(n)` on
`Groups` and for `Variant(n)` on `Variants`. -/
theorem getOrCreate_new (s : State) (n : String) (hv : s.Valid) :
    (n ∉ s.taskNames →
      ∃ p s1, Configuration.Task s n = Except.ok (p, s1) ∧
        p ∉ s.conf.Tasks ∧
        s1.conf.Tasks = s.conf.Tasks ++ [p] ∧
        s1.heap.tasks[p]? =
          some { Name := n, PriorityOverride := 0, Dependencies := [], Commands := [] } ∧
        (∀ q ∈ s.conf.Tasks, s1.heap.tasks[q]? = s.heap.tasks[q]?) ∧
        s1.conf.Groups = s.conf.Groups ∧ s1.conf.Variants = s.conf.Variants ∧
        s1.conf.Functions = s.conf.Functions ∧
        s1.heap.groups = s.heap.groups ∧ s1.heap.variants = s.heap.variants ∧
        s1.heap.seqs = s.heap.seqs) ∧
    (n ∉ s.groupNames →
      ∃ p s1, Configuration.TaskGroup s n = Except.ok (p, s1) ∧
        p ∉ s.conf.Groups ∧
        s1.conf.Groups = s.conf.Groups ++ [p] ∧
        s1.heap.groups[p]? =
          some { GroupName := n, MaxHosts := 0, ShareProcesses := false, SetupGroupCmds := [],
                 SetupGroupCanFailTask := false, SetupGroupTimeoutSecs := 0,
                 SetupTaskCmds := [], Tasks := [], TeardownTaskCmds := [],
                 TeardownGroupCmds := [], TimeoutCmds := [], Tags := [] } ∧
        (∀ q ∈ s.conf.Groups, s1.heap.groups[q]? = s.heap.groups[q]?) ∧
        s1.conf.Tasks = s.conf.Tasks ∧ s1.conf.Variants = s.conf.Variants ∧
        s1.conf.Functions = s.conf.Functions ∧
        s1.heap.tasks = s.heap.tasks ∧ s1.heap.variants = s.heap.variants ∧
        s1.heap.seqs = s.heap.seqs) ∧
    (n ∉ s.variantNames →
      ∃ p s1, Configuration.Variant s n = Except.ok (p, s1) ∧
        p ∉ s.conf.Variants ∧
        s1.conf.Variants = s.conf.Variants ++ [p] ∧
        s1.heap.variants[p]? =
          some { BuildName := n, BuildDisplayName := "", BatchTimeSecs := 0,
                 CronBatchTime := "", Stepback := none, TaskSpecs := [], DistroRunOn := [],
                 Expansions := none, DisplayTaskSpecs := [], Activate := none } ∧
        (∀ q ∈ s.conf.Variants, s1.heap.variants[q]? = s.heap.variants[q]?) ∧
        s1.conf.Tasks = s.conf.Tasks ∧ s1.conf.Groups = s.conf.Groups ∧
        s1.conf.Functions = s.conf.Functions ∧
        s1.heap.tasks = s.heap.tasks ∧ s1.heap.groups = s.heap.groups ∧
        s1.heap.seqs = s.heap.seqs) := by
  refine ⟨?_, ?_, ?_⟩
  · intro hn
    have hs := scan_miss_of_not_mem s.heap.tasks (fun x => x.Name) n s.conf.Tasks hv.1 hn
    refine ⟨_, _, Configuration.Task_miss s n hs, ?_, rfl, ?_, ?_, rfl, rfl, rfl, rfl, rfl, rfl⟩
    · intro hmem
      exact Nat.lt_irrefl _ (hv.1 _ hmem)
    · exact List.getElem?_concat_length _ _
    · intro q hq
      exact List.getElem?_append_left (hv.1 q hq)
  · intro hn
    have hs := scan_miss_of_not_mem s.heap.groups (fun x => x.GroupName) n s.conf.Groups
      hv.2.1 hn
    refine ⟨_, _, Configuration.TaskGroup_miss s n hs, ?_, rfl, ?_, ?_, rfl, rfl, rfl, rfl, rfl,
      rfl⟩
    · intro hmem
      exact Nat.lt_irrefl _ (hv.2.1 _ hmem)
    · exact List.getElem?_concat_length _ _
    · intro q hq
      exact List.getElem?_append_left (hv.2.1 q hq)
  · intro hn
    have hs := scan_miss_of_not_mem s.heap.variants (fun x => x.BuildName) n s.conf.Variants
      hv.2.2 hn
    refine ⟨_, _, Configuration.Variant_miss s n hs, ?_, rfl, ?_, ?_, rfl, rfl, rfl, rfl, rfl,
      rfl⟩
    · intro hmem
      exact Nat.lt_irrefl _ (hv.2.2 _ hmem)
    · exact List.getElem?_concat_length _ _
    · intro q hq
      exact List.getElem?_append_left (hv.2.2 q hq)

/-- Witness of C3 on the example state: "lint" is the name of no task, no group
and no variant there; each accessor returns the next free pointer. -/
theorem getOrCreate_new_witness :
    exampleState.Valid ∧
    "lint" ∉ exampleState.taskNames ∧
    "lint" ∉ exampleState.groupNames ∧
    "lint" ∉ exampleState.variantNames ∧
    (∃ p s1, Configuration.Task exampleState "lint" = Except.ok (p, s1) ∧
      s1.conf.Tasks = exampleState.conf.Tasks ++ [p] ∧
      s1.heap.tasks[p]? =
        some { Name := "lint", PriorityOverride := 0, Dependencies := [], Commands := [] }) ∧
    (∃ p s1, Configuration.TaskGroup exampleState "lint" = Except.ok (p, s1) ∧
      s1.conf.Groups = exampleState.conf.Groups ++ [p] ∧
      s1.heap.tasks = exampleState.heap.tasks) ∧
    (∃ p s1, Configuration.Variant exampleState "lint" = Except.ok (p, s1) ∧
      s1.conf.Variants = exampleState.conf.Variants ++ [p] ∧
      s1.heap.groups = exampleState.heap.groups) :=
  have h := getOrCreate_new exampleState "lint" (by decide)
  ⟨by decide, by decide, by decide, by decide,
    (h.1 (by decide)).imp (fun _ hp => hp.imp (fun _ hs => ⟨hs.1, hs.2.2.1, hs.2.2.2.1⟩)),
    (h.2.1 (by decide)).imp (fun _ hp => hp.imp (fun _ hs => ⟨hs.1, hs.2.2.1, hs.2.2.2.2.2.2.2.2.1⟩)),
    (h.2.2 (by decide)).imp (fun _ hp => hp.imp (fun _ hs => ⟨hs.1, hs.2.2.1, hs.2.2.2.2.2.2.2.2.2.1⟩))⟩

/-! ## Names under the accessors -/

theorem nodup_concat_of_not_mem {l : List String} {n : String} (hl : l.Nodup) (hn : n ∉ l) :
    (l ++ [n]).Nodup := by
  rw [List.nodup_append]
  refine ⟨hl, List.nodup_singleton n, ?_⟩
  intro x hx hx2
  rw [List.mem_singleton] at hx2
  subst hx2
  exact hn hx

/-- What a returning call of `Configuration.Task` does to the observations of
the state: the other collections keep their names, the task names are
unchanged or grow by the new name, which was not there. -/
theorem Configuration.Task_names (s : State) (n : String) (p : Ptr) (s1 : State)
    (h : Configuration.Task s n = Except.ok (p, s1)) :
    s1.groupNames = s.groupNames ∧ s1.variantNames = s.variantNames ∧
    s1.functionNames = s.functionNames ∧
    (s1.taskNames = s.taskNames ∨ (n ∉ s.taskNames ∧ s1.taskNames = s.taskNames ++ [n])) ∧
    (s.Valid → s1.Valid) := by
  cases hs : scan s.heap.tasks (fun x => x.Name) n s.conf.Tasks with
  | error e => simp [Configuration.Task, hs] at h
  | ok r =>
    cases r with
    | some t =>
      rw [Configuration.Task_hit s n t hs] at h
      cases h
      exact ⟨rfl, rfl, rfl, Or.inl rfl, id⟩
    | none =>
      rw [Configuration.Task_miss s n hs] at h
      cases h
      obtain ⟨hlt, hnot⟩ := valid_of_scan_miss _ _ _ _ hs
      refine ⟨rfl, rfl, rfl, Or.inr ⟨hnot, ?_⟩, ?_⟩
      · exact names_after_miss s.heap.tasks (fun x => x.Name) s.conf.Tasks { Name := n } hlt
      · intro hv
        refine ⟨?_, hv.2.1, hv.2.2⟩
        intro q hq
        simp only [List.mem_append, List.mem_singleton] at hq
        simp only [List.length_append, List.length_singleton]
        rcases hq with hq | hq
        · exact Nat.lt_succ_of_lt (hlt q hq)
        · rw [hq]; exact Nat.lt_succ_self _

theorem Configuration.TaskGroup_names (s : State) (n : String) (p : Ptr) (s1 : State)
    (h : Configuration.TaskGroup s n = Except.ok (p, s1)) :
    s1.taskNames = s.taskNames ∧ s1.variantNames = s.variantNames ∧
    s1.functionNames = s.functionNames ∧
    (s1.groupNames = s.groupNames ∨ (n ∉ s.groupNames ∧ s1.groupNames = s.groupNames ++ [n])) ∧
    (s.Valid → s1.Valid) := by
  cases hs : scan s.heap.groups (fun x => x.GroupName) n s.conf.Groups with
  | error e => simp [Configuration.TaskGroup, hs] at h
  | ok r =>
    cases r with
    | some t =>
      rw [Configuration.TaskGroup_hit s n t hs] at h
      cases h
      exact ⟨rfl, rfl, rfl, Or.inl rfl, id⟩
    | none =>
      rw [Configuration.TaskGroup_miss s n hs] at h
      cases h
      obtain ⟨hlt, hnot⟩ := valid_of_scan_miss _ _ _ _ hs
      refine ⟨rfl, rfl, rfl, Or.inr ⟨hnot, ?_⟩, ?_⟩
      · exact names_after_miss s.heap.groups (fun x => x.GroupName) s.conf.Groups
          { GroupName := n } hlt
      · intro hv
        refine ⟨hv.1, ?_, hv.2.2⟩
        intro q hq
        simp only [List.mem_append, List.mem_singleton] at hq
        simp only [List.length_append, List.length_singleton]
        rcases hq with hq | hq
        · exact Nat.lt_succ_of_lt (hlt q hq)
        · rw [hq]; exact Nat.lt_succ_self _

theorem Configuration.Variant_names (s : State) (n : String) (p : Ptr) (s1 : State)
    (h : Configuration.Variant s n = Except.ok (p, s1)) :
    s1.taskNames = s.taskNames ∧ s1.groupNames = s.groupNames ∧
    s1.functionNames = s.functionNames ∧
    (s1.variantNames = s.variantNames ∨
      (n ∉ s.variantNames ∧ s1.variantNames = s.variantNames ++ [n])) ∧
    (s.Valid → s1.Valid) := by
  cases hs : scan s.heap.variants (fun x => x.BuildName) n s.conf.Variants with
  | error e => simp [Configuration.Variant, hs] at h
  | ok r =>
    cases r with
    | some t =>
      rw [Configuration.Variant_hit s n t hs] at h
      cases h
      exact ⟨rfl, rfl, rfl, Or.inl rfl, id⟩
    | none =>
      rw [Configuration.Variant_miss s n hs] at h
      cases h
      obtain ⟨hlt, hnot⟩ := valid_of_scan_miss _ _ _ _ hs
      refine ⟨rfl, rfl, rfl, Or.inr ⟨hnot, ?_⟩, ?_⟩
      · exact names_after_miss s.heap.variants (fun x => x.BuildName) s.conf.Variants
          { BuildName := n } hlt
      · intro hv
        refine ⟨hv.1, hv.2.1, ?_⟩
        intro q hq
        simp only [List.mem_append, List.mem_singleton] at hq
        simp only [List.length_append, List.length_singleton]
        rcases hq with hq | hq
        · exact Nat.lt_succ_of_lt (hlt q hq)
        · rw [hq]; exact Nat.lt_succ_self _

theorem mapGet_eq_none_iff {β : Type} (m : List (String × β)) (k : String) :
    mapGet m k = none ↔ k ∉ m.map Prod.fst := by
  induction m with
  | nil => simp [mapGet]
  | cons kv m ih =>
    obtain ⟨k0, v0⟩ := kv
    unfold mapGet
    by_cases h : k0 = k
    · simp [h]
    · have h2 : ¬ k = k0 := fun e => h e.symm
      simp [h, h2, ih]

theorem mapSet_keys_of_absent {β : Type} (m : List (String × β)) (k : String) (v : β)
    (h : mapGet m k = none) : (mapSet m k v).map Prod.fst = m.map Prod.fst ++ [k] := by
  induction m with
  | nil => simp [mapSet]
  | cons kv m ih =>
    obtain ⟨k0, v0⟩ := kv
    unfold mapGet at h
    by_cases h0 : k0 = k
    · simp [h0] at h
    · simp only [h0, if_false] at h
      simp [mapSet, h0, ih h]

/-- What `Configuration.Function` does to the observations of the state. -/
theorem Configuration.Function_names (s : State) (n : String) :
    (Configuration.Function s n).2.taskNames = s.taskNames ∧
    (Configuration.Function s n).2.groupNames = s.groupNames ∧
    (Configuration.Function s n).2.variantNames = s.variantNames ∧
    ((Configuration.Function s n).2.functionNames = s.functionNames ∨
      (n ∉ s.functionNames ∧
        (Configuration.Function s n).2.functionNames = s.functionNames ++ [n])) ∧
    (s.Valid → (Configuration.Function s n).2.Valid) := by
  unfold Configuration.Function
  cases hf : s.conf.Functions with
  | none =>
    refine ⟨rfl, rfl, rfl, Or.inr ?_, id⟩
    simp [State.functionNames, hf, mapGet, mapSet, alloc]
  | some m =>
    simp only
    cases hq : mapGet m n with
    | some q =>
      refine ⟨rfl, rfl, rfl, Or.inl ?_, id⟩
      simp [State.functionNames, hf]
    | none =>
      refine ⟨rfl, rfl, rfl, Or.inr ⟨?_, ?_⟩, id⟩
      · simpa [State.functionNames, hf] using (mapGet_eq_none_iff m n).1 hq
      · simp only [alloc, State.functionNames, hf]
        exact mapSet_keys_of_absent m n _ hq

theorem nodup_of_same_or_grown {l l1 : List String} {n : String} (hl : l.Nodup)
    (h : l1 = l ∨ (n ∉ l ∧ l1 = l ++ [n])) : l1.Nodup := by
  rcases h with h | ⟨hn, h⟩
  · rw [h]; exact hl
  · rw [h]; exact nodup_concat_of_not_mem hl hn

theorem Call.run_Task_ok {s s1 : State} {n : String} {p : Ptr}
    (h : Configuration.Task s n = Except.ok (p, s1)) : Call.run s (.Task n) = s1 := by
  simp [Call.run, h]

theorem Call.run_Task_error {s : State} {n : String} {e : PanicValue}
    (h : Configuration.Task s n = Except.error e) : Call.run s (.Task n) = s := by
  simp [Call.run, h]

theorem Call.run_TaskGroup_ok {s s1 : State} {n : String} {p : Ptr}
    (h : Configuration.TaskGroup s n = Except.ok (p, s1)) : Call.run s (.TaskGroup n) = s1 := by
  simp [Call.run, h]

theorem Call.run_TaskGroup_error {s : State} {n : String} {e : PanicValue}
    (h : Configuration.TaskGroup s n = Except.error e) : Call.run s (.TaskGroup n) = s := by
  simp [Call.run, h]

theorem Call.run_Variant_ok {s s1 : State} {n : String} {p : Ptr}
    (h : Configuration.Variant s n = Except.ok (p, s1)) : Call.run s (.Variant n) = s1 := by
  simp [Call.run, h]

theorem Call.run_Variant_error {s : State} {n : String} {e : PanicValue}
    (h : Configuration.Variant s n = Except.error e) : Call.run s (.Variant n) = s := by
  simp [Call.run, h]

theorem Call.run_Function (s : State) (n : String) :
    Call.run s (.Function n) = (Configuration.Function s n).2 := rfl

/-- One get-or-create call keeps the state free of nil pointers and keeps the
names of every collection pairwise distinct. -/
theorem getOrCreate_step (s : State) (c : Call) (hc : c.isGetOrCreate = true)
    (h : s.Valid ∧ s.taskNames.Nodup ∧ s.groupNames.Nodup ∧ s.variantNames.Nodup ∧
      s.functionNames.Nodup) :
    (Call.run s c).Valid ∧ (Call.run s c).taskNames.Nodup ∧ (Call.run s c).groupNames.Nodup ∧
      (Call.run s c).variantNames.Nodup ∧ (Call.run s c).functionNames.Nodup := by
  obtain ⟨hv, ht, hg, hvn, hf⟩ := h
  cases c with
  | Task n =>
    cases hr : Configuration.Task s n with
    | error e => rw [Call.run_Task_error hr]; exact ⟨hv, ht, hg, hvn, hf⟩
    | ok r =>
      obtain ⟨p, s1⟩ := r
      obtain ⟨e1, e2, e3, e4, e5⟩ := Configuration.Task_names s n p s1 hr
      rw [Call.run_Task_ok hr, e1, e2, e3]
      exact ⟨e5 hv, nodup_of_same_or_grown ht e4, hg, hvn, hf⟩
  | TaskGroup n =>
    cases hr : Configuration.TaskGroup s n with
    | error e => rw [Call.run_TaskGroup_error hr]; exact ⟨hv, ht, hg, hvn, hf⟩
    | ok r =>
      obtain ⟨p, s1⟩ := r
      obtain ⟨e1, e2, e3, e4, e5⟩ := Configuration.TaskGroup_names s n p s1 hr
      rw [Call.run_TaskGroup_ok hr, e1, e2, e3]
      exact ⟨e5 hv, ht, nodup_of_same_or_grown hg e4, hvn, hf⟩
  | Function n =>
    obtain ⟨e1, e2, e3, e4, e5⟩ := Configuration.Function_names s n
    rw [Call.run_Function, e1, e2, e3]
    exact ⟨e5 hv, ht, hg, hvn, nodup_of_same_or_grown hf e4⟩
  | Variant n =>
    cases hr : Configuration.Variant s n with
    | error e => rw [Call.run_Variant_error hr]; exact ⟨hv, ht, hg, hvn, hf⟩
    | ok r =>
      obtain ⟨p, s1⟩ := r
      obtain ⟨e1, e2, e3, e4, e5⟩ := Configuration.Variant_names s n p s1 hr
      rw [Call.run_Variant_ok hr, e1, e2, e3]
      exact ⟨e5 hv, ht, hg, nodup_of_same_or_grown hvn e4, hf⟩
  | onTask t m => simp [Call.isGetOrCreate] at hc
  | onTaskGroup g m => simp [Call.isGetOrCreate] at hc
  | onVariant v m => simp [Call.isGetOrCreate] at hc

theorem getOrCreate_runAll (calls : List Call) :
    ∀ s : State, (∀ c ∈ calls, c.isGetOrCreate = true) →
      (s.Valid ∧ s.taskNames.Nodup ∧ s.groupNames.Nodup ∧ s.variantNames.Nodup ∧
        s.functionNames.Nodup) →
      ((runAll s calls).Valid ∧ (runAll s calls).taskNames.Nodup ∧
        (runAll s calls).groupNames.Nodup ∧ (runAll s calls).variantNames.Nodup ∧
        (runAll s calls).functionNames.Nodup) := by
  induction calls with
  | nil => intro s _ h; exact h
  | cons c cs ih =>
    intro s hc h
    exact ih (Call.run s c) (fun d hd => hc d (List.mem_cons_of_mem _ hd))
      (getOrCreate_step s c (hc c (List.mem_cons_self _ _)) h)

/-- C4: the get-or-create accessors keep names apart. If the task names of a
`Configuration` are pairwise distinct, they still are after `Task(n)`, for any
`n` (and on a `Configuration` without nil pointers the call does return);
likewise the group names under `TaskGroup(n)` and the build names under
`Variant(n)`. Hence the state reached from the empty `Configuration` by any
sequence of get-or-create calls has pairwise distinct names in each collection
(tasks, groups, variants, functions) and holds no nil pointer. -/
theorem getOrCreate_keeps_names_distinct (s : State) (n : String) (calls : List Call) :
    (s.taskNames.Nodup →
      (∀ p s1, Configuration.Task s n = Except.ok (p, s1) → s1.taskNames.Nodup) ∧
      (s.Valid → ∃ p s1, Configuration.Task s n = Except.ok (p, s1) ∧ s1.taskNames.Nodup)) ∧
    (s.groupNames.Nodup →
      (∀ p s1, Configuration.TaskGroup s n = Except.ok (p, s1) → s1.groupNames.Nodup) ∧
      (s.Valid →
        ∃ p s1, Configuration.TaskGroup s n = Except.ok (p, s1) ∧ s1.groupNames.Nodup)) ∧
    (s.variantNames.Nodup →
      (∀ p s1, Configuration.Variant s n = Except.ok (p, s1) → s1.variantNames.Nodup) ∧
      (s.Valid →
        ∃ p s1, Configuration.Variant s n = Except.ok (p, s1) ∧ s1.variantNames.Nodup)) ∧
    ((∀ c ∈ calls, c.isGetOrCreate = true) →
      (runAll {} calls).Valid ∧ (runAll {} calls).taskNames.Nodup ∧
        (runAll {} calls).groupNames.Nodup ∧ (runAll {} calls).variantNames.Nodup ∧
        (runAll {} calls).functionNames.Nodup) := by
  have ht : ∀ p s1, Configuration.Task s n = Except.ok (p, s1) →
      s.taskNames.Nodup → s1.taskNames.Nodup := fun p s1 h hn =>
    nodup_of_same_or_grown hn (Configuration.Task_names s n p s1 h).2.2.2.1
  have hg : ∀ p s1, Configuration.TaskGroup s n = Except.ok (p, s1) →
      s.groupNames.Nodup → s1.groupNames.Nodup := fun p s1 h hn =>
    nodup_of_same_or_grown hn (Configuration.TaskGroup_names s n p s1 h).2.2.2.1
  have hv : ∀ p s1, Configuration.Variant s n = Except.ok (p, s1) →
      s.variantNames.Nodup → s1.variantNames.Nodup := fun p s1 h hn =>
    nodup_of_same_or_grown hn (Configuration.Variant_names s n p s1 h).2.2.2.1
  refine ⟨?_, ?_, ?_, ?_⟩
  · intro hn
    refine ⟨fun p s1 h => ht p s1 h hn, ?_⟩
    intro hval
    obtain ⟨⟨p, s1⟩, hr⟩ := (Configuration.accessors_return s n hval).1
    exact ⟨p, s1, hr, ht p s1 hr hn⟩
  · intro hn
    refine ⟨fun p s1 h => hg p s1 h hn, ?_⟩
    intro hval
    obtain ⟨⟨p, s1⟩, hr⟩ := (Configuration.accessors_return s n hval).2.1
    exact ⟨p, s1, hr, hg p s1 hr hn⟩
  · intro hn
    refine ⟨fun p s1 h => hv p s1 h hn, ?_⟩
    intro hval
    obtain ⟨⟨p, s1⟩, hr⟩ := (Configuration.accessors_return s n hval).2.2
    exact ⟨p, s1, hr, hv p s1 hr hn⟩
  · intro hc
    refine getOrCreate_runAll calls {} hc ⟨?_, ?_, ?_, ?_, ?_⟩
    · decide
    · exact List.nodup_nil
    · exact List.nodup_nil
    · exact List.nodup_nil
    · exact List.nodup_nil

/-- Witness of C4: on the example state the names stay distinct under a hit
("test", "unit") and under a miss ("windows"); and a run of accessor calls with
repeated names from the empty state ends with distinct names. -/
theorem getOrCreate_keeps_names_distinct_witness :
    exampleState.Valid ∧ exampleState.taskNames.Nodup ∧ exampleState.groupNames.Nodup ∧
    exampleState.variantNames.Nodup ∧
    (∃ p s1, Configuration.Task exampleState "test" = Except.ok (p, s1) ∧
      s1.taskNames.Nodup) ∧
    (∃ p s1, Configuration.TaskGroup exampleState "unit" = Except.ok (p, s1) ∧
      s1.groupNames.Nodup) ∧
    (∃ s1, Configuration.Variant exampleState "windows" = Except.ok (1, s1) ∧
      s1.variantNames = ["linux", "windows"] ∧ s1.variantNames.Nodup) ∧
    (runAll {} [Call.Task "a", Call.Variant "a", Call.Task "b", Call.Task "a",
        Call.Function "f", Call.TaskGroup "g", Call.Function "f"]).taskNames = ["a", "b"] ∧
    (runAll {} [Call.Task "a", Call.Variant "a", Call.Task "b", Call.Task "a",
        Call.Function "f", Call.TaskGroup "g", Call.Function "f"]).taskNames.Nodup ∧
    (runAll {} [Call.Task "a", Call.Variant "a", Call.Task "b", Call.Task "a",
        Call.Function "f", Call.TaskGroup "g", Call.Function "f"]).functionNames.Nodup :=
  have h := getOrCreate_keeps_names_distinct exampleState "test"
    [Call.Task "a", Call.Variant "a", Call.Task "b", Call.Task "a",
      Call.Function "f", Call.TaskGroup "g", Call.Function "f"]
  have hrun := h.2.2.2 (by decide)
  ⟨by decide, by decide, by decide, by decide,
    (h.1 (by decide)).2 (by decide),
    ((getOrCreate_keeps_names_distinct exampleState "unit" []).2.1 (by decide)).2 (by decide),
    ⟨_, rfl, rfl,
      ((getOrCreate_keeps_names_distinct exampleState "windows" []).2.2.1 (by decide)).1 1 _ rfl⟩,
    rfl, hrun.2.1, hrun.2.2.2.2⟩

/-! ## Names under the builder methods -/

theorem length_through {α : Type} (mem : List α) (p : Ptr) (f : α → α) :
    (through mem p f).length = mem.length := by
  unfold through
  cases mem[p]? with
  | none => rfl
  | some x => simp

theorem getElem?_through {α : Type} (mem : List α) (p q : Ptr) (f : α → α) :
    (through mem p f)[q]? = if q = p then (mem[q]?).map f else mem[q]? := by
  unfold through
  cases hp : mem[p]? with
  | none =>
    by_cases hq : q = p
    · subst hq; simp [hp]
    · simp [hq]
  | some x =>
    have hlt : p < mem.length := (List.getElem?_eq_some.1 hp).1
    by_cases hq : q = p
    · subst hq; simp [hp, hlt]
    · have hpq : ¬ p = q := fun e => hq e.symm
      simp [hq, List.getElem?_set, hpq]

/-- A method that leaves the key of its receiver alone leaves the names alone. -/
theorem names_through_of_key_eq {α : Type} (mem : List α) (key : α → String) (ps : List Ptr)
    (p : Ptr) (f : α → α) (hf : ∀ x, key (f x) = key x) :
    names (through mem p f) key ps = names mem key ps := by
  unfold names
  apply List.filterMap_congr
  intro q _
  rw [getElem?_through]
  by_cases hq : q = p
  · simp only [hq, if_true]
    cases mem[p]? with
    | none => rfl
    | some x => simp [hf]
  · simp only [hq, if_false]

theorem mem_names_through {α : Type} (mem : List α) (key : α → String) (ps : List Ptr)
    (p : Ptr) (f : α → α) (n : String) :
    n ∈ names (through mem p f) key ps ↔
      ∃ q ∈ ps, ∃ x, mem[q]? = some x ∧ n = if q = p then key (f x) else key x := by
  rw [mem_names_iff]
  constructor
  · rintro ⟨q, hq, y, hy, hk⟩
    rw [getElem?_through] at hy
    by_cases hqp : q = p
    · simp only [hqp, if_true] at hy
      cases hx : mem[p]? with
      | none => simp [hx] at hy
      | some x =>
        simp only [hx, Option.map_some', Option.some.injEq] at hy
        refine ⟨q, hq, x, by rw [hqp]; exact hx, ?_⟩
        simp only [hqp, if_true]
        rw [← hk, ← hy]
    · simp only [hqp, if_false] at hy
      refine ⟨q, hq, y, hy, ?_⟩
      simp only [hqp, if_false]
      exact hk.symm
  · rintro ⟨q, hq, x, hx, hn⟩
    by_cases hqp : q = p
    · subst hqp
      simp only [if_true] at hn
      refine ⟨q, hq, f x, ?_, hn.symm⟩
      rw [getElem?_through]
      simp [hx]
    · simp only [hqp, if_false] at hn
      refine ⟨q, hq, x, ?_, hn.symm⟩
      rw [getElem?_through]
      simp [hqp, hx]

/-- A method that sets the key of its receiver to `id` keeps the names of a
slice pairwise distinct when no other entity of the slice is called `id`. -/
theorem nodup_names_through_rename {α : Type} (mem : List α) (key : α → String)
    (v : Ptr) (f : α → α) (id : String) (hf : ∀ x, key (f x) = id) :
    ∀ ps : List Ptr, (∀ p ∈ ps, p < mem.length) → (names mem key ps).Nodup →
      id ∉ names mem key (ps.filter (fun q => q ≠ v)) →
      (names (through mem v f) key ps).Nodup := by
  intro ps
  induction ps with
  | nil => intro _ _ _; simp [names]
  | cons p ps ih =>
    intro hv hnd hfresh
    have hp : p < mem.length := hv p (List.mem_cons_self _ _)
    have hx := List.getElem?_eq_getElem hp
    have hcons : names mem key (p :: ps) = key mem[p] :: names mem key ps := by
      simp [names, List.filterMap_cons, hx]
    rw [hcons, List.nodup_cons] at hnd
    obtain ⟨hnotin, hnd2⟩ := hnd
    have hcons2 : names (through mem v f) key (p :: ps) =
        (if p = v then key (f mem[p]) else key mem[p]) :: names (through mem v f) key ps := by
      have hthrough := getElem?_through mem v p f
      unfold names
      rw [List.filterMap_cons, hthrough]
      by_cases hpv : p = v
      · rw [if_pos hpv, if_pos hpv, hx]; rfl
      · rw [if_neg hpv, if_neg hpv, hx]; rfl
    have hfresh2 : id ∉ names mem key (ps.filter (fun q => q ≠ v)) := by
      intro h
      apply hfresh
      rw [mem_names_iff] at h ⊢
      obtain ⟨q, hq, rest⟩ := h
      refine ⟨q, ?_, rest⟩
      rw [List.mem_filter] at hq ⊢
      exact ⟨List.mem_cons_of_mem _ hq.1, hq.2⟩
    rw [hcons2, List.nodup_cons]
    refine ⟨?_, ih (fun q hq => hv q (List.mem_cons_of_mem _ hq)) hnd2 hfresh2⟩
    intro hmem
    rw [mem_names_through] at hmem
    obtain ⟨q, hq, y, hy, hn⟩ := hmem
    by_cases hpv : p = v
    · simp only [hpv, if_true] at hn
      by_cases hqv : q = v
      · apply hnotin
        rw [mem_names_iff]
        refine ⟨q, hq, y, hy, ?_⟩
        have hxy : mem[q]? = some mem[p] := by rw [hqv, ← hpv]; exact hx
        rw [hy] at hxy
        cases hxy
        rfl
      · simp only [hqv, if_false] at hn
        apply hfresh2
        rw [mem_names_iff]
        refine ⟨q, ?_, y, hy, ?_⟩
        · rw [List.mem_filter]
          exact ⟨hq, by simpa using hqv⟩
        · rw [← hn, hf]
    · simp only [hpv, if_false] at hn
      by_cases hqv : q = v
      · simp only [hqv, if_true] at hn
        apply hfresh
        rw [mem_names_iff]
        refine ⟨p, ?_, _, hx, ?_⟩
        · rw [List.mem_filter]
          exact ⟨List.mem_cons_self _ _, by simpa using hpv⟩
        · rw [hn, hf]
      · simp only [hqv, if_false] at hn
        apply hnotin
        rw [mem_names_iff]
        exact ⟨q, hq, y, hy, hn.symm⟩

theorem TaskGroup.SetupGroup_GroupName (cmds : List Shrub.Command) :
    ∀ g : TaskGroup, (g.SetupGroup cmds).1.GroupName = g.GroupName := by
  induction cmds with
  | nil => intro g; rfl
  | cons c cmds ih =>
    intro g
    unfold TaskGroup.SetupGroup
    cases c.Validate with
    | some err => rfl
    | none =>
      cases c.Resolve with
      | error e => rfl
      | ok d => exact ih _

theorem TaskGroup.SetupTask_GroupName (cmds : List Shrub.Command) :
    ∀ g : TaskGroup, (g.SetupTask cmds).1.GroupName = g.GroupName := by
  induction cmds with
  | nil => intro g; rfl
  | cons c cmds ih =>
    intro g
    unfold TaskGroup.SetupTask
    cases c.Validate with
    | some err => rfl
    | none =>
      cases c.Resolve with
      | error e => rfl
      | ok d => exact ih _

theorem TaskGroup.TeardownTask_GroupName (cmds : List Shrub.Command) :
    ∀ g : TaskGroup, (g.TeardownTask cmds).1.GroupName = g.GroupName := by
  induction cmds with
  | nil => intro g; rfl
  | cons c cmds ih =>
    intro g
    unfold TaskGroup.TeardownTask
    cases c.Validate with
    | some err => rfl
    | none =>
      cases c.Resolve with
      | error e => rfl
      | ok d => exact ih _

theorem TaskGroup.TeardownGroup_GroupName (cmds : List Shrub.Command) :
    ∀ g : TaskGroup, (g.TeardownGroup cmds).1.GroupName = g.GroupName := by
  induction cmds with
  | nil => intro g; rfl
  | cons c cmds ih =>
    intro g
    unfold TaskGroup.TeardownGroup
    cases c.Validate with
    | some err => rfl
    | none =>
      cases c.Resolve with
      | error e => rfl
      | ok d => exact ih _

theorem TaskGroup.Timeout_GroupName (cmds : List Shrub.Command) :
    ∀ g : TaskGroup, (g.Timeout cmds).1.GroupName = g.GroupName := by
  induction cmds with
  | nil => intro g; rfl
  | cons c cmds ih =>
    intro g
    unfold TaskGroup.Timeout
    cases c.Validate with
    | some err => rfl
    | none =>
      cases c.Resolve with
      | error e => rfl
      | ok d => exact ih _

/-- Every builder of `TaskGroup` other than `Name` leaves `GroupName` alone. -/
theorem TaskGroupCall.apply_GroupName (m : TaskGroupCall) (g : TaskGroup)
    (h : ∀ id, m ≠ TaskGroupCall.Name id) : (m.apply g).GroupName = g.GroupName := by
  cases m with
  | Name id => exact absurd rfl (h id)
  | SetupGroup cmds => exact TaskGroup.SetupGroup_GroupName cmds g
  | SetupTask cmds => exact TaskGroup.SetupTask_GroupName cmds g
  | TeardownTask cmds => exact TaskGroup.TeardownTask_GroupName cmds g
  | TeardownGroup cmds => exact TaskGroup.TeardownGroup_GroupName cmds g
  | Timeout cmds => exact TaskGroup.Timeout_GroupName cmds g
  | SetMaxHosts _ => rfl
  | SetShareProcesses _ => rfl
  | SetSetupGroupCanFailTask _ => rfl
  | SetSetupGroupTimeoutSecs _ => rfl
  | Task _ => rfl
  | Tag _ => rfl

theorem Variant.AddTasks_BuildName (name : List String) :
    ∀ v : Variant, (v.AddTasks name).BuildName = v.BuildName := by
  induction name with
  | nil => intro v; rfl
  | cons n name ih =>
    intro v
    unfold Variant.AddTasks
    by_cases h : n = ""
    · rw [if_pos h]; exact ih v
    · rw [if_neg h]; exact ih _

/-- Every builder of `Variant` other than `Name` leaves `BuildName` alone. -/
theorem VariantCall.apply_BuildName (m : VariantCall) (v : Variant)
    (h : ∀ id, m ≠ VariantCall.Name id) : (m.apply v).BuildName = v.BuildName := by
  cases m with
  | Name id => exact absurd rfl (h id)
  | AddTasks name => exact Variant.AddTasks_BuildName name v
  | BatchTime _ => rfl
  | SetCronBatchTime _ => rfl
  | SetStepback _ => rfl
  | SetActivate _ => rfl
  | DisplayName _ => rfl
  | RunOn _ => rfl
  | TaskSpec _ => rfl
  | SetExpansions _ => rfl
  | Expansion _ _ => rfl
  | DisplayTasks _ => rfl

/-- One call that keeps names apart preserves: no nil pointer in the slices,
group names pairwise distinct, build names pairwise distinct. -/
theorem keepsNamesApart_step (s : State) (c : Call) (hk : c.keepsNamesApart s)
    (h : s.Valid ∧ s.groupNames.Nodup ∧ s.variantNames.Nodup) :
    (Call.run s c).Valid ∧ (Call.run s c).groupNames.Nodup ∧
      (Call.run s c).variantNames.Nodup := by
  obtain ⟨hv, hg, hvn⟩ := h
  cases c with
  | Task n =>
    cases hr : Configuration.Task s n with
    | error e => rw [Call.run_Task_error hr]; exact ⟨hv, hg, hvn⟩
    | ok r =>
      obtain ⟨p, s1⟩ := r
      obtain ⟨e1, e2, _, _, e5⟩ := Configuration.Task_names s n p s1 hr
      rw [Call.run_Task_ok hr, e1, e2]
      exact ⟨e5 hv, hg, hvn⟩
  | TaskGroup n =>
    cases hr : Configuration.TaskGroup s n with
    | error e => rw [Call.run_TaskGroup_error hr]; exact ⟨hv, hg, hvn⟩
    | ok r =>
      obtain ⟨p, s1⟩ := r
      obtain ⟨_, e2, _, e4, e5⟩ := Configuration.TaskGroup_names s n p s1 hr
      rw [Call.run_TaskGroup_ok hr, e2]
      exact ⟨e5 hv, nodup_of_same_or_grown hg e4, hvn⟩
  | Function n =>
    obtain ⟨_, e2, e3, _, e5⟩ := Configuration.Function_names s n
    rw [Call.run_Function, e2, e3]
    exact ⟨e5 hv, hg, hvn⟩
  | Variant n =>
    cases hr : Configuration.Variant s n with
    | error e => rw [Call.run_Variant_error hr]; exact ⟨hv, hg, hvn⟩
    | ok r =>
      obtain ⟨p, s1⟩ := r
      obtain ⟨_, e2, _, e4, e5⟩ := Configuration.Variant_names s n p s1 hr
      rw [Call.run_Variant_ok hr, e2]
      exact ⟨e5 hv, hg, nodup_of_same_or_grown hvn e4⟩
  | onTask t m =>
    refine ⟨⟨?_, hv.2.1, hv.2.2⟩, hg, hvn⟩
    intro q hq
    show q < (through s.heap.tasks t m.apply).length
    rw [length_through]
    exact hv.1 q hq
  | onTaskGroup g m =>
    have hval : (Call.run s (.onTaskGroup g m)).Valid := by
      refine ⟨hv.1, ?_, hv.2.2⟩
      intro q hq
      show q < (through s.heap.groups g m.apply).length
      rw [length_through]
      exact hv.2.1 q hq
    refine ⟨hval, ?_, hvn⟩
    show (names (through s.heap.groups g m.apply) (fun x => x.GroupName) s.conf.Groups).Nodup
    by_cases hm : ∀ id, m ≠ TaskGroupCall.Name id
    · rw [names_through_of_key_eq _ _ _ _ _ (fun x => TaskGroupCall.apply_GroupName m x hm)]
      exact hg
    · simp only [ne_eq, not_forall, not_not] at hm
      obtain ⟨id, rfl⟩ := hm
      exact nodup_names_through_rename s.heap.groups (fun x => x.GroupName) g _ id
        (fun _ => rfl) s.conf.Groups hv.2.1 hg hk
  | onVariant v m =>
    have hval : (Call.run s (.onVariant v m)).Valid := by
      refine ⟨hv.1, hv.2.1, ?_⟩
      intro q hq
      show q < (through s.heap.variants v m.apply).length
      rw [length_through]
      exact hv.2.2 q hq
    refine ⟨hval, hg, ?_⟩
    show (names (through s.heap.variants v m.apply) (fun x => x.BuildName) s.conf.Variants).Nodup
    by_cases hm : ∀ id, m ≠ VariantCall.Name id
    · rw [names_through_of_key_eq _ _ _ _ _ (fun x => VariantCall.apply_BuildName m x hm)]
      exact hvn
    · simp only [ne_eq, not_forall, not_not] at hm
      obtain ⟨id, rfl⟩ := hm
      exact nodup_names_through_rename s.heap.variants (fun x => x.BuildName) v _ id
        (fun _ => rfl) s.conf.Variants hv.2.2 hvn hk

theorem keepNamesApart_runAll (calls : List Call) :
    ∀ s : State, keepNamesApart s calls →
      (s.Valid ∧ s.groupNames.Nodup ∧ s.variantNames.Nodup) →
      ((runAll s calls).Valid ∧ (runAll s calls).groupNames.Nodup ∧
        (runAll s calls).variantNames.Nodup) := by
  induction calls with
  | nil => intro s _ h; exact h
  | cons c cs ih =>
    intro s hk h
    exact ih (Call.run s c) hk.2 (keepsNamesApart_step s c hk.1 h)

/-- C5, as stated, fails: `c.Variant("a")`, then `c.Variant("b").Name("a")` leaves
two variants with the build name "a"; `c.TaskGroup("a")`, then
`c.TaskGroup("b").Name("a")` leaves two task groups with the group name "a". -/
theorem name_setter_duplicates_names :
    (∃ s1 s2, Configuration.Variant {} "a" = Except.ok (0, s1) ∧
      Configuration.Variant s1 "b" = Except.ok (1, s2) ∧
      (Call.run s2 (.onVariant 1 (.Name "a"))).variantNames = ["a", "a"]) ∧
    ¬ (runAll {} [Call.Variant "a", Call.Variant "b",
        Call.onVariant 1 (.Name "a")]).variantNames.Nodup ∧
    (∃ s1 s2, Configuration.TaskGroup {} "a" = Except.ok (0, s1) ∧
      Configuration.TaskGroup s1 "b" = Except.ok (1, s2) ∧
      (Call.run s2 (.onTaskGroup 1 (.Name "a"))).groupNames = ["a", "a"]) ∧
    ¬ (runAll {} [Call.TaskGroup "a", Call.TaskGroup "b",
        Call.onTaskGroup 1 (.Name "a")]).groupNames.Nodup :=
  ⟨⟨_, _, rfl, rfl, rfl⟩, by decide, ⟨_, _, rfl, rfl, rfl⟩, by decide⟩

/-- C5, amended: in every state reached from the empty `Configuration` by calls
of the public API (accessors and builder methods, `Variant.Name` and
`TaskGroup.Name` included) in which no call of a name setter gives an entity a
name that another entity of the same collection holds at that moment, no two
variants share a build name and no two task groups share a group name. -/
theorem names_distinct_of_keepNamesApart (calls : List Call) (h : keepNamesApart {} calls) :
    (runAll {} calls).variantNames.Nodup ∧ (runAll {} calls).groupNames.Nodup := by
  have hinv := keepNamesApart_runAll calls {} h
    ⟨by decide, List.nodup_nil, List.nodup_nil⟩
  exact ⟨hinv.2.2, hinv.2.1⟩

/-- Witness of the amended C5: a program that creates two variants and a task
group, renames a variant and the group to unused names, and calls other
builders, one of which panics. -/
theorem names_distinct_of_keepNamesApart_witness :
    keepNamesApart {} [Call.Variant "a", Call.Variant "b", Call.onVariant 1 (.Name "c"),
      Call.onVariant 0 (.RunOn "ubuntu"), Call.TaskGroup "g", Call.onTaskGroup 0 (.Name "h"),
      Call.Task "t", Call.onTask 0 (.Command [.exec {}, .s3Put {}]),
      Call.onVariant 0 (.Name "a")] ∧
    (runAll {} [Call.Variant "a", Call.Variant "b", Call.onVariant 1 (.Name "c"),
      Call.onVariant 0 (.RunOn "ubuntu"), Call.TaskGroup "g", Call.onTaskGroup 0 (.Name "h"),
      Call.Task "t", Call.onTask 0 (.Command [.exec {}, .s3Put {}]),
      Call.onVariant 0 (.Name "a")]).variantNames = ["a", "c"] ∧
    (runAll {} [Call.Variant "a", Call.Variant "b", Call.onVariant 1 (.Name "c"),
      Call.onVariant 0 (.RunOn "ubuntu"), Call.TaskGroup "g", Call.onTaskGroup 0 (.Name "h"),
      Call.Task "t", Call.onTask 0 (.Command [.exec {}, .s3Put {}]),
      Call.onVariant 0 (.Name "a")]).variantNames.Nodup ∧
    (runAll {} [Call.Variant "a", Call.Variant "b", Call.onVariant 1 (.Name "c"),
      Call.onVariant 0 (.RunOn "ubuntu"), Call.TaskGroup "g", Call.onTaskGroup 0 (.Name "h"),
      Call.Task "t", Call.onTask 0 (.Command [.exec {}, .s3Put {}]),
      Call.onVariant 0 (.Name "a")]).groupNames.Nodup :=
  have h := names_distinct_of_keepNamesApart
    [Call.Variant "a", Call.Variant "b", Call.onVariant 1 (.Name "c"),
      Call.onVariant 0 (.RunOn "ubuntu"), Call.TaskGroup "g", Call.onTaskGroup 0 (.Name "h"),
      Call.Task "t", Call.onTask 0 (.Command [.exec {}, .s3Put {}]),
      Call.onVariant 0 (.Name "a")] (by decide)
  ⟨by decide, rfl, h.1, h.2⟩

/-! ## Resolve against Validate -/

theorem exportCmd_of_valid (c : Command) (h : c.Validate = none) :
    exportCmd c = Except.ok c.toParams := by
  simp [exportCmd, h]

theorem exportCmd_of_invalid (c : Command) (err : Error) (h : c.Validate = some err) :
    exportCmd c = Except.error (some err) := by
  simp [exportCmd, h]

/-- A command that passes validation resolves: the definition carries the name
of the command, the exported parameter mapping and no function reference. -/
theorem Command.resolve_of_valid (c : Command) (h : c.Validate = none) :
    ∃ n, c.Name = Except.ok n ∧
      c.Resolve = Except.ok
        { FunctionName := "", CommandName := n, Params := some c.toParams, Vars := none } := by
  have hx := exportCmd_of_valid c h
  cases c with
  | exec c => exact ⟨_, rfl, by simp only [Command.Resolve, CmdExec.Resolve, hx]; rfl⟩
  | execShell c => exact ⟨_, rfl, by simp only [Command.Resolve, CmdExecShell.Resolve, hx]; rfl⟩
  | subprocessScripting c =>
    exact ⟨_, rfl, by simp only [Command.Resolve, CmdSubprocessScripting.Resolve, hx]; rfl⟩
  | s3Put c => exact ⟨_, rfl, by simp only [Command.Resolve, CmdS3Put.Resolve, hx]; rfl⟩
  | s3Get c => exact ⟨_, rfl, by simp only [Command.Resolve, CmdS3Get.Resolve, hx]; rfl⟩
  | s3Copy c => exact ⟨_, rfl, by simp only [Command.Resolve, CmdS3Copy.Resolve, hx]; rfl⟩
  | s3Push c => exact ⟨_, rfl, by simp only [Command.Resolve, CmdS3Push.Resolve, hx]; rfl⟩
  | s3Pull c => exact ⟨_, rfl, by simp only [Command.Resolve, CmdS3Pull.Resolve, hx]; rfl⟩
  | getProject c =>
    exact ⟨_, rfl, by simp only [Command.Resolve, CmdGetProject.Resolve, hx]; rfl⟩
  | resultsJSON c =>
    exact ⟨_, rfl, by simp only [Command.Resolve, CmdResultsJSON.Resolve, hx]; rfl⟩
  | resultsXunit c =>
    exact ⟨_, rfl, by simp only [Command.Resolve, CmdResultsXunit.Resolve, hx]; rfl⟩
  | attachArtifacts c =>
    exact ⟨_, rfl, by simp only [Command.Resolve, CmdAttachArtifacts.Resolve, hx]; rfl⟩
  | resultsGoTest c =>
    have hv := (goTest_validate_eq_none c).1 h
    refine ⟨c.Name, rfl, ?_⟩
    rcases hv with ⟨hj, hl⟩ | ⟨hj, hl⟩
    · simp only [Command.Resolve, CmdResultsGoTest.Resolve, hj, hx]; rfl
    · have hn : c.Name = "gotest.parse_files" := by simp [CmdResultsGoTest.Name, hl]
      simp only [Command.Resolve, CmdResultsGoTest.Resolve, hj, hx, hn]; rfl
  | archiveCreate c =>
    have hf := (archiveCreate_validate_eq_none c).1 h
    rcases hf with hf | hf
    · have hn : c.Name = Except.ok "archive.zip_pack" := by
        simp [CmdArchiveCreate.Name, ArchiveFormat.createCmdName, ZIP, hf]
      exact ⟨_, hn, by simp only [Command.Resolve, CmdArchiveCreate.Resolve, hn, hx]; rfl⟩
    · have hn : c.Name = Except.ok "archive.targz_pack" := by
        simp [CmdArchiveCreate.Name, ArchiveFormat.createCmdName, ZIP, TARBALL, hf]
      exact ⟨_, hn, by simp only [Command.Resolve, CmdArchiveCreate.Resolve, hn, hx]; rfl⟩
  | archiveExtract c =>
    have hf := (archiveExtract_validate_eq_none c).1 h
    rcases hf with hf | hf | hf
    · have hn : c.Name = Except.ok "archive.zip_extract" := by
        simp [CmdArchiveExtract.Name, ArchiveFormat.extractCmdName, ZIP, hf]
      exact ⟨_, hn, by simp only [Command.Resolve, CmdArchiveExtract.Resolve, hn, hx]; rfl⟩
    · have hn : c.Name = Except.ok "archive.targz_extract" := by
        simp [CmdArchiveExtract.Name, ArchiveFormat.extractCmdName, ZIP, TARBALL, hf]
      exact ⟨_, hn, by simp only [Command.Resolve, CmdArchiveExtract.Resolve, hn, hx]; rfl⟩
    · have hn : c.Name = Except.ok "archive.auto_extract" := by
        simp [CmdArchiveExtract.Name, ArchiveFormat.extractCmdName, ZIP, TARBALL, hf]
      exact ⟨_, hn, by simp only [Command.Resolve, CmdArchiveExtract.Resolve, hn, hx]; rfl⟩

/-- A command that fails validation panics in `Resolve`, and the panic value is
the validation error. -/
theorem Command.resolve_of_invalid (c : Command) (err : Error) (h : c.Validate = some err) :
    c.Resolve = Except.error (some err) := by
  have hx := exportCmd_of_invalid c err h
  cases c with
  | exec c => exact Option.noConfusion h
  | execShell c => exact Option.noConfusion h
  | subprocessScripting c => exact Option.noConfusion h
  | s3Get c => exact Option.noConfusion h
  | s3Copy c => exact Option.noConfusion h
  | s3Push c => exact Option.noConfusion h
  | s3Pull c => exact Option.noConfusion h
  | getProject c => exact Option.noConfusion h
  | resultsJSON c => exact Option.noConfusion h
  | resultsXunit c => exact Option.noConfusion h
  | attachArtifacts c => exact Option.noConfusion h
  | s3Put c => simp only [Command.Resolve, CmdS3Put.Resolve, hx]; rfl
  | resultsGoTest c =>
    by_cases hj : c.JSONFormat = true
    · simp only [Command.Resolve, CmdResultsGoTest.Resolve, hj, hx]; rfl
    · simp only [Command.Resolve, CmdResultsGoTest.Resolve, hj, hx]; rfl
  | archiveCreate c =>
    have hv : ArchiveFormat.Validate c.Format = some err := h
    have hne : ¬ (c.Format = "zip" ∨ c.Format = "tarball") := by
      intro hf
      rw [(archiveFormat_validate_eq_none c.Format).2 hf] at hv
      exact Option.noConfusion hv
    have hz : ¬ c.Format = "zip" := fun e => hne (Or.inl e)
    have ht : ¬ c.Format = "tarball" := fun e => hne (Or.inr e)
    have hn : c.Name = Except.error (some err) := by
      simp [CmdArchiveCreate.Name, ArchiveFormat.createCmdName, ZIP, TARBALL, hz, ht, hv]
    simp only [Command.Resolve, CmdArchiveCreate.Resolve, hn]; rfl
  | archiveExtract c =>
    have h2 : c.Validate = some err := h
    have hnone : c.Validate ≠ none := by rw [h2]; exact fun e => Option.noConfusion e
    have hne : ¬ (c.Format = "zip" ∨ c.Format = "tarball" ∨ c.Format = "auto") :=
      fun hf => hnone ((archiveExtract_validate_eq_none c).2 hf)
    have hz : ¬ c.Format = "zip" := fun e => hne (Or.inl e)
    have ht : ¬ c.Format = "tarball" := fun e => hne (Or.inr (Or.inl e))
    have ha : ¬ c.Format = "auto" := fun e => hne (Or.inr (Or.inr e))
    have hv : ArchiveFormat.Validate c.Format = some err := by
      unfold CmdArchiveExtract.Validate at h2
      cases hvv : ArchiveFormat.Validate c.Format with
      | none => rw [hvv] at h2; exact Option.noConfusion h2
      | some e2 =>
        rw [hvv] at h2
        have hne2 : c.Format ≠ "auto" := ha
        simp only [hne2, ne_eq, not_false_eq_true, if_true] at h2
        exact h2
    have hn : c.Name = Except.error (some err) := by
      simp [CmdArchiveExtract.Name, ArchiveFormat.extractCmdName, ZIP, TARBALL, hz, ht, ha, hv]
    simp only [Command.Resolve, CmdArchiveExtract.Resolve, hn]; rfl

/-- C11: the eleven command structs other than `CmdS3Put`, `CmdResultsGoTest`,
`CmdArchiveCreate` and `CmdArchiveExtract` are valid whatever their fields hold:
`Validate` returns nil and `Resolve` returns a definition without a panic. -/
theorem unconditional_commands_valid (a1 : CmdExec) (a2 : CmdExecShell)
    (a3 : CmdSubprocessScripting) (a4 : CmdS3Get) (a5 : CmdS3Copy) (a6 : CmdS3Push)
    (a7 : CmdS3Pull) (a8 : CmdGetProject) (a9 : CmdResultsJSON) (a10 : CmdResultsXunit)
    (a11 : CmdAttachArtifacts) :
    (a1.Validate = none ∧ ∃ d, a1.Resolve = Except.ok d) ∧
    (a2.Validate = none ∧ ∃ d, a2.Resolve = Except.ok d) ∧
    (a3.Validate = none ∧ ∃ d, a3.Resolve = Except.ok d) ∧
    (a4.Validate = none ∧ ∃ d, a4.Resolve = Except.ok d) ∧
    (a5.Validate = none ∧ ∃ d, a5.Resolve = Except.ok d) ∧
    (a6.Validate = none ∧ ∃ d, a6.Resolve = Except.ok d) ∧
    (a7.Validate = none ∧ ∃ d, a7.Resolve = Except.ok d) ∧
    (a8.Validate = none ∧ ∃ d, a8.Resolve = Except.ok d) ∧
    (a9.Validate = none ∧ ∃ d, a9.Resolve = Except.ok d) ∧
    (a10.Validate = none ∧ ∃ d, a10.Resolve = Except.ok d) ∧
    (a11.Validate = none ∧ ∃ d, a11.Resolve = Except.ok d) := by
  refine ⟨⟨rfl, ?_⟩, ⟨rfl, ?_⟩, ⟨rfl, ?_⟩, ⟨rfl, ?_⟩, ⟨rfl, ?_⟩, ⟨rfl, ?_⟩, ⟨rfl, ?_⟩, ⟨rfl, ?_⟩,
    ⟨rfl, ?_⟩, ⟨rfl, ?_⟩, ⟨rfl, ?_⟩⟩
  · obtain ⟨n, _, hr⟩ := Command.resolve_of_valid (.exec a1) rfl
    exact ⟨_, hr⟩
  · obtain ⟨n, _, hr⟩ := Command.resolve_of_valid (.execShell a2) rfl
    exact ⟨_, hr⟩
  · obtain ⟨n, _, hr⟩ := Command.resolve_of_valid (.subprocessScripting a3) rfl
    exact ⟨_, hr⟩
  · obtain ⟨n, _, hr⟩ := Command.resolve_of_valid (.s3Get a4) rfl
    exact ⟨_, hr⟩
  · obtain ⟨n, _, hr⟩ := Command.resolve_of_valid (.s3Copy a5) rfl
    exact ⟨_, hr⟩
  · obtain ⟨n, _, hr⟩ := Command.resolve_of_valid (.s3Push a6) rfl
    exact ⟨_, hr⟩
  · obtain ⟨n, _, hr⟩ := Command.resolve_of_valid (.s3Pull a7) rfl
    exact ⟨_, hr⟩
  · obtain ⟨n, _, hr⟩ := Command.resolve_of_valid (.getProject a8) rfl
    exact ⟨_, hr⟩
  · obtain ⟨n, _, hr⟩ := Command.resolve_of_valid (.resultsJSON a9) rfl
    exact ⟨_, hr⟩
  · obtain ⟨n, _, hr⟩ := Command.resolve_of_valid (.resultsXunit a10) rfl
    exact ⟨_, hr⟩
  · obtain ⟨n, _, hr⟩ := Command.resolve_of_valid (.attachArtifacts a11) rfl
    exact ⟨_, hr⟩

/-- C12: for a command of any variant, `Resolve` panics exactly when `Validate`
returns an error, and returns a definition exactly when `Validate` returns nil;
a call yields either the panic or the definition, never both; the panic value
is the validation error, also for the archive commands, where the panic comes
from `Name`. -/
theorem resolve_panics_iff_invalid (c : Command) :
    ((∃ e, c.Resolve = Except.error e) ↔ c.Validate ≠ none) ∧
    ((∃ d, c.Resolve = Except.ok d) ↔ c.Validate = none) ∧
    (∀ err, c.Validate = some err → c.Resolve = Except.error (some err)) := by
  cases hv : c.Validate with
  | none =>
    obtain ⟨n, _, hr⟩ := Command.resolve_of_valid c hv
    refine ⟨?_, ?_, ?_⟩
    · constructor
      · rintro ⟨e, he⟩
        rw [hr] at he
        exact Except.noConfusion he
      · intro h
        exact absurd rfl h
    · exact ⟨fun _ => rfl, fun _ => ⟨_, hr⟩⟩
    · intro err h
      exact Option.noConfusion h
  | some err =>
    have hr := Command.resolve_of_invalid c err hv
    refine ⟨?_, ?_, ?_⟩
    · exact ⟨fun _ h => Option.noConfusion h, fun _ => ⟨_, hr⟩⟩
    · constructor
      · rintro ⟨d, hd⟩
        rw [hr] at hd
        exact Except.noConfusion hd
      · intro h
        exact Option.noConfusion h
    · intro err2 h
      cases h
      exact hr

/-- Witness of C12: an archive creation with the format "auto" fails validation
and its `Resolve` panics with that error; an all-empty `CmdS3Put` likewise. -/
theorem resolve_panics_iff_invalid_witness :
    Command.Validate (.archiveCreate { Format := "auto" }) =
      some "'auto' is not a valid archive format" ∧
    Command.Resolve (.archiveCreate { Format := "auto" }) =
      Except.error (some "'auto' is not a valid archive format") ∧
    Command.Resolve (.s3Put {}) = Except.error (some "must specify aws credentials") :=
  ⟨by decide,
    (resolve_panics_iff_invalid (.archiveCreate { Format := "auto" })).2.2 _ (by decide),
    (resolve_panics_iff_invalid (.s3Put {})).2.2 _ (by decide)⟩

/-! ## Attaching commands to a task -/

theorem Task.Command_cons_invalid (t : Task) (c : Shrub.Command) (cmds : List Shrub.Command)
    (err : Error) (h : c.Validate = some err) :
    t.Command (c :: cmds) = (t, some (some err)) := by
  simp [Task.Command, h]

theorem Task.Command_cons_valid (t : Task) (c : Shrub.Command) (cmds : List Shrub.Command)
    (d : CommandDefinition) (h : c.Validate = none) (hr : c.Resolve = Except.ok d) :
    t.Command (c :: cmds) = Task.Command { t with Commands := t.Commands ++ [d] } cmds := by
  simp [Task.Command, h, hr]

/-- The loop of `Task.Command` over a prefix of valid commands: their
definitions are appended in order, and the loop goes on with the rest. -/
theorem Task.Command_valid_prefix (pre : List Shrub.Command) :
    ∀ (t : Task) (rest : List Shrub.Command), (∀ c ∈ pre, c.Validate = none) →
      ∃ ds : List CommandDefinition,
        List.Forall₂ (fun c d => c.Resolve = Except.ok d ∧ c.Name = Except.ok d.CommandName ∧
          d.FunctionName = "" ∧ d.Params = some c.toParams ∧ d.Vars = none) pre ds ∧
        t.Command (pre ++ rest) =
          Task.Command { t with Commands := t.Commands ++ ds } rest := by
  induction pre with
  | nil =>
    intro t rest _
    exact ⟨[], List.Forall₂.nil, by simp⟩
  | cons c pre ih =>
    intro t rest hvalid
    have hc : c.Validate = none := hvalid c (List.mem_cons_self _ _)
    obtain ⟨n, hn, hr⟩ := Command.resolve_of_valid c hc
    obtain ⟨ds, hds, hrun⟩ := ih { t with Commands := t.Commands ++
      [{ FunctionName := "", CommandName := n, Params := some c.toParams, Vars := none }] } rest
      (fun x hx => hvalid x (List.mem_cons_of_mem _ hx))
    refine ⟨_ :: ds, List.Forall₂.cons ⟨hr, hn, rfl, rfl, rfl⟩ hds, ?_⟩
    rw [List.cons_append, Task.Command_cons_valid t c (pre ++ rest) _ hc hr, hrun]
    simp

/-- C13: attaching a single command that fails validation to a task panics with
the validation error and leaves the task, its command sequence included, as it
was; attaching `CmdS3Put{}` to a fresh task panics and leaves the sequence at
length 0. -/
theorem command_invalid_leaves_task (t : Task) (c : Shrub.Command) (err : Error)
    (h : c.Validate = some err) :
    (t.Command [c]).2 = some (some err) ∧
    (t.Command [c]).1 = t ∧
    (t.Command [c]).1.Commands.length = t.Commands.length ∧
    (∃ e, (Task.Command {} [.s3Put {}]).2 = some e) ∧
    (Task.Command {} [.s3Put {}]).1.Commands.length = 0 := by
  rw [Task.Command_cons_invalid t c [] err h]
  exact ⟨rfl, rfl, rfl, ⟨_, rfl⟩, rfl⟩

/-- Witness of C13: a task holding one definition, and a gotest command with
neither format flag set. -/
theorem command_invalid_leaves_task_witness :
    (Task.Command { Name := "t", Commands := [{ FunctionName := "f" }] }
      [.resultsGoTest {}]).2 = some (some "invalid format for gotest operation") ∧
    (Task.Command { Name := "t", Commands := [{ FunctionName := "f" }] }
      [.resultsGoTest {}]).1 = { Name := "t", Commands := [{ FunctionName := "f" }] } :=
  have h := command_invalid_leaves_task { Name := "t", Commands := [{ FunctionName := "f" }] }
    (.resultsGoTest {}) "invalid format for gotest operation" (by decide)
  ⟨h.1, h.2.1⟩

/-- C14: partial commit. When the arguments of `Task.Command` are valid
commands `pre`, then a command `bad` that fails validation, then `rest`, the
call panics with the validation error of `bad`, and the task is left with the
old sequence followed by the definitions of the commands of `pre`, one each and
in order; nothing of `bad` or `rest` is appended and no other field changes. -/
theorem command_partial_commit (t : Task) (pre rest : List Shrub.Command) (bad : Shrub.Command)
    (err : Error) (hpre : ∀ c ∈ pre, c.Validate = none) (hbad : bad.Validate = some err) :
    ∃ ds : List CommandDefinition,
      List.Forall₂ (fun c d => c.Resolve = Except.ok d) pre ds ∧
      t.Command (pre ++ [bad] ++ rest) =
        ({ t with Commands := t.Commands ++ ds }, some (some err)) := by
  obtain ⟨ds, hds, hrun⟩ := Task.Command_valid_prefix pre t (bad :: rest) hpre
  refine ⟨ds, hds.imp (fun _ _ h => h.1), ?_⟩
  rw [List.append_assoc, List.singleton_append, hrun,
    Task.Command_cons_invalid _ bad rest err hbad]

/-- Witness of C14: two valid commands, then an all-empty `CmdS3Put`, then one
more valid command, attached to a task that already holds a definition. -/
theorem command_partial_commit_witness :
    ∃ d1 d2 : CommandDefinition,
      Command.Resolve (.exec {}) = Except.ok d1 ∧
      Command.Resolve (.execShell { Script := "make" }) = Except.ok d2 ∧
      Task.Command { Name := "t", Commands := [{ FunctionName := "f" }] }
          ([.exec {}, .execShell { Script := "make" }] ++ [.s3Put {}] ++ [.exec {}]) =
        ({ Name := "t", Commands := [{ FunctionName := "f" }, d1, d2] },
          some (some "must specify aws credentials")) := by
  obtain ⟨ds, hds, hrun⟩ := command_partial_commit
    { Name := "t", Commands := [{ FunctionName := "f" }] }
    [.exec {}, .execShell { Script := "make" }] [.exec {}] (.s3Put {})
    "must specify aws credentials" (by decide) (by decide)
  cases hds with
  | cons h1 hds2 =>
    cases hds2 with
    | cons h2 hds3 =>
      cases hds3
      exact ⟨_, _, h1, h2, hrun⟩

/-- C15: when every command of the argument list passes validation,
`Task.Command` returns without a panic and the task holds the old sequence
followed by one definition per command, in argument order: the definition is
what `Resolve` of the command returns, its `CommandName` is the `Name` of the
command and its function name is empty; the length grows by the number of
commands and no other field changes. Attaching `CmdExec{}` to a fresh task
appends one definition named "subprocess.exec". -/
theorem command_all_valid (t : Task) (cmds : List Shrub.Command)
    (h : ∀ c ∈ cmds, c.Validate = none) :
    (∃ ds : List CommandDefinition,
      List.Forall₂ (fun c d => c.Resolve = Except.ok d ∧ c.Name = Except.ok d.CommandName ∧
        d.FunctionName = "") cmds ds ∧
      t.Command cmds = ({ t with Commands := t.Commands ++ ds }, none)) ∧
    (t.Command cmds).1.Commands.length = t.Commands.length + cmds.length ∧
    (∃ d, Task.Command {} [.exec {}] = ({ Commands := [d] }, none) ∧
      d.CommandName = "subprocess.exec" ∧ d.FunctionName = "") := by
  obtain ⟨ds, hds, hrun⟩ := Task.Command_valid_prefix cmds t [] h
  rw [List.append_nil] at hrun
  have hrun2 : t.Command cmds = ({ t with Commands := t.Commands ++ ds }, none) := by
    rw [hrun]; rfl
  refine ⟨⟨ds, hds.imp (fun _ _ h => ⟨h.1, h.2.1, h.2.2.1⟩), hrun2⟩, ?_, ?_⟩
  · rw [hrun2]
    simp only [List.length_append]
    rw [hds.length_eq]
  · exact ⟨_, rfl, rfl, rfl⟩

/-- Witness of C15: the same `CmdExec{}` three times and a valid `CmdS3Put`,
attached to a task that already holds a definition. -/
theorem command_all_valid_witness :
    (∀ c ∈ [Command.exec {}, .exec {}, .exec {},
        .s3Put { CredKey := "k", CredSecret := "s", LocalFile := "f" }],
      c.Validate = none) ∧
    (Task.Command { Name := "t", Commands := [{ FunctionName := "f" }] }
      [.exec {}, .exec {}, .exec {},
        .s3Put { CredKey := "k", CredSecret := "s", LocalFile := "f" }]).1.Commands.length =
      1 + 4 ∧
    (Task.Command { Name := "t", Commands := [{ FunctionName := "f" }] }
      [.exec {}, .exec {}, .exec {},
        .s3Put { CredKey := "k", CredSecret := "s", LocalFile := "f" }]).2 = none :=
  have h := command_all_valid { Name := "t", Commands := [{ FunctionName := "f" }] }
    [.exec {}, .exec {}, .exec {},
      .s3Put { CredKey := "k", CredSecret := "s", LocalFile := "f" }] (by decide)
  ⟨by decide, h.2.1, by
    obtain ⟨ds, _, hrun⟩ := h.1
    rw [hrun]⟩

/-! ## The exported parameter mapping -/

theorem float64Shift_of_lt (a fuel : Nat) (h : a < 2 ^ 53) : float64Shift a fuel = 0 := by
  cases fuel with
  | zero => rfl
  | succ n =>
    unfold float64Shift
    rw [if_pos h]

theorem float64OfNat_of_lt (a : Nat) (h : a < 2 ^ 53) : float64OfNat a = a := by
  simp [float64OfNat, float64Shift_of_lt a a h]

/-- An integer below `2^53` in absolute value comes back from the JSON round
trip as itself. -/
theorem float64OfInt_of_lt (n : Int) (h : n.natAbs < 2 ^ 53) : float64OfInt n = n := by
  cases n with
  | ofNat a =>
    have ha : a < 2 ^ 53 := h
    simp [float64OfInt, float64OfNat_of_lt a ha]
  | negSucc a =>
    have ha : a + 1 < 2 ^ 53 := h
    simp only [float64OfInt, float64OfNat_of_lt (a + 1) ha]
    rfl

/-! ### Go strings through the JSON round trip -/

theorem char_toNat_valid (c : Char) :
    c.toNat < 0xD800 ∨ (0xDFFF < c.toNat ∧ c.toNat < 0x110000) := c.valid

theorem byte_val_of_lt (n : Nat) (h : n < 256) : (Byte.ofNat n).val = n := by
  simp only [Byte.ofNat]
  omega

/-- Decoding the encoding of a code point gives the code point back and goes on
behind it. -/
theorem decodeRunes_encodeRune (c : Char) (rest : List Byte) :
    decodeRunes 0 (encodeRune c ++ rest) = c :: decodeRunes 0 rest := by
  have hv := char_toNat_valid c
  have hc : Char.ofNat c.toNat = c := Char.ofNat_toNat c
  unfold encodeRune
  generalize c.toNat = n at hv hc
  simp only
  by_cases h1 : n < 0x80
  · rw [if_pos h1]
    have e0 := byte_val_of_lt n (by omega)
    show decodeRunes 0 (Byte.ofNat n :: rest) = _
    simp only [decodeRunes, decodeRune, e0, if_pos h1, hc]
  · rw [if_neg h1]
    by_cases h2 : n < 0x800
    · rw [if_pos h2]
      have e0 := byte_val_of_lt (0xC0 + n / 64) (by omega)
      have e1 := byte_val_of_lt (0x80 + n % 64) (by omega)
      have a1 : ¬ (0xC0 + n / 64 < 0x80) := by omega
      have a2 : ¬ (0xC0 + n / 64 < 0xC2) := by omega
      have a3 : 0xC0 + n / 64 < 0xE0 := by omega
      have a4 : 0x80 ≤ 0x80 + n % 64 ∧ 0x80 + n % 64 ≤ 0xBF := by omega
      have a5 : (0xC0 + n / 64) % 32 * 64 + (0x80 + n % 64) % 64 = n := by omega
      show decodeRunes 0 (Byte.ofNat (0xC0 + n / 64) :: Byte.ofNat (0x80 + n % 64) :: rest) = _
      simp only [decodeRunes, decodeRune, e0, e1, if_neg a1, if_neg a2, if_pos a3, if_pos a4,
        a5, hc]
    · rw [if_neg h2]
      by_cases h3 : n < 0x10000
      · rw [if_pos h3]
        have e0 := byte_val_of_lt (0xE0 + n / 4096) (by omega)
        have e1 := byte_val_of_lt (0x80 + n / 64 % 64) (by omega)
        have e2 := byte_val_of_lt (0x80 + n % 64) (by omega)
        have a1 : ¬ (0xE0 + n / 4096 < 0x80) := by omega
        have a2 : ¬ (0xE0 + n / 4096 < 0xC2) := by omega
        have a3 : ¬ (0xE0 + n / 4096 < 0xE0) := by omega
        have a4 : 0xE0 + n / 4096 < 0xF0 := by omega
        have a5 : (if 0xE0 + n / 4096 = 0xE0 then 0xA0 else 0x80) ≤ 0x80 + n / 64 % 64 ∧
            0x80 + n / 64 % 64 ≤ (if 0xE0 + n / 4096 = 0xED then 0x9F else 0xBF) ∧
            0x80 ≤ 0x80 + n % 64 ∧ 0x80 + n % 64 ≤ 0xBF := by
          split_ifs <;> omega
        have a6 : (0xE0 + n / 4096) % 16 * 4096 + (0x80 + n / 64 % 64) % 64 * 64 +
            (0x80 + n % 64) % 64 = n := by omega
        show decodeRunes 0 (Byte.ofNat (0xE0 + n / 4096) :: Byte.ofNat (0x80 + n / 64 % 64) ::
          Byte.ofNat (0x80 + n % 64) :: rest) = _
        simp only [decodeRunes, decodeRune, e0, e1, e2, if_neg a1, if_neg a2, if_neg a3,
          if_pos a4, if_pos a5, a6, hc]
      · rw [if_neg h3]
        have e0 := byte_val_of_lt (0xF0 + n / 262144) (by omega)
        have e1 := byte_val_of_lt (0x80 + n / 4096 % 64) (by omega)
        have e2 := byte_val_of_lt (0x80 + n / 64 % 64) (by omega)
        have e3 := byte_val_of_lt (0x80 + n % 64) (by omega)
        have a1 : ¬ (0xF0 + n / 262144 < 0x80) := by omega
        have a2 : ¬ (0xF0 + n / 262144 < 0xC2) := by omega
        have a3 : ¬ (0xF0 + n / 262144 < 0xE0) := by omega
        have a4 : ¬ (0xF0 + n / 262144 < 0xF0) := by omega
        have a5 : 0xF0 + n / 262144 < 0xF5 := by omega
        have a6 : (if 0xF0 + n / 262144 = 0xF0 then 0x90 else 0x80) ≤ 0x80 + n / 4096 % 64 ∧
            0x80 + n / 4096 % 64 ≤ (if 0xF0 + n / 262144 = 0xF4 then 0x8F else 0xBF) ∧
            0x80 ≤ 0x80 + n / 64 % 64 ∧ 0x80 + n / 64 % 64 ≤ 0xBF ∧
            0x80 ≤ 0x80 + n % 64 ∧ 0x80 + n % 64 ≤ 0xBF := by
          split_ifs <;> omega
        have a7 : (0xF0 + n / 262144) % 8 * 262144 + (0x80 + n / 4096 % 64) % 64 * 4096 +
            (0x80 + n / 64 % 64) % 64 * 64 + (0x80 + n % 64) % 64 = n := by omega
        show decodeRunes 0 (Byte.ofNat (0xF0 + n / 262144) ::
          Byte.ofNat (0x80 + n / 4096 % 64) :: Byte.ofNat (0x80 + n / 64 % 64) ::
          Byte.ofNat (0x80 + n % 64) :: rest) = _
        simp only [decodeRunes, decodeRune, e0, e1, e2, e3, if_neg a1, if_neg a2, if_neg a3,
          if_neg a4, if_pos a5, if_pos a6, a7, hc]

theorem char_toNat_ofNat (v : Nat) (h : v < 0xD800 ∨ (0xDFFF < v ∧ v < 0x110000)) :
    (Char.ofNat v).toNat = v := by
  unfold Char.ofNat
  rw [dif_pos h]
  rfl

theorem byte_eq_ofNat (b : Byte) (n : Nat) (h : b.val = n) : Byte.ofNat n = b := by
  apply Fin.ext
  simp only [Byte.ofNat]
  have := b.isLt
  omega

/-- What `decodeRune` returns: U+FFFD with the width 1, or a code point whose
encoding is what the string starts with, with the width of that encoding. -/
theorem decodeRune_spec (b0 : Byte) (rest : List Byte) :
    decodeRune b0 rest = (runeError, 1) ∨
    ∃ c tail, b0 :: rest = encodeRune c ++ tail ∧
      decodeRune b0 rest = (c, (encodeRune c).length) := by
  unfold decodeRune
  simp only
  have hb0 := b0.isLt
  by_cases h1 : b0.val < 0x80
  · right
    rw [if_pos h1]
    have hv := char_toNat_ofNat b0.val (by omega)
    refine ⟨Char.ofNat b0.val, rest, ?_, ?_⟩
    · unfold encodeRune
      simp only [hv, if_pos h1, List.singleton_append, byte_eq_ofNat b0 _ rfl]
    · unfold encodeRune
      simp only [hv, if_pos h1, List.length_singleton]
  · rw [if_neg h1]
    by_cases h2 : b0.val < 0xC2
    · left; rw [if_pos h2]
    · rw [if_neg h2]
      by_cases h3 : b0.val < 0xE0
      · rw [if_pos h3]
        cases rest with
        | nil => left; rfl
        | cons b1 tail =>
          simp only
          by_cases hr : 0x80 ≤ b1.val ∧ b1.val ≤ 0xBF
          · right
            rw [if_pos hr]
            have hv := char_toNat_ofNat (b0.val % 32 * 64 + b1.val % 64) (by omega)
            have c1 : ¬ (b0.val % 32 * 64 + b1.val % 64 < 0x80) := by omega
            have c2 : b0.val % 32 * 64 + b1.val % 64 < 0x800 := by omega
            have e0 := byte_eq_ofNat b0 (0xC0 + (b0.val % 32 * 64 + b1.val % 64) / 64) (by omega)
            have e1 := byte_eq_ofNat b1 (0x80 + (b0.val % 32 * 64 + b1.val % 64) % 64) (by omega)
            refine ⟨Char.ofNat (b0.val % 32 * 64 + b1.val % 64), tail, ?_, ?_⟩
            · unfold encodeRune
              simp only [hv, if_neg c1, if_pos c2, e0, e1, List.cons_append, List.nil_append]
            · unfold encodeRune
              simp only [hv, if_neg c1, if_pos c2, List.length_cons, List.length_nil]
          · left; rw [if_neg hr]
      · rw [if_neg h3]
        by_cases h4 : b0.val < 0xF0
        · rw [if_pos h4]
          cases rest with
          | nil => left; rfl
          | cons b1 tail1 =>
            cases tail1 with
            | nil => left; rfl
            | cons b2 tail =>
              simp only
              by_cases hr : (if b0.val = 0xE0 then 0xA0 else 0x80) ≤ b1.val ∧
                  b1.val ≤ (if b0.val = 0xED then 0x9F else 0xBF) ∧
                  0x80 ≤ b2.val ∧ b2.val ≤ 0xBF
              · right
                rw [if_pos hr]
                have hr2 : (b0.val = 0xE0 → 0xA0 ≤ b1.val) ∧ 0x80 ≤ b1.val ∧
                    (b0.val = 0xED → b1.val ≤ 0x9F) ∧ b1.val ≤ 0xBF ∧
                    0x80 ≤ b2.val ∧ b2.val ≤ 0xBF := by
                  split_ifs at hr <;> omega
                have hv := char_toNat_ofNat
                  (b0.val % 16 * 4096 + b1.val % 64 * 64 + b2.val % 64) (by omega)
                have c1 : ¬ (b0.val % 16 * 4096 + b1.val % 64 * 64 + b2.val % 64 < 0x80) := by
                  omega
                have c2 : ¬ (b0.val % 16 * 4096 + b1.val % 64 * 64 + b2.val % 64 < 0x800) := by
                  omega
                have c3 : b0.val % 16 * 4096 + b1.val % 64 * 64 + b2.val % 64 < 0x10000 := by
                  omega
                have e0 := byte_eq_ofNat b0
                  (0xE0 + (b0.val % 16 * 4096 + b1.val % 64 * 64 + b2.val % 64) / 4096) (by omega)
                have e1 := byte_eq_ofNat b1
                  (0x80 + (b0.val % 16 * 4096 + b1.val % 64 * 64 + b2.val % 64) / 64 % 64)
                  (by omega)
                have e2 := byte_eq_ofNat b2
                  (0x80 + (b0.val % 16 * 4096 + b1.val % 64 * 64 + b2.val % 64) % 64) (by omega)
                refine ⟨Char.ofNat (b0.val % 16 * 4096 + b1.val % 64 * 64 + b2.val % 64), tail,
                  ?_, ?_⟩
                · unfold encodeRune
                  simp only [hv, if_neg c1, if_neg c2, if_pos c3, e0, e1, e2, List.cons_append,
                    List.nil_append]
                · unfold encodeRune
                  simp only [hv, if_neg c1, if_neg c2, if_pos c3, List.length_cons,
                    List.length_nil]
              · left; rw [if_neg hr]
        · rw [if_neg h4]
          by_cases h5 : b0.val < 0xF5
          · rw [if_pos h5]
            cases rest with
            | nil => left; rfl
            | cons b1 tail1 =>
              cases tail1 with
              | nil => left; rfl
              | cons b2 tail2 =>
                cases tail2 with
                | nil => left; rfl
                | cons b3 tail =>
                  simp only
                  by_cases hr : (if b0.val = 0xF0 then 0x90 else 0x80) ≤ b1.val ∧
                      b1.val ≤ (if b0.val = 0xF4 then 0x8F else 0xBF) ∧
                      0x80 ≤ b2.val ∧ b2.val ≤ 0xBF ∧ 0x80 ≤ b3.val ∧ b3.val ≤ 0xBF
                  · right
                    rw [if_pos hr]
                    have hr2 : (b0.val = 0xF0 → 0x90 ≤ b1.val) ∧ 0x80 ≤ b1.val ∧
                        (b0.val = 0xF4 → b1.val ≤ 0x8F) ∧ b1.val ≤ 0xBF ∧
                        0x80 ≤ b2.val ∧ b2.val ≤ 0xBF ∧ 0x80 ≤ b3.val ∧ b3.val ≤ 0xBF := by
                      split_ifs at hr <;> omega
                    have hv := char_toNat_ofNat
                      (b0.val % 8 * 262144 + b1.val % 64 * 4096 + b2.val % 64 * 64 + b3.val % 64)
                      (by omega)
                    have c1 : ¬ (b0.val % 8 * 262144 + b1.val % 64 * 4096 + b2.val % 64 * 64 +
                        b3.val % 64 < 0x80) := by omega
                    have c2 : ¬ (b0.val % 8 * 262144 + b1.val % 64 * 4096 + b2.val % 64 * 64 +
                        b3.val % 64 < 0x800) := by omega
                    have c3 : ¬ (b0.val % 8 * 262144 + b1.val % 64 * 4096 + b2.val % 64 * 64 +
                        b3.val % 64 < 0x10000) := by omega
                    have e0 := byte_eq_ofNat b0
                      (0xF0 + (b0.val % 8 * 262144 + b1.val % 64 * 4096 + b2.val % 64 * 64 +
                        b3.val % 64) / 262144) (by omega)
                    have e1 := byte_eq_ofNat b1
                      (0x80 + (b0.val % 8 * 262144 + b1.val % 64 * 4096 + b2.val % 64 * 64 +
                        b3.val % 64) / 4096 % 64) (by omega)
                    have e2 := byte_eq_ofNat b2
                      (0x80 + (b0.val % 8 * 262144 + b1.val % 64 * 4096 + b2.val % 64 * 64 +
                        b3.val % 64) / 64 % 64) (by omega)
                    have e3 := byte_eq_ofNat b3
                      (0x80 + (b0.val % 8 * 262144 + b1.val % 64 * 4096 + b2.val % 64 * 64 +
                        b3.val % 64) % 64) (by omega)
                    refine ⟨Char.ofNat (b0.val % 8 * 262144 + b1.val % 64 * 4096 +
                      b2.val % 64 * 64 + b3.val % 64), tail, ?_, ?_⟩
                    · unfold encodeRune
                      simp only [hv, if_neg c1, if_neg c2, if_neg c3, e0, e1, e2, e3,
                        List.cons_append, List.nil_append]
                    · unfold encodeRune
                      simp only [hv, if_neg c1, if_neg c2, if_neg c3, List.length_cons,
                        List.length_nil]
                  · left; rw [if_neg hr]
          · left; rw [if_neg h5]

/-- The text of a string that starts with the encoding of a code point starts
with that code point and goes on with the text of what follows. -/
theorem GoString.jsonText_of_encoding (c : Char) (s : List Byte) :
    GoString.jsonText ⟨encodeRune c ++ s⟩ = ⟨c :: (GoString.jsonText ⟨s⟩).data⟩ := by
  simp only [GoString.jsonText, decodeRunes_encodeRune]

/-- The text of a string that starts with a byte at which no encoding of a code
point starts has U+FFFD for that byte and goes on with the text of what
follows it. -/
theorem GoString.jsonText_of_invalid (b : Byte) (s : List Byte)
    (h : ∀ c tail, b :: s ≠ encodeRune c ++ tail) :
    GoString.jsonText ⟨b :: s⟩ = ⟨runeError :: (GoString.jsonText ⟨s⟩).data⟩ := by
  rcases decodeRune_spec b s with hd | ⟨c, tail, he, _⟩
  · simp only [GoString.jsonText, decodeRunes, hd]
  · exact absurd he (h c tail)

theorem decodeRunes_encodeRunes (cs : List Char) : decodeRunes 0 (encodeRunes cs) = cs := by
  induction cs with
  | nil => rfl
  | cons c cs ih =>
    show decodeRunes 0 (encodeRune c ++ encodeRunes cs) = _
    rw [decodeRunes_encodeRune, ih]

/-- A string that is the UTF-8 encoding of a text comes back from the JSON
round trip as that text. -/
theorem GoString.jsonText_ofString (t : String) : (GoString.ofString t).jsonText = t := by
  simp only [GoString.jsonText, GoString.ofString, decodeRunes_encodeRunes]

theorem JSONValue.ofStrings_ofString (ts : List String) :
    JSONValue.ofStrings (some (ts.map GoString.ofString)) =
      JSONValue.array (ts.map JSONValue.string) := by
  simp only [JSONValue.ofStrings, List.map_map]
  congr 1
  apply List.map_congr_left
  intro t _
  simp only [Function.comp, GoString.jsonText_ofString]

/-! ### Go maps through the JSON round trip -/

theorem sortByKey_of_sorted {β : Type} (kvs : List (GoString × β))
    (h : List.Chain' (fun a b => bytesLE a.1.bytes b.1.bytes = true) kvs) :
    sortByKey kvs = kvs := by
  induction kvs with
  | nil => rfl
  | cons kv rest ih =>
    simp only [sortByKey]
    rw [ih h.tail]
    cases rest with
    | nil => rfl
    | cons x xs =>
      have hle : bytesLE kv.1.bytes x.1.bytes = true := (List.chain'_cons.1 h).1
      simp only [insertByKey, hle, if_true]

theorem mapSet_of_absent {β : Type} (m : List (String × β)) (k : String) (v : β)
    (h : k ∉ m.map Prod.fst) : mapSet m k v = m ++ [(k, v)] := by
  induction m with
  | nil => rfl
  | cons kv m ih =>
    obtain ⟨k0, v0⟩ := kv
    simp only [List.map_cons, List.mem_cons, not_or] at h
    have h0 : ¬ k0 = k := fun e => h.1 e.symm
    simp only [mapSet, if_neg h0, ih h.2, List.cons_append]

theorem foldl_mapSet_of_fresh {α β : Type} (f : α → String) (g : α → β) (l : List α) :
    ∀ acc : List (String × β), (acc.map Prod.fst ++ l.map f).Nodup →
      l.foldl (fun m a => mapSet m (f a) (g a)) acc = acc ++ l.map (fun a => (f a, g a)) := by
  induction l with
  | nil => intro acc _; simp
  | cons a l ih =>
    intro acc hnd
    have hfresh : f a ∉ acc.map Prod.fst := by
      intro hmem
      have := List.nodup_append.1 hnd
      exact this.2.2 hmem (List.mem_cons_self _ _)
    simp only [List.foldl_cons, mapSet_of_absent acc (f a) (g a) hfresh]
    rw [ih]
    · simp
    · simp only [List.map_append, List.map_cons, List.map_nil, List.append_assoc,
        List.singleton_append]
      exact hnd

/-- A map whose entries are listed in key order and whose keys have pairwise
different texts comes back from the JSON round trip as the object of its
entries, each key and value as its text. -/
theorem JSONValue.ofStringMap_of_sorted (kvs : List (GoString × GoString))
    (hs : List.Chain' (fun a b => bytesLE a.1.bytes b.1.bytes = true) kvs)
    (hk : (kvs.map (fun kv => kv.1.jsonText)).Nodup) :
    JSONValue.ofStringMap (some kvs) =
      JSONValue.object (kvs.map (fun kv => (kv.1.jsonText, JSONValue.string kv.2.jsonText))) := by
  simp only [JSONValue.ofStringMap, sortByKey_of_sorted kvs hs]
  rw [foldl_mapSet_of_fresh (fun kv : GoString × GoString => kv.1.jsonText)
    (fun kv => JSONValue.string kv.2.jsonText) kvs [] (by simpa using hk)]
  simp

/-- C16, as stated, fails: the one definition that attaching `CmdExec{}` to a
fresh task appends has a parameter mapping with thirteen keys, not an empty
one. -/
theorem exec_default_params_not_empty :
    (∃ d, Task.Command {} [.exec {}] = ({ Commands := [d] }, none) ∧
      d.paramKeys.length = 13) ∧
    ¬ ∃ d, (Task.Command {} [.exec {}]).1.Commands = [d] ∧ d.paramKeys = [] := by
  refine ⟨⟨_, rfl, rfl⟩, ?_⟩
  rintro ⟨d, hd, hk⟩
  have hrun : (Task.Command {} [.exec {}]).1.Commands =
      [{ CommandName := "subprocess.exec", Params := some (Command.toParams (.exec {})) }] := rfl
  rw [hrun] at hd
  simp only [List.cons.injEq, and_true] at hd
  rw [← hd] at hk
  simp [CommandDefinition.paramKeys, Command.toParams] at hk

/-- C16, amended: attaching `CmdExec{}` to a fresh task returns without a panic
and appends exactly one definition; it is named "subprocess.exec", carries no
function reference, and its parameter mapping holds the thirteen wire keys of
`CmdExec`, each with the zero value of its field: false for the eight flags,
the empty string for the three strings, null for `args` and `env`. -/
theorem exec_default_attach :
    Task.Command {} [.exec {}] =
      ({ Name := "", PriorityOverride := 0, Dependencies := [],
         Commands :=
          [{ FunctionName := "",
             CommandName := "subprocess.exec",
             Params := some
              [("background", JSONValue.bool false),
               ("silent", JSONValue.bool false),
               ("continue_on_err", JSONValue.bool false),
               ("system_log", JSONValue.bool false),
               ("redirect_standard_error_to_output", JSONValue.bool false),
               ("ignore_standard_error", JSONValue.bool false),
               ("ignore_standard_out", JSONValue.bool false),
               ("keep_empty_args", JSONValue.bool false),
               ("working_dir", JSONValue.string ""),
               ("command", JSONValue.string ""),
               ("binary", JSONValue.string ""),
               ("args", JSONValue.null),
               ("env", JSONValue.null)],
             Vars := none }] }, none) :=
  rfl

theorem Command.toParams_keys (c : Command) : c.toParams.map Prod.fst = c.wireNames := by
  cases c <;> rfl

/-- C17, as stated, fails on two counts. A valid `CmdS3Put` with only the
credentials and the local file set resolves to a mapping with all twelve keys,
among them "optional" with the value false, "bucket" with the empty string and
"build_variants" with null, the zero values of their fields. And a valid
`CmdExecShell` whose `Script` is the single byte `0xFF` resolves to a mapping
that holds the text U+FFFD under "script", which is not the value of the
field; the command whose `Script` is the byte `0xFE` resolves to the same
definition. -/
theorem valid_params_hold_zero_values_and_replaced_bytes :
    (∃ d ps,
      Command.Validate (.s3Put { CredKey := "k", CredSecret := "s", LocalFile := "f" }) = none ∧
      Command.Resolve (.s3Put { CredKey := "k", CredSecret := "s", LocalFile := "f" }) =
        Except.ok d ∧
      d.Params = some ps ∧
      d.paramKeys.length = 12 ∧
      mapGet ps "optional" = some (JSONValue.bool false) ∧
      mapGet ps "bucket" = some (JSONValue.string "") ∧
      mapGet ps "build_variants" = some JSONValue.null) ∧
    (∃ d ps,
      Command.Validate (.execShell { Script := ⟨[0xFF]⟩ }) = none ∧
      Command.Resolve (.execShell { Script := ⟨[0xFF]⟩ }) = Except.ok d ∧
      d.Params = some ps ∧
      mapGet ps "script" = some (JSONValue.string "\uFFFD") ∧
      GoString.ofString "\uFFFD" ≠ ⟨[0xFF]⟩ ∧
      Command.Resolve (.execShell { Script := ⟨[0xFE]⟩ }) = Except.ok d) :=
  ⟨⟨_, _, rfl, rfl, rfl, rfl, rfl, rfl, rfl⟩, ⟨_, _, rfl, rfl, rfl, rfl, by decide, rfl⟩⟩

/-- C17, amended: for every valid command of every variant, the parameter
mapping of the definition that `Resolve` returns has one entry for every
wire-visible field of the command (every field whose json tag is not `-`),
under its wire name, whether the value of the field is zero or not; its keys
are the wire names of the struct. The entry holds the value of the field as
the JSON round trip returns it: a `bool` as itself; a string as its text,
which is the string itself when it is valid UTF-8 and in general has the code
point for every encoding of a code point and U+FFFD for every byte at which
no such encoding starts; an `int` as the nearest `float64`, the `int` itself
below `2^53` in absolute value; a nil slice, map or pointer as null; a slice
as the array of its elements; a map whose keys have pairwise different texts
as the object of its entries, each key and value as its text (the entries
being listed in key order, in which `json.Marshal` writes them); a nested
struct as the object of its tagged fields. -/
theorem params_hold_every_wire_field (c : Command) (h : c.Validate = none) :
    (∃ d, c.Resolve = Except.ok d ∧ d.paramKeys = c.wireNames ∧
      d.Params = some
        (match c with
        | .exec x =>
          [("background", JSONValue.bool x.Background),
           ("silent", JSONValue.bool x.Silent),
           ("continue_on_err", JSONValue.bool x.ContinueOnError),
           ("system_log", JSONValue.bool x.SystemLog),
           ("redirect_standard_error_to_output", JSONValue.bool x.CombineOutput),
           ("ignore_standard_error", JSONValue.bool x.IgnoreStdError),
           ("ignore_standard_out", JSONValue.bool x.IgnoreStdOut),
           ("keep_empty_args", JSONValue.bool x.KeepEmptyArgs),
           ("working_dir", JSONValue.string x.WorkingDirectory.jsonText),
           ("command", JSONValue.string x.Command.jsonText),
           ("binary", JSONValue.string x.Binary.jsonText),
           ("args", JSONValue.ofStrings x.Args),
           ("env", JSONValue.ofStringMap x.Env)]
        | .execShell x =>
          [("background", JSONValue.bool x.Background),
           ("silent", JSONValue.bool x.Silent),
           ("continue_on_err", JSONValue.bool x.ContinueOnError),
           ("system_log", JSONValue.bool x.SystemLog),
           ("redirect_standard_error_to_output", JSONValue.bool x.CombineOutput),
           ("ignore_standard_error", JSONValue.bool x.IgnoreStdError),
           ("ignore_standard_out", JSONValue.bool x.IgnoreStdOut),
           ("working_dir", JSONValue.string x.WorkingDirectory.jsonText),
           ("script", JSONValue.string x.Script.jsonText)]
        | .subprocessScripting x =>
          [("harness", JSONValue.string x.Harness.jsonText),
           ("command", JSONValue.string x.Command.jsonText),
           ("args", JSONValue.ofStrings x.Args),
           ("test_dir", JSONValue.string x.TestDir.jsonText),
           ("test_options",
              match x.TestOptions with
              | none => JSONValue.null
              | some o =>
                JSONValue.object
                  [("name", JSONValue.string o.Name.jsonText),
                   ("args", JSONValue.ofStrings o.Args),
                   ("pattern", JSONValue.string o.Pattern.jsonText),
                   ("timeout_secs", JSONValue.number (float64OfInt o.TimeoutSecs)),
                   ("count", JSONValue.number (float64OfInt o.Count))]),
           ("script", JSONValue.string x.Script.jsonText),
           ("add_to_path", JSONValue.ofStrings x.Path),
           ("env", JSONValue.ofStringMap x.Env),
           ("cache_duration_secs", JSONValue.number (float64OfInt x.CacheDurationSeconds)),
           ("cleanup_harness", JSONValue.bool x.CleanupHarness),
           ("lock_file", JSONValue.string x.LockFile.jsonText),
           ("packages", JSONValue.ofStrings x.Packages),
           ("harness_path", JSONValue.string x.HarnessPath.jsonText),
           ("host_path", JSONValue.string x.HostPath.jsonText),
           ("add_expansions_to_env", JSONValue.bool x.AddExpansionsToEnv),
           ("include_expansions_in_env", JSONValue.ofStrings x.IncludeExpansionsInEnv),
           ("silent", JSONValue.bool x.Silent),
           ("system_log", JSONValue.bool x.SystemLog),
           ("working_dir", JSONValue.string x.WorkingDir.jsonText),
           ("ignore_standard_out", JSONValue.bool x.IgnoreStandardOutput),
           ("ignore_standard_error", JSONValue.bool x.IgnoreStandardError),
           ("redirect_standard_error_to_output", JSONValue.bool x.RedirectStandardErrorToOutput),
           ("continue_on_err", JSONValue.bool x.ContinueOnError)]
        | .s3Put x =>
          [("optional", JSONValue.bool x.Optional),
           ("local_file", JSONValue.string x.LocalFile.jsonText),
           ("local_files_include_filter", JSONValue.ofStrings x.LocalFileIncludeFilter),
           ("bucket", JSONValue.string x.Bucket.jsonText),
           ("remote_file", JSONValue.string x.RemoteFile.jsonText),
           ("display_name", JSONValue.string x.DisplayName.jsonText),
           ("content_type", JSONValue.string x.ContentType.jsonText),
           ("aws_key", JSONValue.string x.CredKey.jsonText),
           ("aws_secret", JSONValue.string x.CredSecret.jsonText),
           ("permissions", JSONValue.string x.Permissions.jsonText),
           ("visibility", JSONValue.string x.Visibility.jsonText),
           ("build_variants", JSONValue.ofStrings x.BuildVariants)]
        | .s3Get x =>
          [("aws_key", JSONValue.string x.AWSKey.jsonText),
           ("aws_secret", JSONValue.string x.AWSSecret.jsonText),
           ("remote_file", JSONValue.string x.RemoteFile.jsonText),
           ("bucket", JSONValue.string x.Bucket.jsonText),
           ("local_file", JSONValue.string x.LocalFile.jsonText),
           ("extract_to", JSONValue.string x.ExtractTo.jsonText),
           ("build_variants", JSONValue.ofStrings x.BuildVariants)]
        | .s3Copy x =>
          [("aws_key", JSONValue.string x.AWSKey.jsonText),
           ("aws_secret", JSONValue.string x.AWSSecret.jsonText),
           ("s3_copy_files",
              match x.Files with
              | none => JSONValue.null
              | some fs =>
                JSONValue.array (fs.map (fun f =>
                  JSONValue.object
                    [("optional", JSONValue.bool f.Optional),
                     ("display_name", JSONValue.string f.DisplayName.jsonText),
                     ("build_variants", JSONValue.ofStrings f.BuildVariants),
                     ("source", JSONValue.object
                       [("bucket", JSONValue.string f.Source.Bucket.jsonText),
                        ("path", JSONValue.string f.Source.Path.jsonText)]),
                     ("destination", JSONValue.object
                       [("bucket", JSONValue.string f.Destination.Bucket.jsonText),
                        ("path", JSONValue.string f.Destination.Path.jsonText)])])))]
        | .s3Push x =>
          [("exclude", JSONValue.string x.ExcludeFilter.jsonText),
           ("max_retries", JSONValue.number (float64OfInt x.MaxRetries))]
        | .s3Pull x =>
          [("exclude", JSONValue.string x.ExcludeFilter.jsonText),
           ("max_retries", JSONValue.number (float64OfInt x.MaxRetries))]
        | .getProject x =>
          [("token", JSONValue.string x.Token.jsonText),
           ("directory", JSONValue.string x.Directory.jsonText),
           ("revisions", JSONValue.ofStringMap x.Revisions)]
        | .resultsJSON x =>
          [("file_location", JSONValue.string x.File.jsonText)]
        | .resultsXunit x =>
          [("file", JSONValue.string x.File.jsonText),
           ("files", JSONValue.ofStrings x.Files)]
        | .resultsGoTest x =>
          [("files", JSONValue.ofStrings x.Files)]
        | .archiveCreate x =>
          [("target", JSONValue.string x.Target.jsonText),
           ("source_dir", JSONValue.string x.SourceDir.jsonText),
           ("include", JSONValue.ofStrings x.Include),
           ("exclude_files", JSONValue.ofStrings x.Exclude)]
        | .archiveExtract x =>
          [("path", JSONValue.string x.Path.jsonText),
           ("destination", JSONValue.string x.Target.jsonText),
           ("exclude_files", JSONValue.ofStrings x.Exclude)]
        | .attachArtifacts x =>
          [("optional", JSONValue.bool x.Optional),
           ("files", JSONValue.ofStrings x.Files)])) ∧
    ((∀ t : String, (GoString.ofString t).jsonText = t) ∧
      (∀ (r : Char) (s : List Byte),
        GoString.jsonText ⟨encodeRune r ++ s⟩ = ⟨r :: (GoString.jsonText ⟨s⟩).data⟩) ∧
      (∀ (b : Byte) (s : List Byte), (∀ r tail, b :: s ≠ encodeRune r ++ tail) →
        GoString.jsonText ⟨b :: s⟩ = ⟨runeError :: (GoString.jsonText ⟨s⟩).data⟩)) ∧
    (∀ n : Int, n.natAbs < 2 ^ 53 → float64OfInt n = n) ∧
    (JSONValue.ofStrings none = JSONValue.null ∧
      ∀ xs, JSONValue.ofStrings (some xs) =
        JSONValue.array (xs.map (fun x => JSONValue.string x.jsonText))) ∧
    (JSONValue.ofStringMap none = JSONValue.null ∧
      ∀ kvs, List.Chain' (fun a b => bytesLE a.1.bytes b.1.bytes = true) kvs →
        (kvs.map (fun kv => kv.1.jsonText)).Nodup →
        JSONValue.ofStringMap (some kvs) =
          JSONValue.object
            (kvs.map (fun kv => (kv.1.jsonText, JSONValue.string kv.2.jsonText)))) := by
  refine ⟨?_, ⟨GoString.jsonText_ofString, GoString.jsonText_of_encoding,
    GoString.jsonText_of_invalid⟩, float64OfInt_of_lt, ⟨rfl, fun _ => rfl⟩,
    ⟨rfl, JSONValue.ofStringMap_of_sorted⟩⟩
  obtain ⟨n, _, hr⟩ := Command.resolve_of_valid c h
  refine ⟨_, hr, Command.toParams_keys c, ?_⟩
  cases c <;> rfl

/-- Witness of the amended C17: an `s3.push` with a filter and a retry count,
a shell command whose script holds a byte that is no valid UTF-8, a `CmdExec`
with two environment entries given out of key order, and one with two
environment keys of the same text, of which the entry of the greater key
stays. -/
theorem params_hold_every_wire_field_witness :
    (∃ d, Command.Resolve (.s3Push { ExcludeFilter := "x", MaxRetries := 3 }) = Except.ok d ∧
      d.Params =
        some [("exclude", JSONValue.string "x"), ("max_retries", JSONValue.number 3)]) ∧
    (∃ d, Command.Resolve (.execShell { Script := ⟨[0x6C, 0xFF, 0x73]⟩ }) = Except.ok d ∧
      d.Params = some
        [("background", JSONValue.bool false),
         ("silent", JSONValue.bool false),
         ("continue_on_err", JSONValue.bool false),
         ("system_log", JSONValue.bool false),
         ("redirect_standard_error_to_output", JSONValue.bool false),
         ("ignore_standard_error", JSONValue.bool false),
         ("ignore_standard_out", JSONValue.bool false),
         ("working_dir", JSONValue.string ""),
         ("script", JSONValue.string "l\uFFFDs")]) ∧
    (∃ d ps, Command.Resolve (.exec { Env := some [("b", "2"), ("a", "1")] }) = Except.ok d ∧
      d.Params = some ps ∧
      mapGet ps "env" = some (JSONValue.object
        [("a", JSONValue.string "1"), ("b", JSONValue.string "2")])) ∧
    (∃ d ps,
      Command.Resolve (.exec { Env := some [(⟨[0xFF]⟩, "2"), (⟨[0xFE]⟩, "1")] }) =
        Except.ok d ∧
      d.Params = some ps ∧
      mapGet ps "env" = some (JSONValue.object [("\uFFFD", JSONValue.string "2")])) := by
  obtain ⟨⟨d, hd, -, hp⟩, -⟩ := params_hold_every_wire_field
    (.s3Push { ExcludeFilter := "x", MaxRetries := 3 }) (by decide)
  obtain ⟨⟨e, he, -, hq⟩, -⟩ := params_hold_every_wire_field
    (.execShell { Script := ⟨[0x6C, 0xFF, 0x73]⟩ }) (by decide)
  obtain ⟨⟨f, hf, -, hr⟩, -⟩ := params_hold_every_wire_field
    (.exec { Env := some [("b", "2"), ("a", "1")] }) (by decide)
  obtain ⟨⟨g, hg, -, hs⟩, -⟩ := params_hold_every_wire_field
    (.exec { Env := some [(⟨[0xFF]⟩, "2"), (⟨[0xFE]⟩, "1")] }) (by decide)
  refine ⟨⟨d, hd, ?_⟩, ⟨e, he, ?_⟩, ⟨f, _, hf, hr, ?_⟩, ⟨g, _, hg, hs, ?_⟩⟩
  · rw [hp]; rfl
  · rw [hq]; rfl
  · rfl
  · rfl

/-! ## Variadic builders and function references -/

/-- C18: every variadic attach method called with no arguments returns without
a panic and leaves its receiver as it was, every field included:
`Task.Dependency`, `Task.Command`, `Task.Function`, `TaskGroup.Task`,
`TaskGroup.Tag`, `TaskGroup.SetupGroup`, `SetupTask`, `TeardownTask`,
`TeardownGroup`, `Timeout`, `Variant.AddTasks` and `Variant.DisplayTasks`. -/
theorem empty_variadic_noop (t : Task) (g : TaskGroup) (v : Variant) :
    t.Dependency [] = t ∧
    t.Command [] = (t, none) ∧
    t.Function [] = t ∧
    g.Task [] = g ∧
    g.Tag [] = g ∧
    g.SetupGroup [] = (g, none) ∧
    g.SetupTask [] = (g, none) ∧
    g.TeardownTask [] = (g, none) ∧
    g.TeardownGroup [] = (g, none) ∧
    g.Timeout [] = (g, none) ∧
    v.AddTasks [] = v ∧
    v.DisplayTasks [] = v := by
  refine ⟨?_, rfl, rfl, ?_, ?_, rfl, rfl, rfl, rfl, rfl, rfl, ?_⟩
  · cases t; simp [Task.Dependency]
  · cases g; simp [TaskGroup.Task]
  · cases g; simp [TaskGroup.Tag]
  · cases v; simp [Variant.DisplayTasks]

theorem Task.Function_eq (fns : List String) :
    ∀ t : Task, t.Function fns =
      { t with Commands := t.Commands ++ fns.map (fun fn =>
          ({ FunctionName := fn, CommandName := "", Params := none, Vars := none } :
            CommandDefinition)) } := by
  induction fns with
  | nil => intro t; cases t; simp [Task.Function]
  | cons fn fns ih =>
    intro t
    unfold Task.Function
    rw [ih]
    simp

/-- C19: `Task.Function` appends one definition per name, in argument order and
keeping duplicates; each carries only the function reference (`FunctionName`
is the name, `CommandName` is empty, `Params` and `Vars` are nil); the old
sequence stays as a prefix, the length grows by the number of names, and no
other field of the task changes. -/
theorem function_appends_references (t : Task) (fns : List String) :
    t.Function fns =
      { Name := t.Name, PriorityOverride := t.PriorityOverride,
        Dependencies := t.Dependencies,
        Commands := t.Commands ++ fns.map (fun fn =>
          ({ FunctionName := fn, CommandName := "", Params := none, Vars := none } :
            CommandDefinition)) } ∧
    (t.Function fns).Commands.length = t.Commands.length + fns.length ∧
    (t.Function fns).Commands.take t.Commands.length = t.Commands ∧
    (t.Function fns).Commands.map (fun d => d.FunctionName) =
      t.Commands.map (fun d => d.FunctionName) ++ fns := by
  rw [Task.Function_eq fns t]
  refine ⟨rfl, ?_, ?_, ?_⟩
  · simp
  · simp
  · simp [Function.comp_def]

/-- C20: `Task.FunctionWithVars` appends exactly one definition, whose
`FunctionName` is `id` and whose `Vars` is the mapping as given: nil stays nil,
a non-nil mapping is kept whole; the definition has no command name and no
parameters, the old sequence stays as a prefix and no other field of the task
changes. -/
theorem functionWithVars_appends_one (t : Task) (id : String)
    (vars : Option (List (String × String))) (m : List (String × String)) :
    t.FunctionWithVars id vars =
      { Name := t.Name, PriorityOverride := t.PriorityOverride,
        Dependencies := t.Dependencies,
        Commands := t.Commands ++
          [{ FunctionName := id, CommandName := "", Params := none, Vars := vars }] } ∧
    (t.FunctionWithVars id vars).Commands.length = t.Commands.length + 1 ∧
    (t.FunctionWithVars id vars).Commands.take t.Commands.length = t.Commands ∧
    ((t.FunctionWithVars id none).Commands.getLast?).map (fun d => d.Vars) = some none ∧
    ((t.FunctionWithVars id (some m)).Commands.getLast?).map (fun d => d.Vars) =
      some (some m) ∧
    ((t.FunctionWithVars id vars).Commands.getLast?).map (fun d => d.FunctionName) =
      some id := by
  refine ⟨rfl, ?_, ?_, ?_, ?_, ?_⟩
  · simp [Task.FunctionWithVars]
  · simp [Task.FunctionWithVars]
  · simp [Task.FunctionWithVars]
  · simp [Task.FunctionWithVars]
  · simp [Task.FunctionWithVars]

/-! ## The two sides of a definition -/

theorem Command.name_ne_empty (c : Command) (n : String) (h : c.Name = Except.ok n) :
    n ≠ "" := by
  cases c with
  | exec c => cases h; unfold CmdExec.Name; decide
  | execShell c => cases h; unfold CmdExecShell.Name; decide
  | subprocessScripting c => cases h; unfold CmdSubprocessScripting.Name; decide
  | s3Put c => cases h; unfold CmdS3Put.Name; decide
  | s3Get c => cases h; unfold CmdS3Get.Name; decide
  | s3Copy c => cases h; unfold CmdS3Copy.Name; decide
  | s3Push c => cases h; unfold CmdS3Push.Name; decide
  | s3Pull c => cases h; unfold CmdS3Pull.Name; decide
  | getProject c => cases h; unfold CmdGetProject.Name; decide
  | resultsJSON c => cases h; unfold CmdResultsJSON.Name; decide
  | resultsXunit c => cases h; unfold CmdResultsXunit.Name; decide
  | attachArtifacts c => cases h; unfold CmdAttachArtifacts.Name; decide
  | resultsGoTest c =>
    simp only [Command.Name, CmdResultsGoTest.Name, Except.ok.injEq] at h
    by_cases hl : c.LegacyFormat = true
    · rw [if_pos hl] at h; rw [← h]; decide
    · rw [if_neg hl] at h; rw [← h]; decide
  | archiveCreate c =>
    simp only [Command.Name, CmdArchiveCreate.Name, ArchiveFormat.createCmdName] at h
    by_cases h1 : c.Format = ZIP
    · rw [if_pos h1] at h; cases h; decide
    · rw [if_neg h1] at h
      by_cases h2 : c.Format = TARBALL
      · rw [if_pos h2] at h; cases h; decide
      · rw [if_neg h2] at h; exact Except.noConfusion h
  | archiveExtract c =>
    simp only [Command.Name, CmdArchiveExtract.Name, ArchiveFormat.extractCmdName] at h
    by_cases h1 : c.Format = ZIP
    · rw [if_pos h1] at h; cases h; decide
    · rw [if_neg h1] at h
      by_cases h2 : c.Format = TARBALL
      · rw [if_pos h2] at h; cases h; decide
      · rw [if_neg h2] at h
        by_cases h3 : c.Format = "auto"
        · rw [if_pos h3] at h; cases h; decide
        · rw [if_neg h3] at h; exact Except.noConfusion h

/-- The shape of every definition that `Resolve` returns: a command name, the
exported mapping, no function name and no variables. -/
theorem Command.resolve_ok_shape (c : Command) (d : CommandDefinition)
    (h : c.Resolve = Except.ok d) :
    d.CommandName ≠ "" ∧ c.Name = Except.ok d.CommandName ∧ d.Params = some c.toParams ∧
      d.FunctionName = "" ∧ d.Vars = none := by
  cases hv : c.Validate with
  | some err =>
    rw [Command.resolve_of_invalid c err hv] at h
    exact Except.noConfusion h
  | none =>
    obtain ⟨n, hn, hr⟩ := Command.resolve_of_valid c hv
    rw [hr] at h
    cases h
    exact ⟨Command.name_ne_empty c n hn, hn, rfl, rfl, rfl⟩

/-- Whatever the arguments, `Task.Command` leaves the task with the old
sequence followed by definitions that `Resolve` returned for commands of the
argument list; no other field changes. -/
theorem Task.Command_appended (cmds : List Shrub.Command) :
    ∀ t : Task, ∃ ds : List CommandDefinition,
      (t.Command cmds).1 = { t with Commands := t.Commands ++ ds } ∧
      ∀ d ∈ ds, ∃ c ∈ cmds, c.Resolve = Except.ok d := by
  induction cmds with
  | nil =>
    intro t
    refine ⟨[], ?_, fun d hd => absurd hd (List.not_mem_nil d)⟩
    cases t; simp [Task.Command]
  | cons c cmds ih =>
    intro t
    cases hv : c.Validate with
    | some err =>
      rw [Task.Command_cons_invalid t c cmds err hv]
      refine ⟨[], ?_, fun d hd => absurd hd (List.not_mem_nil d)⟩
      cases t; simp
    | none =>
      obtain ⟨d0, hr⟩ : ∃ d0, c.Resolve = Except.ok d0 := by
        obtain ⟨n, _, hr⟩ := Command.resolve_of_valid c hv
        exact ⟨_, hr⟩
      rw [Task.Command_cons_valid t c cmds d0 hv hr]
      obtain ⟨ds, hds, hall⟩ := ih { t with Commands := t.Commands ++ [d0] }
      refine ⟨d0 :: ds, ?_, ?_⟩
      · rw [hds]; simp
      · intro d hd
        rcases List.mem_cons.1 hd with hd | hd
        · exact ⟨c, List.mem_cons_self _ _, by rw [hd]; exact hr⟩
        · obtain ⟨c2, hc2, hr2⟩ := hall d hd
          exact ⟨c2, List.mem_cons_of_mem _ hc2, hr2⟩

/-! ## The adders of a task group against `Task.Command` -/

/-- The loop of `TaskGroup.SetupGroup` does to `SetupGroupCmds` what the loop of
`Task.Command` does to `Commands`, panic included, and touches no other field
of the group. -/
theorem TaskGroup.SetupGroup_as_Command (cmds : List Shrub.Command) :
    ∀ (g : TaskGroup) (t : Shrub.Task), g.SetupGroupCmds = t.Commands →
      (g.SetupGroup cmds).1 = { g with SetupGroupCmds := (t.Command cmds).1.Commands } ∧
      (g.SetupGroup cmds).2 = (t.Command cmds).2 := by
  induction cmds with
  | nil =>
    intro g t h
    refine ⟨?_, rfl⟩
    show g = { g with SetupGroupCmds := t.Commands }
    rw [← h]
  | cons c cmds ih =>
    intro g t h
    cases hv : c.Validate with
    | some err =>
      simp only [TaskGroup.SetupGroup, Task.Command, hv, and_true]
      rw [← h]
    | none =>
      cases hr : c.Resolve with
      | error e =>
        simp only [TaskGroup.SetupGroup, Task.Command, hv, hr, and_true]
        rw [← h]
      | ok d =>
        simp only [TaskGroup.SetupGroup, Task.Command, hv, hr]
        have h2 := ih { g with SetupGroupCmds := g.SetupGroupCmds ++ [d] }
          { t with Commands := t.Commands ++ [d] } (by rw [h])
        exact ⟨h2.1, h2.2⟩

/-- The loop of `TaskGroup.SetupTask` does to `SetupTaskCmds` what the loop of
`Task.Command` does to `Commands`, panic included, and touches no other field
of the group. -/
theorem TaskGroup.SetupTask_as_Command (cmds : List Shrub.Command) :
    ∀ (g : TaskGroup) (t : Shrub.Task), g.SetupTaskCmds = t.Commands →
      (g.SetupTask cmds).1 = { g with SetupTaskCmds := (t.Command cmds).1.Commands } ∧
      (g.SetupTask cmds).2 = (t.Command cmds).2 := by
  induction cmds with
  | nil =>
    intro g t h
    refine ⟨?_, rfl⟩
    show g = { g with SetupTaskCmds := t.Commands }
    rw [← h]
  | cons c cmds ih =>
    intro g t h
    cases hv : c.Validate with
    | some err =>
      simp only [TaskGroup.SetupTask, Task.Command, hv, and_true]
      rw [← h]
    | none =>
      cases hr : c.Resolve with
      | error e =>
        simp only [TaskGroup.SetupTask, Task.Command, hv, hr, and_true]
        rw [← h]
      | ok d =>
        simp only [TaskGroup.SetupTask, Task.Command, hv, hr]
        have h2 := ih { g with SetupTaskCmds := g.SetupTaskCmds ++ [d] }
          { t with Commands := t.Commands ++ [d] } (by rw [h])
        exact ⟨h2.1, h2.2⟩

/-- The loop of `TaskGroup.TeardownTask` does to `TeardownTaskCmds` what the loop of
`Task.Command` does to `Commands`, panic included, and touches no other field
of the group. -/
theorem TaskGroup.TeardownTask_as_Command (cmds : List Shrub.Command) :
    ∀ (g : TaskGroup) (t : Shrub.Task), g.TeardownTaskCmds = t.Commands →
      (g.TeardownTask cmds).1 = { g with TeardownTaskCmds := (t.Command cmds).1.Commands } ∧
      (g.TeardownTask cmds).2 = (t.Command cmds).2 := by
  induction cmds with
  | nil =>
    intro g t h
    refine ⟨?_, rfl⟩
    show g = { g with TeardownTaskCmds := t.Commands }
    rw [← h]
  | cons c cmds ih =>
    intro g t h
    cases hv : c.Validate with
    | some err =>
      simp only [TaskGroup.TeardownTask, Task.Command, hv, and_true]
      rw [← h]
    | none =>
      cases hr : c.Resolve with
      | error e =>
        simp only [TaskGroup.TeardownTask, Task.Command, hv, hr, and_true]
        rw [← h]
      | ok d =>
        simp only [TaskGroup.TeardownTask, Task.Command, hv, hr]
        have h2 := ih { g with TeardownTaskCmds := g.TeardownTaskCmds ++ [d] }
          { t with Commands := t.Commands ++ [d] } (by rw [h])
        exact ⟨h2.1, h2.2⟩

/-- The loop of `TaskGroup.TeardownGroup` does to `TeardownGroupCmds` what the loop of
`Task.Command` does to `Commands`, panic included, and touches no other field
of the group. -/
theorem TaskGroup.TeardownGroup_as_Command (cmds : List Shrub.Command) :
    ∀ (g : TaskGroup) (t : Shrub.Task), g.TeardownGroupCmds = t.Commands →
      (g.TeardownGroup cmds).1 = { g with TeardownGroupCmds := (t.Command cmds).1.Commands } ∧
      (g.TeardownGroup cmds).2 = (t.Command cmds).2 := by
  induction cmds with
  | nil =>
    intro g t h
    refine ⟨?_, rfl⟩
    show g = { g with TeardownGroupCmds := t.Commands }
    rw [← h]
  | cons c cmds ih =>
    intro g t h
    cases hv : c.Validate with
    | some err =>
      simp only [TaskGroup.TeardownGroup, Task.Command, hv, and_true]
      rw [← h]
    | none =>
      cases hr : c.Resolve with
      | error e =>
        simp only [TaskGroup.TeardownGroup, Task.Command, hv, hr, and_true]
        rw [← h]
      | ok d =>
        simp only [TaskGroup.TeardownGroup, Task.Command, hv, hr]
        have h2 := ih { g with TeardownGroupCmds := g.TeardownGroupCmds ++ [d] }
          { t with Commands := t.Commands ++ [d] } (by rw [h])
        exact ⟨h2.1, h2.2⟩

/-- The loop of `TaskGroup.Timeout` does to `TimeoutCmds` what the loop of
`Task.Command` does to `Commands`, panic included, and touches no other field
of the group. -/
theorem TaskGroup.Timeout_as_Command (cmds : List Shrub.Command) :
    ∀ (g : TaskGroup) (t : Shrub.Task), g.TimeoutCmds = t.Commands →
      (g.Timeout cmds).1 = { g with TimeoutCmds := (t.Command cmds).1.Commands } ∧
      (g.Timeout cmds).2 = (t.Command cmds).2 := by
  induction cmds with
  | nil =>
    intro g t h
    refine ⟨?_, rfl⟩
    show g = { g with TimeoutCmds := t.Commands }
    rw [← h]
  | cons c cmds ih =>
    intro g t h
    cases hv : c.Validate with
    | some err =>
      simp only [TaskGroup.Timeout, Task.Command, hv, and_true]
      rw [← h]
    | none =>
      cases hr : c.Resolve with
      | error e =>
        simp only [TaskGroup.Timeout, Task.Command, hv, hr, and_true]
        rw [← h]
      | ok d =>
        simp only [TaskGroup.Timeout, Task.Command, hv, hr]
        have h2 := ih { g with TimeoutCmds := g.TimeoutCmds ++ [d] }
          { t with Commands := t.Commands ++ [d] } (by rw [h])
        exact ⟨h2.1, h2.2⟩

theorem Task.Command_noBoth (t : Task) (cmds : List Shrub.Command)
    (h : ∀ d ∈ t.Commands, ¬ d.bothSides) :
    ∀ d ∈ (t.Command cmds).1.Commands, ¬ d.bothSides := by
  obtain ⟨ds, hds, hall⟩ := Task.Command_appended cmds t
  rw [hds]
  intro d hd
  rcases List.mem_append.1 hd with hd | hd
  · exact h d hd
  · obtain ⟨c, _, hr⟩ := hall d hd
    intro hb
    exact hb.2 (Command.resolve_ok_shape c d hr).2.2.2.1

theorem Task.Function_noBoth (t : Task) (fns : List String)
    (h : ∀ d ∈ t.Commands, ¬ d.bothSides) :
    ∀ d ∈ (t.Function fns).Commands, ¬ d.bothSides := by
  rw [Task.Function_eq fns t]
  intro d hd
  rcases List.mem_append.1 hd with hd | hd
  · exact h d hd
  · obtain ⟨fn, _, hfn⟩ := List.mem_map.1 hd
    intro hb
    rw [← hfn] at hb
    exact hb.1 rfl

/-- Every builder of `Task` keeps the sequence free of definitions that name
both a command and a function. -/
theorem TaskCall.apply_noBoth (m : TaskCall) (t : Task)
    (h : ∀ d ∈ t.Commands, ¬ d.bothSides) :
    ∀ d ∈ (m.apply t).Commands, ¬ d.bothSides := by
  cases m with
  | Command cmds => exact Task.Command_noBoth t cmds h
  | AddCommand =>
    intro d hd
    rcases List.mem_append.1 hd with hd | hd
    · exact h d hd
    · rw [List.mem_singleton] at hd
      intro hb
      rw [hd] at hb
      exact hb.1 rfl
  | Dependency dep => exact h
  | Function fns => exact Task.Function_noBoth t fns h
  | FunctionWithVars id vars =>
    intro d hd
    rcases List.mem_append.1 hd with hd | hd
    · exact h d hd
    · rw [List.mem_singleton] at hd
      intro hb
      rw [hd] at hb
      exact hb.1 rfl
  | Priority pri => exact h

theorem sequences_noBoth_iff (g : TaskGroup) :
    (∀ s ∈ g.sequences, ∀ d ∈ s, ¬ d.bothSides) ↔
      ((∀ d ∈ g.SetupGroupCmds, ¬ d.bothSides) ∧ (∀ d ∈ g.SetupTaskCmds, ¬ d.bothSides) ∧
        (∀ d ∈ g.TeardownTaskCmds, ¬ d.bothSides) ∧
        (∀ d ∈ g.TeardownGroupCmds, ¬ d.bothSides) ∧ (∀ d ∈ g.TimeoutCmds, ¬ d.bothSides)) := by
  simp [TaskGroup.sequences]

/-- Every builder of `TaskGroup` keeps the five sequences free of definitions
that name both a command and a function. -/
theorem TaskGroupCall.apply_sequences_noBoth (m : TaskGroupCall) (g : TaskGroup)
    (h : ∀ s ∈ g.sequences, ∀ d ∈ s, ¬ d.bothSides) :
    ∀ s ∈ (m.apply g).sequences, ∀ d ∈ s, ¬ d.bothSides := by
  rw [sequences_noBoth_iff] at h ⊢
  obtain ⟨h1, h2, h3, h4, h5⟩ := h
  cases m with
  | SetupGroup cmds =>
    have e := (TaskGroup.SetupGroup_as_Command cmds g { Commands := g.SetupGroupCmds } rfl).1
    show (∀ d ∈ (g.SetupGroup cmds).1.SetupGroupCmds, _) ∧ (∀ d ∈ (g.SetupGroup cmds).1.SetupTaskCmds, _) ∧
      (∀ d ∈ (g.SetupGroup cmds).1.TeardownTaskCmds, _) ∧
      (∀ d ∈ (g.SetupGroup cmds).1.TeardownGroupCmds, _) ∧
      (∀ d ∈ (g.SetupGroup cmds).1.TimeoutCmds, _)
    rw [e]
    exact ⟨Task.Command_noBoth { Commands := g.SetupGroupCmds } cmds h1, h2, h3, h4, h5⟩
  | SetupTask cmds =>
    have e := (TaskGroup.SetupTask_as_Command cmds g { Commands := g.SetupTaskCmds } rfl).1
    show (∀ d ∈ (g.SetupTask cmds).1.SetupGroupCmds, _) ∧ (∀ d ∈ (g.SetupTask cmds).1.SetupTaskCmds, _) ∧
      (∀ d ∈ (g.SetupTask cmds).1.TeardownTaskCmds, _) ∧
      (∀ d ∈ (g.SetupTask cmds).1.TeardownGroupCmds, _) ∧
      (∀ d ∈ (g.SetupTask cmds).1.TimeoutCmds, _)
    rw [e]
    exact ⟨h1, Task.Command_noBoth { Commands := g.SetupTaskCmds } cmds h2, h3, h4, h5⟩
  | TeardownTask cmds =>
    have e := (TaskGroup.TeardownTask_as_Command cmds g { Commands := g.TeardownTaskCmds } rfl).1
    show (∀ d ∈ (g.TeardownTask cmds).1.SetupGroupCmds, _) ∧
      (∀ d ∈ (g.TeardownTask cmds).1.SetupTaskCmds, _) ∧
      (∀ d ∈ (g.TeardownTask cmds).1.TeardownTaskCmds, _) ∧
      (∀ d ∈ (g.TeardownTask cmds).1.TeardownGroupCmds, _) ∧
      (∀ d ∈ (g.TeardownTask cmds).1.TimeoutCmds, _)
    rw [e]
    exact ⟨h1, h2, Task.Command_noBoth { Commands := g.TeardownTaskCmds } cmds h3, h4, h5⟩
  | TeardownGroup cmds =>
    have e := (TaskGroup.TeardownGroup_as_Command cmds g { Commands := g.TeardownGroupCmds }
      rfl).1
    show (∀ d ∈ (g.TeardownGroup cmds).1.SetupGroupCmds, _) ∧
      (∀ d ∈ (g.TeardownGroup cmds).1.SetupTaskCmds, _) ∧
      (∀ d ∈ (g.TeardownGroup cmds).1.TeardownTaskCmds, _) ∧
      (∀ d ∈ (g.TeardownGroup cmds).1.TeardownGroupCmds, _) ∧
      (∀ d ∈ (g.TeardownGroup cmds).1.TimeoutCmds, _)
    rw [e]
    exact ⟨h1, h2, h3, Task.Command_noBoth { Commands := g.TeardownGroupCmds } cmds h4, h5⟩
  | Timeout cmds =>
    have e := (TaskGroup.Timeout_as_Command cmds g { Commands := g.TimeoutCmds } rfl).1
    show (∀ d ∈ (g.Timeout cmds).1.SetupGroupCmds, _) ∧ (∀ d ∈ (g.Timeout cmds).1.SetupTaskCmds, _) ∧
      (∀ d ∈ (g.Timeout cmds).1.TeardownTaskCmds, _) ∧
      (∀ d ∈ (g.Timeout cmds).1.TeardownGroupCmds, _) ∧
      (∀ d ∈ (g.Timeout cmds).1.TimeoutCmds, _)
    rw [e]
    exact ⟨h1, h2, h3, h4, Task.Command_noBoth { Commands := g.TimeoutCmds } cmds h5⟩
  | Name _ => exact ⟨h1, h2, h3, h4, h5⟩
  | SetMaxHosts _ => exact ⟨h1, h2, h3, h4, h5⟩
  | SetShareProcesses _ => exact ⟨h1, h2, h3, h4, h5⟩
  | SetSetupGroupCanFailTask _ => exact ⟨h1, h2, h3, h4, h5⟩
  | SetSetupGroupTimeoutSecs _ => exact ⟨h1, h2, h3, h4, h5⟩
  | Task _ => exact ⟨h1, h2, h3, h4, h5⟩
  | Tag _ => exact ⟨h1, h2, h3, h4, h5⟩

theorem taskCalls_noBoth (calls : List TaskCall) :
    ∀ t : Task, (∀ x ∈ t.Commands, ¬ x.bothSides) →
      ∀ x ∈ (calls.foldl (fun t m => m.apply t) t).Commands, ¬ x.bothSides := by
  induction calls with
  | nil => intro t h; exact h
  | cons m calls ih =>
    intro t h
    exact ih (m.apply t) (TaskCall.apply_noBoth m t h)

theorem taskGroupCalls_noBoth (calls : List TaskGroupCall) :
    ∀ g : TaskGroup, (∀ s ∈ g.sequences, ∀ x ∈ s, ¬ x.bothSides) →
      ∀ s ∈ (calls.foldl (fun g m => m.apply g) g).sequences, ∀ x ∈ s, ¬ x.bothSides := by
  induction calls with
  | nil => intro g h; exact h
  | cons m calls ih =>
    intro g h
    exact ih (m.apply g) (TaskGroupCall.apply_sequences_noBoth m g h)

/-- C21: no definition produced by this code populates both sides of the union.
A definition returned by `Resolve` of any command has an empty `FunctionName`
and nil `Vars`; the definitions appended by `Task.Function` and
`Task.FunctionWithVars` have an empty `CommandName` and nil `Params`; hence a
task whose sequence holds no definition with both a command name and a function
name still holds none after any sequence of builder calls, and likewise the
five sequences of a task group; a fresh task and a fresh group start empty. -/
theorem no_definition_has_both_sides (c : Command) (d : CommandDefinition) (t : Task)
    (g : TaskGroup) (fns : List String) (id : String) (vars : Option (List (String × String)))
    (tcalls : List TaskCall) (gcalls : List TaskGroupCall) :
    (c.Resolve = Except.ok d → d.FunctionName = "" ∧ d.Vars = none) ∧
    (∃ ds, (t.Function fns).Commands = t.Commands ++ ds ∧ ds.length = fns.length ∧
      ∀ x ∈ ds, x.CommandName = "" ∧ x.Params = none) ∧
    (∃ x, (t.FunctionWithVars id vars).Commands = t.Commands ++ [x] ∧
      x.CommandName = "" ∧ x.Params = none) ∧
    ((∀ x ∈ t.Commands, ¬ x.bothSides) →
      ∀ x ∈ (tcalls.foldl (fun t m => m.apply t) t).Commands, ¬ x.bothSides) ∧
    ((∀ s ∈ g.sequences, ∀ x ∈ s, ¬ x.bothSides) →
      ∀ s ∈ (gcalls.foldl (fun g m => m.apply g) g).sequences, ∀ x ∈ s, ¬ x.bothSides) := by
  refine ⟨?_, ?_, ⟨_, rfl, rfl, rfl⟩, taskCalls_noBoth tcalls t, taskGroupCalls_noBoth gcalls g⟩
  · intro h
    exact (Command.resolve_ok_shape c d h).2.2.2
  · rw [Task.Function_eq fns t]
    refine ⟨_, rfl, by simp, ?_⟩
    intro x hx
    obtain ⟨fn, _, hfn⟩ := List.mem_map.1 hx
    rw [← hfn]
    exact ⟨rfl, rfl⟩

/-- Witness of C21: a resolved `CmdExecShell`, and a fresh task and a fresh
group taken through command and function attachments, one of which panics. -/
theorem no_definition_has_both_sides_witness :
    (∃ d, Command.Resolve (.execShell { Script := "make" }) = Except.ok d ∧
      d.FunctionName = "" ∧ d.Vars = none) ∧
    (∀ x ∈ ([TaskCall.Command [.exec {}], TaskCall.Function ["f", "f"],
        TaskCall.FunctionWithVars "g" (some [("k", "v")]),
        TaskCall.Command [.execShell {}, .s3Put {}]].foldl
          (fun t m => m.apply t) ({} : Task)).Commands, ¬ x.bothSides) ∧
    (∀ s ∈ ([TaskGroupCall.SetupGroup [.exec {}], TaskGroupCall.Timeout [.exec {}, .s3Put {}],
        TaskGroupCall.SetupTask [.execShell {}]].foldl
          (fun g m => m.apply g) ({} : TaskGroup)).sequences, ∀ x ∈ s, ¬ x.bothSides) ∧
    ([TaskCall.Command [.exec {}], TaskCall.Function ["f", "f"],
        TaskCall.FunctionWithVars "g" (some [("k", "v")]),
        TaskCall.Command [.execShell {}, .s3Put {}]].foldl
          (fun t m => m.apply t) ({} : Task)).Commands.length = 5 :=
  ⟨⟨_, rfl, (no_definition_has_both_sides (.execShell { Script := "make" }) _ {} {} [] ""
      none [] []).1 rfl⟩,
    (no_definition_has_both_sides (.exec {}) {} {} {} [] "" none
      [TaskCall.Command [.exec {}], TaskCall.Function ["f", "f"],
        TaskCall.FunctionWithVars "g" (some [("k", "v")]),
        TaskCall.Command [.execShell {}, .s3Put {}]] []).2.2.2.1
      (fun _ h => absurd h (List.not_mem_nil _)),
    (no_definition_has_both_sides (.exec {}) {} {} {} [] "" none []
      [TaskGroupCall.SetupGroup [.exec {}], TaskGroupCall.Timeout [.exec {}, .s3Put {}],
        TaskGroupCall.SetupTask [.execShell {}]]).2.2.2.2
      ((sequences_noBoth_iff {}).2
        ⟨fun _ h => absurd h (List.not_mem_nil _), fun _ h => absurd h (List.not_mem_nil _),
          fun _ h => absurd h (List.not_mem_nil _), fun _ h => absurd h (List.not_mem_nil _),
          fun _ h => absurd h (List.not_mem_nil _)⟩),
    rfl⟩

/-- C22, as stated, fails: the one definition that `Task.AddCommand` appends to
a fresh task names neither a command nor a function, and so do the definitions
appended by `Function("")` and by `FunctionWithVars("", nil)`. -/
theorem builders_append_neither_side :
    (∃ d, (Task.AddCommand {}).2.Commands = [d] ∧ d.neitherSide) ∧
    (∃ d, (Task.Function {} [""]).Commands = [d] ∧ d.neitherSide) ∧
    (∃ d, (Task.FunctionWithVars {} "" none).Commands = [d] ∧ d.neitherSide) :=
  ⟨⟨_, rfl, rfl, rfl⟩, ⟨_, rfl, rfl, rfl⟩, ⟨_, rfl, rfl, rfl⟩⟩

/-- C22, amended: every definition that `Task.Command` appends has exactly one
side populated, a non-empty command name with an empty function name; every
definition that `Task.Function` or `Task.FunctionWithVars` appends has an empty
command name and the given name as its function name, so it has exactly one
side populated when that name is not empty and neither when it is; the
definition that `Task.AddCommand` appends and returns has neither side
populated. -/
theorem appended_definition_sides (t : Task) (cmds : List Shrub.Command) (fns : List String)
    (id : String) (vars : Option (List (String × String))) :
    (∃ ds, (t.Command cmds).1.Commands = t.Commands ++ ds ∧
      ∀ x ∈ ds, x.CommandName ≠ "" ∧ x.FunctionName = "") ∧
    (∃ ds, (t.Function fns).Commands = t.Commands ++ ds ∧
      List.Forall₂ (fun fn x => x.FunctionName = fn ∧ x.CommandName = "") fns ds) ∧
    (∃ x, (t.FunctionWithVars id vars).Commands = t.Commands ++ [x] ∧
      x.FunctionName = id ∧ x.CommandName = "") ∧
    (∃ x, t.AddCommand.2.Commands = t.Commands ++ [x] ∧ x.neitherSide ∧ t.AddCommand.1 = x) := by
  refine ⟨?_, ?_, ⟨_, rfl, rfl, rfl⟩, ⟨_, rfl, ⟨rfl, rfl⟩, rfl⟩⟩
  · obtain ⟨ds, hds, hall⟩ := Task.Command_appended cmds t
    refine ⟨ds, by rw [hds], ?_⟩
    intro x hx
    obtain ⟨c, _, hr⟩ := hall x hx
    have hs := Command.resolve_ok_shape c x hr
    exact ⟨hs.1, hs.2.2.2.1⟩
  · rw [Task.Function_eq fns t]
    refine ⟨_, rfl, ?_⟩
    rw [List.forall₂_map_right_iff]
    exact List.forall₂_same.2 (fun _ _ => ⟨rfl, rfl⟩)

/-! ## Builders of variants, groups and tasks -/

theorem runOn_after_runOns (ds : List String) (d : String) :
    ∀ v : Variant, (ds.foldl (fun v x => v.RunOn x) v).RunOn d = v.RunOn d := by
  induction ds with
  | nil => intro v; rfl
  | cons x ds ih =>
    intro v
    rw [List.foldl_cons, ih (v.RunOn x)]
    rfl

/-- C23: `Variant.RunOn` overwrites: after any non-empty sequence of calls
`RunOn(d1)`, ..., `RunOn(dk)` on any variant, `DistroRunOn` is the one-element
list holding `dk` and no other field has changed; "foo" then "bar" leaves
exactly "bar". -/
theorem runOn_last_wins (v : Variant) (ds : List String) (d : String) :
    ((ds ++ [d]).foldl (fun v x => v.RunOn x) v).DistroRunOn = [d] ∧
    (ds ++ [d]).foldl (fun v x => v.RunOn x) v = { v with DistroRunOn := [d] } ∧
    ((v.RunOn "foo").RunOn "bar").DistroRunOn = ["bar"] := by
  have h : (ds ++ [d]).foldl (fun v x => v.RunOn x) v = { v with DistroRunOn := [d] } := by
    rw [List.foldl_append]
    exact runOn_after_runOns ds d v
  exact ⟨by rw [h], h, rfl⟩

/-- C24: each of the five adders of a task group changes at most its own
sequence: whatever the commands, valid or not, the group after the call is the
group before it with that one sequence replaced; the other four sequences and
every other field are as before, also when the call panics. -/
theorem adders_change_own_sequence_only (g : TaskGroup) (cmds : List Shrub.Command) :
    (g.SetupGroup cmds).1 =
      { g with SetupGroupCmds := (g.SetupGroup cmds).1.SetupGroupCmds } ∧
    (g.SetupTask cmds).1 =
      { g with SetupTaskCmds := (g.SetupTask cmds).1.SetupTaskCmds } ∧
    (g.TeardownTask cmds).1 =
      { g with TeardownTaskCmds := (g.TeardownTask cmds).1.TeardownTaskCmds } ∧
    (g.TeardownGroup cmds).1 =
      { g with TeardownGroupCmds := (g.TeardownGroup cmds).1.TeardownGroupCmds } ∧
    (g.Timeout cmds).1 =
      { g with TimeoutCmds := (g.Timeout cmds).1.TimeoutCmds } := by
  refine ⟨?_, ?_, ?_, ?_, ?_⟩
  · rw [(TaskGroup.SetupGroup_as_Command cmds g { Commands := g.SetupGroupCmds } rfl).1]
  · rw [(TaskGroup.SetupTask_as_Command cmds g { Commands := g.SetupTaskCmds } rfl).1]
  · rw [(TaskGroup.TeardownTask_as_Command cmds g { Commands := g.TeardownTaskCmds } rfl).1]
  · rw [(TaskGroup.TeardownGroup_as_Command cmds g { Commands := g.TeardownGroupCmds } rfl).1]
  · rw [(TaskGroup.Timeout_as_Command cmds g { Commands := g.TimeoutCmds } rfl).1]

/-- C25: the list appenders neither deduplicate nor reorder: `Task.Dependency`,
`TaskGroup.Task`, `TaskGroup.Tag` and `Variant.DisplayTasks` set their list to
the old list followed by the arguments, `Variant.TaskSpec` to the old list
followed by the one argument; the length grows by the number of arguments,
whether or not an argument equals an element already present, and no other
field changes. -/
theorem list_appenders_concat (t : Task) (g : TaskGroup) (v : Variant)
    (dep : List TaskDependency) (ids tags : List String) (defs : List DisplayTaskDefinition)
    (spec : Shrub.TaskSpec) :
    (t.Dependency dep = { t with Dependencies := t.Dependencies ++ dep } ∧
      (t.Dependency dep).Dependencies.length = t.Dependencies.length + dep.length) ∧
    (g.Task ids = { g with Tasks := g.Tasks ++ ids } ∧
      (g.Task ids).Tasks.length = g.Tasks.length + ids.length) ∧
    (g.Tag tags = { g with Tags := g.Tags ++ tags } ∧
      (g.Tag tags).Tags.length = g.Tags.length + tags.length) ∧
    (v.DisplayTasks defs = { v with DisplayTaskSpecs := v.DisplayTaskSpecs ++ defs } ∧
      (v.DisplayTasks defs).DisplayTaskSpecs.length = v.DisplayTaskSpecs.length + defs.length) ∧
    (v.TaskSpec spec = { v with TaskSpecs := v.TaskSpecs ++ [spec] } ∧
      (v.TaskSpec spec).TaskSpecs.length = v.TaskSpecs.length + 1) ∧
    ((Task.Dependency {} [{ Name := "foo" }]).Dependency
      [{ Name := "foo" }, { Name := "bar" }]).Dependencies =
        [{ Name := "foo" }, { Name := "foo" }, { Name := "bar" }] := by
  refine ⟨⟨rfl, ?_⟩, ⟨rfl, ?_⟩, ⟨rfl, ?_⟩, ⟨rfl, ?_⟩, ⟨rfl, ?_⟩, rfl⟩
  · simp [Task.Dependency]
  · simp [TaskGroup.Task]
  · simp [TaskGroup.Tag]
  · simp [Variant.DisplayTasks]
  · simp [Variant.TaskSpec]

theorem Variant.AddTasks_eq (name : List String) :
    ∀ v : Variant, v.AddTasks name =
      { v with TaskSpecs := v.TaskSpecs ++ (name.filter (fun n => n ≠ "")).map (fun n =>
          ({ Name := n, Stepback := false, Distro := [], Activate := none } :
            Shrub.TaskSpec)) } := by
  induction name with
  | nil => intro v; cases v; simp [Variant.AddTasks]
  | cons n name ih =>
    intro v
    unfold Variant.AddTasks
    by_cases h : n = ""
    · rw [if_pos h, ih v]
      simp [h]
    · rw [if_neg h, ih]
      simp [h]

/-- C26: `Variant.AddTasks` sets `TaskSpecs` to the old list followed by one
`TaskSpec` per non-empty name, in argument order; an empty name is skipped, a
repeated name is appended each time, an appended `TaskSpec` has only its name
set, and no other field changes. `AddTasks("", "", "")` changes nothing and
`AddTasks("one", "one", "one")` adds three. -/
theorem addTasks_appends_nonempty (v : Variant) (name : List String) :
    v.AddTasks name =
      { v with TaskSpecs := v.TaskSpecs ++ (name.filter (fun n => n ≠ "")).map (fun n =>
          ({ Name := n, Stepback := false, Distro := [], Activate := none } :
            Shrub.TaskSpec)) } ∧
    v.AddTasks ["", "", ""] = v ∧
    (v.AddTasks ["one", "one", "one"]).TaskSpecs =
      v.TaskSpecs ++ [{ Name := "one" }, { Name := "one" }, { Name := "one" }] := by
  refine ⟨Variant.AddTasks_eq name v, ?_, ?_⟩
  · rw [Variant.AddTasks_eq]
    cases v; simp
  · rw [Variant.AddTasks_eq]
    simp

/-- C27: each single-valued setter overwrites exactly one field: after the call
the targeted field holds the argument, whatever it held before, and every other
field of the receiver is as before. Setting the priority to 9001 and then to 0
leaves 0. -/
theorem setters_overwrite_one_field (t : Task) (g : TaskGroup) (v : Variant)
    (ts : Shrub.TaskSpec) (n : Int) (b : Bool) (id : String) (ob : Option Bool)
    (m : Option (List (String × JSONValue))) (distros : List String) :
    t.Priority n = { Name := t.Name, PriorityOverride := n, Dependencies := t.Dependencies,
                     Commands := t.Commands } ∧
    ((t.Priority 9001).Priority 0).PriorityOverride = 0 ∧
    g.Name id = { g with GroupName := id } ∧ (g.Name id).GroupName = id ∧
    g.SetMaxHosts n = { g with MaxHosts := n } ∧ (g.SetMaxHosts n).MaxHosts = n ∧
    g.SetShareProcesses b = { g with ShareProcesses := b } ∧
    (g.SetShareProcesses b).ShareProcesses = b ∧
    g.SetSetupGroupCanFailTask b = { g with SetupGroupCanFailTask := b } ∧
    (g.SetSetupGroupCanFailTask b).SetupGroupCanFailTask = b ∧
    g.SetSetupGroupTimeoutSecs n = { g with SetupGroupTimeoutSecs := n } ∧
    (g.SetSetupGroupTimeoutSecs n).SetupGroupTimeoutSecs = n ∧
    v.Name id = { v with BuildName := id } ∧ (v.Name id).BuildName = id ∧
    v.DisplayName id = { v with BuildDisplayName := id } ∧
    (v.DisplayName id).BuildDisplayName = id ∧
    v.BatchTime n = { v with BatchTimeSecs := n } ∧ (v.BatchTime n).BatchTimeSecs = n ∧
    v.SetCronBatchTime id = { v with CronBatchTime := id } ∧
    (v.SetCronBatchTime id).CronBatchTime = id ∧
    v.SetStepback ob = { v with Stepback := ob } ∧ (v.SetStepback ob).Stepback = ob ∧
    v.SetActivate ob = { v with Activate := ob } ∧ (v.SetActivate ob).Activate = ob ∧
    v.SetExpansions m = { v with Expansions := m } ∧ (v.SetExpansions m).Expansions = m ∧
    ts.SetName id = { Name := id, Stepback := ts.Stepback, Distro := ts.Distro,
                      Activate := ts.Activate } ∧
    ts.SetStepback b = { Name := ts.Name, Stepback := b, Distro := ts.Distro,
                         Activate := ts.Activate } ∧
    ts.SetDistros distros = { Name := ts.Name, Stepback := ts.Stepback, Distro := distros,
                              Activate := ts.Activate } :=
  ⟨rfl, rfl, rfl, rfl, rfl, rfl, rfl, rfl, rfl, rfl, rfl, rfl, rfl, rfl, rfl, rfl, rfl, rfl, rfl,
    rfl, rfl, rfl, rfl, rfl, rfl, rfl, rfl, rfl, rfl⟩

theorem Task.Command_length_of_return (cmds : List Shrub.Command) :
    ∀ t : Task, (t.Command cmds).2 = none →
      (t.Command cmds).1.Commands.length = t.Commands.length + cmds.length := by
  induction cmds with
  | nil => intro t _; rfl
  | cons c cmds ih =>
    intro t h
    cases hv : c.Validate with
    | some err =>
      rw [Task.Command_cons_invalid t c cmds err hv] at h
      exact Option.noConfusion h
    | none =>
      obtain ⟨d0, hr⟩ : ∃ d0, c.Resolve = Except.ok d0 := by
        obtain ⟨n, _, hr⟩ := Command.resolve_of_valid c hv
        exact ⟨_, hr⟩
      rw [Task.Command_cons_valid t c cmds d0 hv hr] at h ⊢
      rw [ih _ h]
      simp only [List.length_append, List.length_cons, List.length_nil]
      omega

/-- C28: each of the five adders of a task group behaves on its own sequence as
`Task.Command` behaves on `Commands`. Started on the same sequence `s` with the
same arguments, the adder and `Task.Command` end with the same sequence and the
same outcome: both panic with the same value, leaving the same partly extended
sequence, or both return; when they return the sequence has grown by the number
of arguments. On a fresh group the lengths go 0, 1, 2, 4 as in the tests, and
`CmdS3Put{}` then panics. -/
theorem adders_refine_command (s : CommandSequence) (g : TaskGroup) (t : Task)
    (cmds : List Shrub.Command) :
    ((({ g with SetupGroupCmds := s } : TaskGroup).SetupGroup cmds).1.SetupGroupCmds =
        (({ t with Commands := s } : Task).Command cmds).1.Commands ∧
      (({ g with SetupGroupCmds := s } : TaskGroup).SetupGroup cmds).2 =
        (({ t with Commands := s } : Task).Command cmds).2) ∧
    ((({ g with SetupTaskCmds := s } : TaskGroup).SetupTask cmds).1.SetupTaskCmds =
        (({ t with Commands := s } : Task).Command cmds).1.Commands ∧
      (({ g with SetupTaskCmds := s } : TaskGroup).SetupTask cmds).2 =
        (({ t with Commands := s } : Task).Command cmds).2) ∧
    ((({ g with TeardownTaskCmds := s } : TaskGroup).TeardownTask cmds).1.TeardownTaskCmds =
        (({ t with Commands := s } : Task).Command cmds).1.Commands ∧
      (({ g with TeardownTaskCmds := s } : TaskGroup).TeardownTask cmds).2 =
        (({ t with Commands := s } : Task).Command cmds).2) ∧
    ((({ g with TeardownGroupCmds := s } : TaskGroup).TeardownGroup cmds).1.TeardownGroupCmds =
        (({ t with Commands := s } : Task).Command cmds).1.Commands ∧
      (({ g with TeardownGroupCmds := s } : TaskGroup).TeardownGroup cmds).2 =
        (({ t with Commands := s } : Task).Command cmds).2) ∧
    ((({ g with TimeoutCmds := s } : TaskGroup).Timeout cmds).1.TimeoutCmds =
        (({ t with Commands := s } : Task).Command cmds).1.Commands ∧
      (({ g with TimeoutCmds := s } : TaskGroup).Timeout cmds).2 =
        (({ t with Commands := s } : Task).Command cmds).2) ∧
    ((({ t with Commands := s } : Task).Command cmds).2 = none →
      (({ t with Commands := s } : Task).Command cmds).1.Commands.length =
        s.length + cmds.length) ∧
    ((TaskGroup.SetupGroup {} []).1.SetupGroupCmds.length = 0 ∧
      (TaskGroup.SetupGroup {} [.execShell {}]).1.SetupGroupCmds.length = 1 ∧
      (TaskGroup.SetupGroup (TaskGroup.SetupGroup {} [.execShell {}]).1
        [.exec {}]).1.SetupGroupCmds.length = 2 ∧
      (TaskGroup.SetupGroup (TaskGroup.SetupGroup (TaskGroup.SetupGroup {}
        [.execShell {}]).1 [.exec {}]).1 [.execShell {}, .exec {}]).1.SetupGroupCmds.length = 4 ∧
      (TaskGroup.SetupGroup (TaskGroup.SetupGroup (TaskGroup.SetupGroup (TaskGroup.SetupGroup {}
        [.execShell {}]).1 [.exec {}]).1 [.execShell {}, .exec {}]).1 [.s3Put {}]) =
        ((TaskGroup.SetupGroup (TaskGroup.SetupGroup (TaskGroup.SetupGroup {}
          [.execShell {}]).1 [.exec {}]).1 [.execShell {}, .exec {}]).1,
          some (some "must specify aws credentials"))) := by
  refine ⟨?_, ?_, ?_, ?_, ?_, ?_, ⟨rfl, rfl, rfl, rfl, rfl⟩⟩
  · have h := TaskGroup.SetupGroup_as_Command cmds { g with SetupGroupCmds := s }
      { t with Commands := s } rfl
    exact ⟨by rw [h.1], h.2⟩
  · have h := TaskGroup.SetupTask_as_Command cmds { g with SetupTaskCmds := s }
      { t with Commands := s } rfl
    exact ⟨by rw [h.1], h.2⟩
  · have h := TaskGroup.TeardownTask_as_Command cmds { g with TeardownTaskCmds := s }
      { t with Commands := s } rfl
    exact ⟨by rw [h.1], h.2⟩
  · have h := TaskGroup.TeardownGroup_as_Command cmds { g with TeardownGroupCmds := s }
      { t with Commands := s } rfl
    exact ⟨by rw [h.1], h.2⟩
  · have h := TaskGroup.Timeout_as_Command cmds { g with TimeoutCmds := s }
      { t with Commands := s } rfl
    exact ⟨by rw [h.1], h.2⟩
  · intro h
    exact Task.Command_length_of_return cmds { t with Commands := s } h

/-- Witness of C28: two valid commands after a sequence of one definition
return from `Task.Command`, and the sequence has three definitions. -/
theorem adders_refine_command_witness :
    (Task.Command { Commands := [{ FunctionName := "f" }] }
      [.exec {}, .execShell {}]).2 = none ∧
    (Task.Command { Commands := [{ FunctionName := "f" }] }
      [.exec {}, .execShell {}]).1.Commands.length = 1 + 2 ∧
    (TaskGroup.Timeout { TimeoutCmds := [{ FunctionName := "f" }] }
      [.exec {}, .execShell {}]).1.TimeoutCmds =
      (Task.Command { Commands := [{ FunctionName := "f" }] }
        [.exec {}, .execShell {}]).1.Commands :=
  have h := adders_refine_command [{ FunctionName := "f" }] {} {} [.exec {}, .execShell {}]
  ⟨rfl, h.2.2.2.2.2.1 rfl, h.2.2.2.2.1.1⟩

theorem Task.Command_append (xs ys : List Shrub.Command) :
    ∀ t : Task, (∀ c ∈ xs, c.Validate = none) →
      (t.Command xs).2 = none ∧ (t.Command xs).1.Command ys = t.Command (xs ++ ys) := by
  induction xs with
  | nil => intro t _; exact ⟨rfl, rfl⟩
  | cons c xs ih =>
    intro t h
    have hc : c.Validate = none := h c (List.mem_cons_self _ _)
    obtain ⟨d0, hr⟩ : ∃ d0, c.Resolve = Except.ok d0 := by
      obtain ⟨n, _, hr⟩ := Command.resolve_of_valid c hc
      exact ⟨_, hr⟩
    rw [List.cons_append, Task.Command_cons_valid t c xs d0 hc hr,
      Task.Command_cons_valid t c (xs ++ ys) d0 hc hr]
    exact ih _ (fun x hx => h x (List.mem_cons_of_mem _ hx))

/-- C29: chained attach calls compose like list concatenation:
`t.Function(xs...).Function(ys...)` is the task `t.Function((xs ++ ys)...)`,
`t.Dependency(xs...).Dependency(ys...)` is `t.Dependency((xs ++ ys)...)`, and
when every command of `xs` is valid, `t.Command(xs...)` returns and
`t.Command(xs...).Command(ys...)` ends as `t.Command((xs ++ ys)...)` does, in
particular when every command of `ys` is valid too. -/
theorem chained_attach_concat (t : Task) (xs ys : List String) (ds es : List TaskDependency)
    (cs1 cs2 : List Shrub.Command) :
    (t.Function xs).Function ys = t.Function (xs ++ ys) ∧
    (t.Dependency ds).Dependency es = t.Dependency (ds ++ es) ∧
    ((∀ c ∈ cs1, c.Validate = none) →
      (t.Command cs1).2 = none ∧ (t.Command cs1).1.Command cs2 = t.Command (cs1 ++ cs2)) := by
  refine ⟨?_, ?_, Task.Command_append cs1 cs2 t⟩
  · rw [Task.Function_eq xs t, Task.Function_eq ys, Task.Function_eq (xs ++ ys) t]
    simp
  · simp [Task.Dependency]

/-- Witness of C29: the chain of the tests, `Command(CmdExec{}, CmdExec{})` and
then `Command(CmdExec{})`, leaves three definitions. -/
theorem chained_attach_concat_witness :
    (Task.Command {} [.exec {}, .exec {}]).2 = none ∧
    (Task.Command {} [.exec {}, .exec {}]).1.Command [.exec {}] =
      Task.Command {} ([.exec {}, .exec {}] ++ [.exec {}]) ∧
    ((Task.Command {} [.exec {}, .exec {}]).1.Command [.exec {}]).1.Commands.length = 3 :=
  have h := (chained_attach_concat {} [] [] [] [] [.exec {}, .exec {}] [.exec {}]).2.2
    (by decide)
  ⟨h.1, h.2, rfl⟩

theorem length_mapSet_of_absent {β : Type} (m : List (String × β)) (k : String) (v : β)
    (h : mapGet m k = none) : (mapSet m k v).length = m.length + 1 := by
  have h2 := congrArg List.length (mapSet_keys_of_absent m k v h)
  simpa using h2

theorem length_mapSet_of_present {β : Type} (m : List (String × β)) (k : String) (v : β)
    (h : mapGet m k ≠ none) : (mapSet m k v).length = m.length := by
  induction m with
  | nil => exact absurd rfl h
  | cons kv m ih =>
    obtain ⟨k0, v0⟩ := kv
    unfold mapSet
    by_cases h0 : k0 = k
    · rw [if_pos h0]; rfl
    · rw [if_neg h0]
      have h2 : mapGet m k ≠ none := by
        unfold mapGet at h
        rw [if_neg h0] at h
        exact h
      simp [ih h2]

theorem Variant.Expansion_of_nil (v : Variant) (k : String) (val : JSONValue)
    (h : v.Expansions = none) :
    v.Expansion k val = { v with Expansions := some [(k, val)] } := by
  simp [Variant.Expansion, h, mapSet]

theorem Variant.Expansion_of_map (v : Variant) (k : String) (val : JSONValue)
    (m : List (String × JSONValue)) (h : v.Expansions = some m) :
    v.Expansion k val = { v with Expansions := some (mapSet m k val) } := by
  simp [Variant.Expansion, h]

/-- C30: `Variant.Expansion(k, val)` returns for every variant, a nil map being
replaced by an empty one first; afterwards `k` maps to `val`, every other key
maps to what it mapped to before, the number of entries has grown by one when
`k` was absent and is unchanged when it was present, and no other field has
changed. `SetExpansions(m)` replaces the whole mapping by `m`, whatever it held,
and `SetExpansions(nil)` leaves it nil. -/
theorem expansion_sets_one_key (v : Variant) (k : String) (val : JSONValue)
    (m : Option (List (String × JSONValue))) :
    (v.Expansion k val).lookupExpansion k = some val ∧
    (∀ k2, k2 ≠ k → (v.Expansion k val).lookupExpansion k2 = v.lookupExpansion k2) ∧
    (v.lookupExpansion k = none →
      (v.Expansion k val).numExpansions = v.numExpansions + 1) ∧
    (v.lookupExpansion k ≠ none → (v.Expansion k val).numExpansions = v.numExpansions) ∧
    (v.Expansion k val).Expansions ≠ none ∧
    v.Expansion k val = { v with Expansions := (v.Expansion k val).Expansions } ∧
    v.SetExpansions m = { v with Expansions := m } ∧
    (v.SetExpansions m).Expansions = m ∧
    (v.SetExpansions none).Expansions = none := by
  refine ⟨?_, ?_, ?_, ?_, ?_, ?_, rfl, rfl, rfl⟩
  · cases h : v.Expansions with
    | none =>
      rw [Variant.Expansion_of_nil v k val h]
      simp [Variant.lookupExpansion, mapGet]
    | some m0 =>
      rw [Variant.Expansion_of_map v k val m0 h]
      exact mapGet_mapSet_self m0 k val
  · intro k2 hk
    cases h : v.Expansions with
    | none =>
      rw [Variant.Expansion_of_nil v k val h]
      have h2 : ¬ k = k2 := fun e => hk e.symm
      simp [Variant.lookupExpansion, mapGet, h, h2]
    | some m0 =>
      rw [Variant.Expansion_of_map v k val m0 h]
      simp only [Variant.lookupExpansion, h]
      exact mapGet_mapSet_other m0 k k2 val hk
  · intro habs
    cases h : v.Expansions with
    | none =>
      rw [Variant.Expansion_of_nil v k val h]
      simp [Variant.numExpansions, h]
    | some m0 =>
      rw [Variant.Expansion_of_map v k val m0 h]
      simp only [Variant.lookupExpansion, h] at habs
      simp only [Variant.numExpansions, h]
      exact length_mapSet_of_absent m0 k val habs
  · intro hpres
    cases h : v.Expansions with
    | none =>
      simp [Variant.lookupExpansion, h] at hpres
    | some m0 =>
      rw [Variant.Expansion_of_map v k val m0 h]
      simp only [Variant.lookupExpansion, h] at hpres
      simp only [Variant.numExpansions, h]
      exact length_mapSet_of_present m0 k val hpres
  · cases h : v.Expansions with
    | none =>
      rw [Variant.Expansion_of_nil v k val h]
      exact fun e => Option.noConfusion e
    | some m0 =>
      rw [Variant.Expansion_of_map v k val m0 h]
      exact fun e => Option.noConfusion e
  · rfl

/-- Witness of C30: a new key on a variant whose map is nil, an override of a
key that is present, and a key next to another one. -/
theorem expansion_sets_one_key_witness :
    (Variant.Expansion {} "a" (JSONValue.string "1")).numExpansions = 0 + 1 ∧
    (Variant.Expansion { Expansions := some [("a", JSONValue.string "1")] } "a"
      (JSONValue.string "2")).numExpansions = 1 ∧
    (Variant.Expansion { Expansions := some [("a", JSONValue.string "1")] } "a"
      (JSONValue.string "2")).lookupExpansion "a" = some (JSONValue.string "2") ∧
    (Variant.Expansion { Expansions := some [("a", JSONValue.string "1")] } "b"
      (JSONValue.number 2)).lookupExpansion "a" = some (JSONValue.string "1") :=
  ⟨(expansion_sets_one_key {} "a" (JSONValue.string "1") none).2.2.1 rfl,
    (expansion_sets_one_key { Expansions := some [("a", JSONValue.string "1")] } "a"
      (JSONValue.string "2") none).2.2.2.1 (fun e => Option.noConfusion e),
    (expansion_sets_one_key { Expansions := some [("a", JSONValue.string "1")] } "a"
      (JSONValue.string "2") none).1,
    (expansion_sets_one_key { Expansions := some [("a", JSONValue.string "1")] } "b"
      (JSONValue.number 2) none).2.1 "a" (by decide)⟩

/-! ## Wire names of the parameters of `s3.put` -/

/-- A valid `CmdS3Put` resolves to the definition named "s3.put" whose
parameters are the decoded document. -/
theorem s3Put_resolve_of_valid (c : CmdS3Put) (h : c.Validate = none) :
    c.Resolve = Except.ok
      { FunctionName := "", CommandName := "s3.put",
        Params := some (Command.toParams (.s3Put c)), Vars := none } := by
  have hx : exportCmd (.s3Put c) = Except.ok (Command.toParams (.s3Put c)) := by
    simp [exportCmd, Command.Validate, h]
  simp only [CmdS3Put.Resolve, hx]
  rfl

/-- C31, as stated, fails: the `CmdS3Put` whose `CredKey` is the single byte
`0xFF`, with a secret and a local file, is valid, and the mapping of its
resolution holds under "aws_key" the text U+FFFD, whose encoding is not the
`CredKey` of the command. -/
theorem s3Put_credential_bytes_replaced :
    ∃ d m,
      CmdS3Put.Validate { CredKey := ⟨[0xFF]⟩, CredSecret := "s", LocalFile := "f" } = none ∧
      CmdS3Put.Resolve { CredKey := ⟨[0xFF]⟩, CredSecret := "s", LocalFile := "f" } =
        Except.ok d ∧
      d.Params = some m ∧
      mapGet m "aws_key" = some (JSONValue.string "\uFFFD") ∧
      GoString.ofString "\uFFFD" ≠ ⟨[0xFF]⟩ :=
  ⟨_, _, by decide, rfl, rfl, rfl, by decide⟩

/-- C31, amended: for every valid `CmdS3Put` c, `c.Resolve()` returns a
definition whose parameter mapping holds the text of `CredKey` under
"aws_key", of `CredSecret` under "aws_secret", of `LocalFile`, `Bucket` and
`RemoteFile` under "local_file", "bucket" and "remote_file", and under
"local_files_include_filter" null for a nil `LocalFileIncludeFilter` and
otherwise the array of the texts of its elements. The text of a string is what
the JSON round trip returns for it: a field that is the UTF-8 encoding of a
text t is stored as t; in general every encoding of a code point is stored as
that code point and every byte at which no such encoding starts as U+FFFD. No
key of the mapping is a Go field identifier of the struct or one of
"cred_key", "cred_secret", "local_file_include_filter", and these three are
exactly the yaml names that are not keys. -/
theorem s3Put_params_use_wire_names (c : CmdS3Put) (h : c.Validate = none) :
    ∃ d m, c.Resolve = Except.ok d ∧ d.Params = some m ∧
      (mapGet m "aws_key" = some (JSONValue.string c.CredKey.jsonText) ∧
        mapGet m "aws_secret" = some (JSONValue.string c.CredSecret.jsonText) ∧
        mapGet m "local_file" = some (JSONValue.string c.LocalFile.jsonText) ∧
        mapGet m "bucket" = some (JSONValue.string c.Bucket.jsonText) ∧
        mapGet m "remote_file" = some (JSONValue.string c.RemoteFile.jsonText) ∧
        (c.LocalFileIncludeFilter = none →
          mapGet m "local_files_include_filter" = some JSONValue.null) ∧
        (∀ xs, c.LocalFileIncludeFilter = some xs →
          mapGet m "local_files_include_filter" =
            some (JSONValue.array (xs.map (fun x => JSONValue.string x.jsonText))))) ∧
      ((∀ t : String, c.CredKey = GoString.ofString t →
          mapGet m "aws_key" = some (JSONValue.string t)) ∧
        (∀ t : String, c.CredSecret = GoString.ofString t →
          mapGet m "aws_secret" = some (JSONValue.string t)) ∧
        (∀ t : String, c.LocalFile = GoString.ofString t →
          mapGet m "local_file" = some (JSONValue.string t)) ∧
        (∀ t : String, c.Bucket = GoString.ofString t →
          mapGet m "bucket" = some (JSONValue.string t)) ∧
        (∀ t : String, c.RemoteFile = GoString.ofString t →
          mapGet m "remote_file" = some (JSONValue.string t)) ∧
        (∀ ts : List String, c.LocalFileIncludeFilter = some (ts.map GoString.ofString) →
          mapGet m "local_files_include_filter" =
            some (JSONValue.array (ts.map JSONValue.string)))) ∧
      ((∀ (r : Char) (s : List Byte),
          GoString.jsonText ⟨encodeRune r ++ s⟩ = ⟨r :: (GoString.jsonText ⟨s⟩).data⟩) ∧
        (∀ (b : Byte) (s : List Byte), (∀ r tail, b :: s ≠ encodeRune r ++ tail) →
          GoString.jsonText ⟨b :: s⟩ = ⟨runeError :: (GoString.jsonText ⟨s⟩).data⟩)) ∧
      (∀ k ∈ d.paramKeys, k ∉ CmdS3Put.fieldNames ∧
        k ∉ ["cred_key", "cred_secret", "local_file_include_filter"]) ∧
      (∀ k ∈ CmdS3Put.yamlNames,
        k ∉ d.paramKeys ↔ k ∈ ["cred_key", "cred_secret", "local_file_include_filter"]) := by
  have hk : CommandDefinition.paramKeys
      { FunctionName := "", CommandName := "s3.put",
        Params := some (Command.toParams (.s3Put c)), Vars := none } =
      Command.wireNames (.s3Put c) := by
    simp only [CommandDefinition.paramKeys]
    exact Command.toParams_keys _
  have g1 : mapGet (Command.toParams (.s3Put c)) "aws_key" =
      some (JSONValue.string c.CredKey.jsonText) := by simp [Command.toParams, mapGet]
  have g2 : mapGet (Command.toParams (.s3Put c)) "aws_secret" =
      some (JSONValue.string c.CredSecret.jsonText) := by simp [Command.toParams, mapGet]
  have g3 : mapGet (Command.toParams (.s3Put c)) "local_file" =
      some (JSONValue.string c.LocalFile.jsonText) := by simp [Command.toParams, mapGet]
  have g4 : mapGet (Command.toParams (.s3Put c)) "bucket" =
      some (JSONValue.string c.Bucket.jsonText) := by simp [Command.toParams, mapGet]
  have g5 : mapGet (Command.toParams (.s3Put c)) "remote_file" =
      some (JSONValue.string c.RemoteFile.jsonText) := by simp [Command.toParams, mapGet]
  have g6 : mapGet (Command.toParams (.s3Put c)) "local_files_include_filter" =
      some (JSONValue.ofStrings c.LocalFileIncludeFilter) := by simp [Command.toParams, mapGet]
  refine ⟨_, _, s3Put_resolve_of_valid c h, rfl, ⟨g1, g2, g3, g4, g5, ?_, ?_⟩,
    ⟨?_, ?_, ?_, ?_, ?_, ?_⟩,
    ⟨GoString.jsonText_of_encoding, GoString.jsonText_of_invalid⟩, ?_, ?_⟩
  · intro hn
    rw [g6, hn]
    rfl
  · intro xs hx
    rw [g6, hx]
    rfl
  · intro t ht
    rw [g1, ht, GoString.jsonText_ofString]
  · intro t ht
    rw [g2, ht, GoString.jsonText_ofString]
  · intro t ht
    rw [g3, ht, GoString.jsonText_ofString]
  · intro t ht
    rw [g4, ht, GoString.jsonText_ofString]
  · intro t ht
    rw [g5, ht, GoString.jsonText_ofString]
  · intro ts ht
    rw [g6, ht, JSONValue.ofStrings_ofString]
  · rw [hk]
    simp only [Command.wireNames, CmdS3Put.fieldNames]
    decide
  · rw [hk]
    simp only [Command.wireNames, CmdS3Put.yamlNames]
    decide

/-- Witness of the amended C31: an upload of one file with the credentials, the
bucket and the remote name set. -/
theorem s3Put_params_use_wire_names_witness :
    ({ CredKey := "k", CredSecret := "s", LocalFile := "f", Bucket := "b",
       RemoteFile := "r" } : CmdS3Put).Validate = none ∧
    ∃ d m,
      ({ CredKey := "k", CredSecret := "s", LocalFile := "f", Bucket := "b",
         RemoteFile := "r" } : CmdS3Put).Resolve = Except.ok d ∧ d.Params = some m ∧
      mapGet m "aws_key" = some (JSONValue.string "k") ∧
      mapGet m "aws_secret" = some (JSONValue.string "s") ∧
      mapGet m "local_files_include_filter" = some JSONValue.null ∧
      mapGet m "local_file" = some (JSONValue.string "f") ∧
      mapGet m "bucket" = some (JSONValue.string "b") ∧
      mapGet m "remote_file" = some (JSONValue.string "r") ∧
      (∀ k ∈ d.paramKeys, k ∉ CmdS3Put.fieldNames ∧
        k ∉ ["cred_key", "cred_secret", "local_file_include_filter"]) := by
  refine ⟨by decide, ?_⟩
  obtain ⟨d, m, hr, hp, hv, ht, -, hk, -⟩ := s3Put_params_use_wire_names
    { CredKey := "k", CredSecret := "s", LocalFile := "f", Bucket := "b", RemoteFile := "r" }
    (by decide)
  exact ⟨d, m, hr, hp, ht.1 "k" rfl, ht.2.1 "s" rfl, hv.2.2.2.2.2.1 rfl, ht.2.2.1 "f" rfl,
    ht.2.2.2.1 "b" rfl, ht.2.2.2.2.1 "r" rfl, hk⟩

/-! ## The keys of the parameter mapping -/

/-- Commands held in the same struct type have the same wire names. -/
theorem Command.wireNames_of_typeName (c c2 : Command) (ht : c.typeName = c2.typeName) :
    c.wireNames = c2.wireNames := by
  cases c <;> cases c2 <;>
    first
    | rfl
    | (simp only [Command.typeName] at ht; exact absurd ht (by decide))

/-- A valid command resolves to a definition whose keys are the wire names of
its struct type, whose parameters are the decoded document and whose name is
the one `Name` returns. -/
theorem Command.paramKeys_of_valid (c : Command) (h : c.Validate = none) :
    ∃ d, c.Resolve = Except.ok d ∧ d.paramKeys = c.wireNames ∧
      d.Params = some c.toParams ∧ c.Name = Except.ok d.CommandName ∧
      d.FunctionName = "" ∧ d.Vars = none := by
  obtain ⟨n, hn, hr⟩ := Command.resolve_of_valid c h
  refine ⟨_, hr, ?_, rfl, hn, rfl, rfl⟩
  simp only [CommandDefinition.paramKeys]
  exact Command.toParams_keys c

/-- The decoded document of a `CmdResultsGoTest` depends on `Files` alone. -/
theorem goTest_toParams_of_files (g g2 : CmdResultsGoTest) (hf : g.Files = g2.Files) :
    Command.toParams (.resultsGoTest g) = Command.toParams (.resultsGoTest g2) := by
  simp only [Command.toParams, hf]

/-- C32: the keys of the parameter mapping are fixed per command variant: two
valid commands of the same struct type resolve to definitions with the same
keys; a `CmdExec` always resolves to the same 13 distinct keys; a valid
`CmdResultsGoTest` resolves to the single key "files"; a valid
`CmdArchiveCreate` or `CmdArchiveExtract` resolves to a mapping without the
key "format"; and two valid gotest commands with equal `Files` resolve to
definitions equal in everything but `CommandName`, which differs when their
flags differ. -/
theorem param_keys_fixed_per_variant (c c2 : Command) (x : CmdExec)
    (g g2 : CmdResultsGoTest) (a : CmdArchiveCreate) (e : CmdArchiveExtract) :
    (c.Validate = none → c2.Validate = none → c.typeName = c2.typeName →
      ∃ d d2, c.Resolve = Except.ok d ∧ c2.Resolve = Except.ok d2 ∧
        d.paramKeys = d2.paramKeys) ∧
    (∃ d, x.Resolve = Except.ok d ∧
      d.paramKeys =
        ["background", "silent", "continue_on_err", "system_log",
         "redirect_standard_error_to_output", "ignore_standard_error", "ignore_standard_out",
         "keep_empty_args", "working_dir", "command", "binary", "args", "env"] ∧
      d.paramKeys.length = 13 ∧ d.paramKeys.Nodup) ∧
    (g.Validate = none → ∃ d, g.Resolve = Except.ok d ∧ d.paramKeys = ["files"]) ∧
    (a.Validate = none → ∃ d, a.Resolve = Except.ok d ∧
      d.paramKeys = ["target", "source_dir", "include", "exclude_files"] ∧
      "format" ∉ d.paramKeys) ∧
    (e.Validate = none → ∃ d, e.Resolve = Except.ok d ∧
      d.paramKeys = ["path", "destination", "exclude_files"] ∧
      "format" ∉ d.paramKeys) ∧
    (g.Validate = none → g2.Validate = none → g.Files = g2.Files →
      ∃ d d2, g.Resolve = Except.ok d ∧ g2.Resolve = Except.ok d2 ∧
        d.Params = d2.Params ∧ d.FunctionName = d2.FunctionName ∧ d.Vars = d2.Vars ∧
        ((g.JSONFormat ≠ g2.JSONFormat ∨ g.LegacyFormat ≠ g2.LegacyFormat) →
          d.CommandName ≠ d2.CommandName)) := by
  refine ⟨?_, ?_, ?_, ?_, ?_, ?_⟩
  · intro h h2 ht
    obtain ⟨d, hr, hk, -⟩ := Command.paramKeys_of_valid c h
    obtain ⟨d2, hr2, hk2, -⟩ := Command.paramKeys_of_valid c2 h2
    exact ⟨d, d2, hr, hr2, by rw [hk, hk2, Command.wireNames_of_typeName c c2 ht]⟩
  · obtain ⟨d, hr, hk, -⟩ := Command.paramKeys_of_valid (.exec x) rfl
    refine ⟨d, hr, hk, ?_, ?_⟩
    · rw [hk]; rfl
    · rw [hk]; simp only [Command.wireNames]; decide
  · intro h
    obtain ⟨d, hr, hk, -⟩ := Command.paramKeys_of_valid (.resultsGoTest g) h
    exact ⟨d, hr, hk⟩
  · intro h
    obtain ⟨d, hr, hk, -⟩ := Command.paramKeys_of_valid (.archiveCreate a) h
    refine ⟨d, hr, hk, ?_⟩
    rw [hk]; simp only [Command.wireNames]; decide
  · intro h
    obtain ⟨d, hr, hk, -⟩ := Command.paramKeys_of_valid (.archiveExtract e) h
    refine ⟨d, hr, hk, ?_⟩
    rw [hk]; simp only [Command.wireNames]; decide
  · intro h h2 hf
    obtain ⟨d, hr, -, hp, hn, hfn, hv⟩ := Command.paramKeys_of_valid (.resultsGoTest g) h
    obtain ⟨d2, hr2, -, hp2, hn2, hfn2, hv2⟩ :=
      Command.paramKeys_of_valid (.resultsGoTest g2) h2
    refine ⟨d, d2, hr, hr2, ?_, by rw [hfn, hfn2], by rw [hv, hv2], ?_⟩
    · rw [hp, hp2, goTest_toParams_of_files g g2 hf]
    · intro hne hnames
      simp only [Command.Name, CmdResultsGoTest.Name] at hn hn2
      rw [← hnames] at hn2
      have hl := (goTest_validate_eq_none g).1 h
      have hl2 := (goTest_validate_eq_none g2).1 h2
      rcases hl with ⟨hj, hl⟩ | ⟨hj, hl⟩ <;> rcases hl2 with ⟨hj2, hl2⟩ | ⟨hj2, hl2⟩
      · rw [hj, hj2, hl, hl2] at hne; simp at hne
      · rw [hl] at hn; rw [hl2] at hn2
        have hc := Except.ok.inj (hn.trans hn2.symm)
        exact absurd hc (by decide)
      · rw [hl] at hn; rw [hl2] at hn2
        have hc := Except.ok.inj (hn.trans hn2.symm)
        exact absurd hc (by decide)
      · rw [hj, hj2, hl, hl2] at hne; simp at hne

/-- Witness of C32: two `s3.push` commands with different field values, a
`CmdExec`, a zip creation, an auto extraction, and two gotest commands over the
same files, one in each encoding. -/
theorem param_keys_fixed_per_variant_witness :
    (∃ d d2, Command.Resolve (.s3Push { MaxRetries := 3 }) = Except.ok d ∧
      Command.Resolve (.s3Push {}) = Except.ok d2 ∧ d.paramKeys = d2.paramKeys) ∧
    (∃ d, CmdResultsGoTest.Resolve { JSONFormat := true, Files := some ["a"] } = Except.ok d ∧
      d.paramKeys = ["files"]) ∧
    (∃ d, CmdArchiveCreate.Resolve { Format := "zip", Target := "t" } = Except.ok d ∧
      d.paramKeys = ["target", "source_dir", "include", "exclude_files"] ∧
      "format" ∉ d.paramKeys) ∧
    (∃ d, CmdArchiveExtract.Resolve { Format := "auto", Path := "p" } = Except.ok d ∧
      d.paramKeys = ["path", "destination", "exclude_files"] ∧
      "format" ∉ d.paramKeys) ∧
    (∃ d d2,
      CmdResultsGoTest.Resolve { JSONFormat := true, Files := some ["a"] } = Except.ok d ∧
      CmdResultsGoTest.Resolve { LegacyFormat := true, Files := some ["a"] } = Except.ok d2 ∧
      d.Params = d2.Params ∧ d.FunctionName = d2.FunctionName ∧ d.Vars = d2.Vars ∧
      d.CommandName ≠ d2.CommandName) := by
  have h := param_keys_fixed_per_variant (.s3Push { MaxRetries := 3 }) (.s3Push {})
    { Binary := "ls" } { JSONFormat := true, Files := some ["a"] }
    { LegacyFormat := true, Files := some ["a"] } { Format := "zip", Target := "t" }
    { Format := "auto", Path := "p" }
  refine ⟨h.1 rfl rfl rfl, h.2.2.1 (by decide), h.2.2.2.1 (by decide),
    h.2.2.2.2.1 (by decide), ?_⟩
  obtain ⟨d, d2, hr, hr2, hp, hf, hv, hn⟩ := h.2.2.2.2.2 (by decide) (by decide) rfl
  exact ⟨d, d2, hr, hr2, hp, hf, hv, hn (Or.inl (by decide))⟩

/-- An archive extraction fails validation exactly when its format is none of
"zip", "tarball" and "auto". -/
theorem archiveExtract_validate_ne_none_iff (e : CmdArchiveExtract) :
    (∃ err, e.Validate = some err) ↔
      (e.Format ≠ "zip" ∧ e.Format ≠ "tarball" ∧ e.Format ≠ "auto") := by
  have h := archiveExtract_validate_eq_none e
  constructor
  · rintro ⟨err, he⟩
    refine ⟨fun hz => ?_, fun ht => ?_, fun ha => ?_⟩
    · rw [h.2 (Or.inl hz)] at he; exact Option.noConfusion he
    · rw [h.2 (Or.inr (Or.inl ht))] at he; exact Option.noConfusion he
    · rw [h.2 (Or.inr (Or.inr ha))] at he; exact Option.noConfusion he
  · rintro ⟨hz, ht, ha⟩
    cases hv : e.Validate with
    | some err => exact ⟨err, rfl⟩
    | none =>
      rcases h.1 hv with h1 | h1 | h1
      · exact absurd h1 hz
      · exact absurd h1 ht
      · exact absurd h1 ha

/-! ## `Name` of the archive commands -/

/-- The three outcomes of `createCmdName`, by format. -/
theorem createCmdName_cases (f : ArchiveFormat) :
    (f = "zip" ∧ ArchiveFormat.createCmdName f = Except.ok "archive.zip_pack" ∧
      ArchiveFormat.Validate f = none) ∨
    (f = "tarball" ∧ ArchiveFormat.createCmdName f = Except.ok "archive.targz_pack" ∧
      ArchiveFormat.Validate f = none) ∨
    (f ≠ "zip" ∧ f ≠ "tarball" ∧
      ArchiveFormat.createCmdName f = Except.error (ArchiveFormat.Validate f) ∧
      ArchiveFormat.Validate f = some ("'" ++ f ++ "' is not a valid archive format")) := by
  by_cases hz : f = "zip"
  · left
    subst hz
    exact ⟨rfl, by simp [ArchiveFormat.createCmdName, ZIP, TARBALL], by decide⟩
  · by_cases ht : f = "tarball"
    · right; left
      subst ht
      exact ⟨rfl, by simp [ArchiveFormat.createCmdName, ZIP, TARBALL], by decide⟩
    · right; right
      refine ⟨hz, ht, ?_, ?_⟩
      · simp [ArchiveFormat.createCmdName, ZIP, TARBALL, hz, ht]
      · simp [ArchiveFormat.Validate, ZIP, TARBALL, hz, ht]

/-- The four outcomes of `extractCmdName`, by format. -/
theorem extractCmdName_cases (f : ArchiveFormat) :
    (f = "zip" ∧ ArchiveFormat.extractCmdName f = Except.ok "archive.zip_extract") ∨
    (f = "tarball" ∧ ArchiveFormat.extractCmdName f = Except.ok "archive.targz_extract") ∨
    (f = "auto" ∧ ArchiveFormat.extractCmdName f = Except.ok "archive.auto_extract") ∨
    (f ≠ "zip" ∧ f ≠ "tarball" ∧ f ≠ "auto" ∧
      ArchiveFormat.extractCmdName f = Except.error (ArchiveFormat.Validate f) ∧
      ArchiveFormat.Validate f = some ("'" ++ f ++ "' is not a valid archive format")) := by
  by_cases hz : f = "zip"
  · left
    subst hz
    exact ⟨rfl, by simp [ArchiveFormat.extractCmdName, ZIP, TARBALL]⟩
  · by_cases ht : f = "tarball"
    · right; left
      subst ht
      exact ⟨rfl, by simp [ArchiveFormat.extractCmdName, ZIP, TARBALL]⟩
    · by_cases ha : f = "auto"
      · right; right; left
        subst ha
        exact ⟨rfl, by simp [ArchiveFormat.extractCmdName, ZIP, TARBALL]⟩
      · right; right; right
        refine ⟨hz, ht, ha, ?_, ?_⟩
        · simp [ArchiveFormat.extractCmdName, ZIP, TARBALL, hz, ht, ha]
        · simp [ArchiveFormat.Validate, ZIP, TARBALL, hz, ht]

/-- C33: `Name()` of an archive command panics exactly when `Validate()` returns
an error. For every `CmdArchiveCreate` c, `c.Name()` panics if and only if
`c.Validate()` is an error, and the panic value is the non-nil error of
`c.Format.Validate()`, which is also `c.Validate()`; with `Format` "auto" it
panics. For every `CmdArchiveExtract` e, `e.Name()` panics if and only if
`e.Validate()` is an error, and the panic value is the non-nil error of
`e.Format.Validate()`, which is also `e.Validate()`. -/
theorem archive_name_panics_iff_invalid (c : CmdArchiveCreate) (e : CmdArchiveExtract) :
    ((∃ p, c.Name = Except.error p) ↔ ∃ err, c.Validate = some err) ∧
    (∀ p, c.Name = Except.error p →
      p = ArchiveFormat.Validate c.Format ∧ p = c.Validate ∧ p ≠ none) ∧
    (c.Format = "auto" →
      c.Name = Except.error (some "'auto' is not a valid archive format")) ∧
    ((∃ p, e.Name = Except.error p) ↔ ∃ err, e.Validate = some err) ∧
    (∀ p, e.Name = Except.error p →
      p = ArchiveFormat.Validate e.Format ∧ p = e.Validate ∧ p ≠ none) := by
  refine ⟨?_, ?_, ?_, ?_, ?_⟩
  · unfold CmdArchiveCreate.Name CmdArchiveCreate.Validate
    rcases createCmdName_cases c.Format with ⟨-, hn, hv⟩ | ⟨-, hn, hv⟩ | ⟨-, -, hn, hv⟩
    · rw [hn, hv]
      exact ⟨fun ⟨_, hp⟩ => Except.noConfusion hp, fun ⟨_, hp⟩ => Option.noConfusion hp⟩
    · rw [hn, hv]
      exact ⟨fun ⟨_, hp⟩ => Except.noConfusion hp, fun ⟨_, hp⟩ => Option.noConfusion hp⟩
    · rw [hn]
      exact ⟨fun _ => ⟨_, hv⟩, fun _ => ⟨_, rfl⟩⟩
  · intro p hp
    unfold CmdArchiveCreate.Name at hp
    unfold CmdArchiveCreate.Validate
    rcases createCmdName_cases c.Format with ⟨-, hn, hv⟩ | ⟨-, hn, hv⟩ | ⟨-, -, hn, hv⟩
    · rw [hn] at hp; exact Except.noConfusion hp
    · rw [hn] at hp; exact Except.noConfusion hp
    · rw [hn] at hp
      have hpe := (Except.error.inj hp).symm
      refine ⟨hpe, hpe, ?_⟩
      rw [hpe, hv]
      exact fun h => Option.noConfusion h
  · intro ha
    unfold CmdArchiveCreate.Name
    rw [ha]
    rfl
  · unfold CmdArchiveExtract.Name
    rw [archiveExtract_validate_ne_none_iff]
    rcases extractCmdName_cases e.Format with ⟨hf, hn⟩ | ⟨hf, hn⟩ | ⟨hf, hn⟩ |
      ⟨hz, ht, ha, hn, -⟩
    · rw [hn]
      exact ⟨fun ⟨_, hp⟩ => Except.noConfusion hp, fun h => absurd hf h.1⟩
    · rw [hn]
      exact ⟨fun ⟨_, hp⟩ => Except.noConfusion hp, fun h => absurd hf h.2.1⟩
    · rw [hn]
      exact ⟨fun ⟨_, hp⟩ => Except.noConfusion hp, fun h => absurd hf h.2.2⟩
    · rw [hn]
      exact ⟨fun _ => ⟨hz, ht, ha⟩, fun _ => ⟨_, rfl⟩⟩
  · intro p hp
    unfold CmdArchiveExtract.Name at hp
    rcases extractCmdName_cases e.Format with ⟨-, hn⟩ | ⟨-, hn⟩ | ⟨-, hn⟩ |
      ⟨-, -, ha, hn, hv⟩
    · rw [hn] at hp; exact Except.noConfusion hp
    · rw [hn] at hp; exact Except.noConfusion hp
    · rw [hn] at hp; exact Except.noConfusion hp
    · rw [hn] at hp
      have hpe := (Except.error.inj hp).symm
      refine ⟨hpe, ?_, ?_⟩
      · rw [hpe]
        simp only [CmdArchiveExtract.Validate, hv]
        rw [if_pos ha]
      · rw [hpe, hv]
        exact fun h => Option.noConfusion h

/-- Witness of C33: a creation with the format "auto" and an extraction with
the format "rar" both panic in `Name` and both fail validation, the panic
value being the validation error. -/
theorem archive_name_panics_iff_invalid_witness :
    CmdArchiveCreate.Name { Format := "auto" } =
      Except.error (some "'auto' is not a valid archive format") ∧
    (∃ err, CmdArchiveCreate.Validate { Format := "auto" } = some err) ∧
    (∃ err, CmdArchiveExtract.Validate { Format := "rar" } = some err) ∧
    (some "'rar' is not a valid archive format" =
      CmdArchiveExtract.Validate { Format := "rar" }) :=
  have h := archive_name_panics_iff_invalid { Format := "auto" } { Format := "rar" }
  ⟨h.2.2.1 rfl, h.1.1 ⟨_, h.2.2.1 rfl⟩, h.2.2.2.1.1 ⟨_, rfl⟩,
    (h.2.2.2.2 (some "'rar' is not a valid archive format") rfl).2.1⟩

/-! ## Wire names and kinds -/

/-- In the table a name belongs to one kind and a kind to one name. -/
theorem kindNameTable_one_to_one :
    ∀ p ∈ kindNameTable, ∀ q ∈ kindNameTable, (p.2 = q.2 ↔ p.1 = q.1) := by
  decide

/-- The names of the table are the names of the source, in the same order. -/
theorem kindNameTable_names : kindNameTable.map Prod.snd = commandNames := by
  decide

/-- A valid command and its name are a row of the table. -/
theorem Command.kind_name_of_valid (c : Command) (n : String) (h : c.Validate = none)
    (hn : c.Name = Except.ok n) : (c.kind, n) ∈ kindNameTable := by
  cases c with
  | exec x =>
    cases hn
    simp only [Command.kind, Command.typeName, CmdExec.Name]
    decide
  | execShell x =>
    cases hn
    simp only [Command.kind, Command.typeName, CmdExecShell.Name]
    decide
  | subprocessScripting x =>
    cases hn
    simp only [Command.kind, Command.typeName, CmdSubprocessScripting.Name]
    decide
  | s3Put x =>
    cases hn
    simp only [Command.kind, Command.typeName, CmdS3Put.Name]
    decide
  | s3Get x =>
    cases hn
    simp only [Command.kind, Command.typeName, CmdS3Get.Name]
    decide
  | s3Copy x =>
    cases hn
    simp only [Command.kind, Command.typeName, CmdS3Copy.Name]
    decide
  | s3Push x =>
    cases hn
    simp only [Command.kind, Command.typeName, CmdS3Push.Name]
    decide
  | s3Pull x =>
    cases hn
    simp only [Command.kind, Command.typeName, CmdS3Pull.Name]
    decide
  | getProject x =>
    cases hn
    simp only [Command.kind, Command.typeName, CmdGetProject.Name]
    decide
  | resultsJSON x =>
    cases hn
    simp only [Command.kind, Command.typeName, CmdResultsJSON.Name]
    decide
  | resultsXunit x =>
    cases hn
    simp only [Command.kind, Command.typeName, CmdResultsXunit.Name]
    decide
  | attachArtifacts x =>
    cases hn
    simp only [Command.kind, Command.typeName, CmdAttachArtifacts.Name]
    decide
  | resultsGoTest g =>
    simp only [Command.Name, CmdResultsGoTest.Name] at hn
    simp only [Command.kind, Command.typeName]
    rcases (goTest_validate_eq_none g).1 h with ⟨hj, hl⟩ | ⟨hj, hl⟩
    · rw [hl] at hn
      cases hn
      rw [hj, hl]
      decide
    · rw [hl] at hn
      cases hn
      rw [hj, hl]
      decide
  | archiveCreate a =>
    simp only [Command.Name, CmdArchiveCreate.Name] at hn
    simp only [Command.kind, Command.typeName]
    rcases createCmdName_cases a.Format with ⟨hf, hm, -⟩ | ⟨hf, hm, -⟩ | ⟨-, -, hm, -⟩
    · rw [hm] at hn
      cases hn
      rw [hf]
      decide
    · rw [hm] at hn
      cases hn
      rw [hf]
      decide
    · rw [hm] at hn
      exact Except.noConfusion hn
  | archiveExtract e =>
    simp only [Command.Name, CmdArchiveExtract.Name] at hn
    simp only [Command.kind, Command.typeName]
    rcases extractCmdName_cases e.Format with ⟨hf, hm⟩ | ⟨hf, hm⟩ | ⟨hf, hm⟩ |
      ⟨-, -, -, hm, -⟩
    · rw [hm] at hn
      cases hn
      rw [hf]
      decide
    · rw [hm] at hn
      cases hn
      rw [hf]
      decide
    · rw [hm] at hn
      cases hn
      rw [hf]
      decide
    · rw [hm] at hn
      exact Except.noConfusion hn

/-- C34: wire names identify the command kind. Two valid commands have names,
resolve to definitions carrying those names, and the names are equal exactly
when the commands are of the same kind, a kind being the struct type together
with the archive format or the gotest encoding; counted this way there are 19
names, pairwise distinct, each returned by `Name` for some valid command. -/
theorem wire_names_identify_kind (c c2 : Command) :
    (c.Validate = none → c2.Validate = none →
      ∃ n n2 d d2, c.Name = Except.ok n ∧ c2.Name = Except.ok n2 ∧
        c.Resolve = Except.ok d ∧ c2.Resolve = Except.ok d2 ∧
        d.CommandName = n ∧ d2.CommandName = n2 ∧
        n ∈ commandNames ∧ n2 ∈ commandNames ∧
        (n = n2 ↔ c.kind = c2.kind)) ∧
    (commandNames.Nodup ∧ commandNames.length = 19) ∧
    (∀ m ∈ commandNames, ∃ c3 : Command, c3.Validate = none ∧ c3.Name = Except.ok m) := by
  refine ⟨?_, ⟨by decide, rfl⟩, ?_⟩
  · intro h h2
    obtain ⟨n, hn, hr⟩ := Command.resolve_of_valid c h
    obtain ⟨n2, hn2, hr2⟩ := Command.resolve_of_valid c2 h2
    have hm := Command.kind_name_of_valid c n h hn
    have hm2 := Command.kind_name_of_valid c2 n2 h2 hn2
    refine ⟨n, n2, _, _, hn, hn2, hr, hr2, rfl, rfl, ?_, ?_, ?_⟩
    · rw [← kindNameTable_names]
      exact List.mem_map_of_mem Prod.snd hm
    · rw [← kindNameTable_names]
      exact List.mem_map_of_mem Prod.snd hm2
    · exact kindNameTable_one_to_one _ hm _ hm2
  · intro m hm
    simp only [commandNames, List.mem_cons, List.mem_singleton, List.not_mem_nil,
      or_false] at hm
    rcases hm with rfl | rfl | rfl | rfl | rfl | rfl | rfl | rfl | rfl | rfl | rfl | rfl |
      rfl | rfl | rfl | rfl | rfl | rfl | rfl
    · exact ⟨.exec {}, rfl, rfl⟩
    · exact ⟨.execShell {}, rfl, rfl⟩
    · exact ⟨.subprocessScripting {}, rfl, rfl⟩
    · exact ⟨.s3Put { CredKey := "k", CredSecret := "s", LocalFile := "f" }, by decide, rfl⟩
    · exact ⟨.s3Get {}, rfl, rfl⟩
    · exact ⟨.s3Copy {}, rfl, rfl⟩
    · exact ⟨.s3Push {}, rfl, rfl⟩
    · exact ⟨.s3Pull {}, rfl, rfl⟩
    · exact ⟨.getProject {}, rfl, rfl⟩
    · exact ⟨.resultsJSON {}, rfl, rfl⟩
    · exact ⟨.resultsXunit {}, rfl, rfl⟩
    · exact ⟨.resultsGoTest { LegacyFormat := true }, by decide, rfl⟩
    · exact ⟨.resultsGoTest { JSONFormat := true }, by decide, rfl⟩
    · exact ⟨.archiveCreate { Format := "zip" }, by decide, rfl⟩
    · exact ⟨.archiveCreate { Format := "tarball" }, by decide, rfl⟩
    · exact ⟨.archiveExtract { Format := "zip" }, by decide, rfl⟩
    · exact ⟨.archiveExtract { Format := "tarball" }, by decide, rfl⟩
    · exact ⟨.archiveExtract { Format := "auto" }, by decide, rfl⟩
    · exact ⟨.attachArtifacts {}, rfl, rfl⟩

/-- Witness of C34: a zip creation and a zip extraction differ in name and in
kind; two gotest commands in the legacy encoding over different files share
their name and their kind. -/
theorem wire_names_identify_kind_witness :
    (∃ n n2, Command.Name (.archiveCreate { Format := "zip" }) = Except.ok n ∧
      Command.Name (.archiveExtract { Format := "zip" }) = Except.ok n2 ∧ n ≠ n2) ∧
    (∃ n n2, Command.Name (.resultsGoTest { LegacyFormat := true, Files := some ["a"] }) =
        Except.ok n ∧
      Command.Name (.resultsGoTest { LegacyFormat := true }) = Except.ok n2 ∧ n = n2) := by
  constructor
  · obtain ⟨n, n2, -, -, hn, hn2, -, -, -, -, -, -, hk⟩ :=
      (wire_names_identify_kind (.archiveCreate { Format := "zip" })
        (.archiveExtract { Format := "zip" })).1 (by decide) (by decide)
    exact ⟨n, n2, hn, hn2, fun e => absurd (hk.1 e) (by decide)⟩
  · obtain ⟨n, n2, -, -, hn, hn2, -, -, -, -, -, -, hk⟩ :=
      (wire_names_identify_kind (.resultsGoTest { LegacyFormat := true, Files := some ["a"] })
        (.resultsGoTest { LegacyFormat := true })).1 (by decide) (by decide)
    exact ⟨n, n2, hn, hn2, hk.2 (by decide)⟩

/-! ## The factories -/

/-- C35: of the eighteen factories, `s3PutFactory` and `goTestResultsFactory`
return a command that fails validation, and `Resolve` of that command panics
with the validation error; each of the other sixteen returns a valid command,
which resolves; and the five archive factories return commands named
"archive.zip_pack", "archive.targz_pack", "archive.zip_extract",
"archive.targz_extract" and "archive.auto_extract". -/
theorem factory_defaults :
    (s3PutFactory.Validate = some "must specify aws credentials" ∧
      s3PutFactory.Resolve = Except.error (some "must specify aws credentials")) ∧
    (goTestResultsFactory.Validate = some "invalid format for gotest operation" ∧
      goTestResultsFactory.Resolve =
        Except.error (some "invalid format for gotest operation")) ∧
    (∀ f ∈ [subprocessExecFactory, shellExecFactory, subprocessScriptingFactory,
        s3GetFactory, s3CopyFactory, s3PushFactory, s3PullFactory, getProjectFactory,
        jsonResultsFactory, xunitResultsFactory, archiveCreateZipFactory,
        archiveCreateTarballFactory, archiveExtractZipFactory, archiveExtractTarballFactory,
        archiveExtractAutoFactory, attachArtifactsFactory],
      f.Validate = none ∧ ∃ d, f.Resolve = Except.ok d) ∧
    archiveCreateZipFactory.Name = Except.ok "archive.zip_pack" ∧
    archiveCreateTarballFactory.Name = Except.ok "archive.targz_pack" ∧
    archiveExtractZipFactory.Name = Except.ok "archive.zip_extract" ∧
    archiveExtractTarballFactory.Name = Except.ok "archive.targz_extract" ∧
    archiveExtractAutoFactory.Name = Except.ok "archive.auto_extract" := by
  refine ⟨⟨by decide, ?_⟩, ⟨by decide, ?_⟩, ?_, rfl, rfl, rfl, rfl, rfl⟩
  · exact Command.resolve_of_invalid _ _ (by decide)
  · exact Command.resolve_of_invalid _ _ (by decide)
  · intro f hf
    have hv : f.Validate = none := by
      simp only [List.mem_cons, List.mem_singleton, List.not_mem_nil, or_false] at hf
      rcases hf with rfl | rfl | rfl | rfl | rfl | rfl | rfl | rfl | rfl | rfl | rfl | rfl |
        rfl | rfl | rfl | rfl <;> decide
    obtain ⟨n, -, hr⟩ := Command.resolve_of_valid f hv
    exact ⟨hv, _, hr⟩

end Shrub
